import Mathlib

/-!
# api-playground: the spec store and the forwarding client

A shallow embedding of `api/internal/storage/specs.go`,
`api/internal/proxy/client.go`, the handlers of `api/internal/handlers` and
the middleware of `api/cmd/server/main.go`, followed by theorems about them.

Conventions of the embedding

* A Go `string` is a Lean `String` and a Go `[]byte` is a `List UInt8`.
* A Go `map[string]V` is a `GoMap V`: a list of entries with pairwise distinct
  keys.  The order of the list is the order in which `range` visits the map in
  the execution at hand; Go leaves that order unspecified, so a theorem about
  every `GoMap` is a theorem about every visiting order.
* A Go `(T, error)` result is an `Except E T`, with one constructor of `E` per
  `fmt.Errorf` site of the source.
* Calls that leave the repository (the file system, `url.Parse`, the HTTP
  round trip, the search of the mux among its patterns) are fields of an
  explicit world (`FileSystem`, `Transport`) or parameters, and the functions
  record the calls they make.
* Where a claim is about what the methods of the store do to its memory, the
  methods are state transformers on a `StoreMemory`, in which the values of the
  maps are references to arrays and structs.
-/

namespace ApiPlayground

/-! ## Go built-ins -/

/-- Contents of a Go `[]byte`. -/
abbrev Bytes := List UInt8

/-- The bytes of an ASCII string literal. -/
def ascii (s : String) : Bytes := s.toList.map (fun c => UInt8.ofNat c.toNat)

/-- Assignment `m[k] = v` on the entries of a map: an existing key keeps its
place and gets the new value, a new key is added. -/
def assignEntry {V : Type} (k : String) (v : V) : List (String × V) → List (String × V)
  | [] => [(k, v)]
  | (k', v') :: rest =>
    if k' = k then (k, v) :: rest else (k', v') :: assignEntry k v rest

/-- A Go `map[string]V`. -/
structure GoMap (V : Type) where
  entries : List (String × V)
  nodup : (entries.map Prod.fst).Nodup

namespace GoMap

/-- The result of `make(map[string]V)`. -/
def empty {V : Type} : GoMap V := ⟨[], List.nodup_nil⟩

/-- The keys, in visiting order. -/
def keys {V : Type} (m : GoMap V) : List String := m.entries.map Prod.fst

/-- The two-valued index expression `v, ok := m[k]`. -/
def get? {V : Type} (m : GoMap V) (k : String) : Option V := m.entries.lookup k

end GoMap

/-- The assignment `m[k] = v`. -/
def GoMap.set {V : Type} (m : GoMap V) (k : String) (v : V) : GoMap V :=
  ⟨assignEntry k v m.entries, by
    have keys : ∀ l : List (String × V), (assignEntry k v l).map Prod.fst =
        if k ∈ l.map Prod.fst then l.map Prod.fst else l.map Prod.fst ++ [k] := by
      intro l
      induction l with
      | nil => simp [assignEntry]
      | cons p rest ih =>
        obtain ⟨k', v'⟩ := p
        by_cases h : k' = k
        · subst h; simp [assignEntry]
        · have h' : ¬ k = k' := fun e => h e.symm
          simp only [assignEntry, h, if_false, List.map_cons, ih, List.mem_cons, h', false_or]
          split <;> simp
    rw [keys]
    split
    · exact m.nodup
    · rename_i hk
      rw [List.nodup_append]
      refine ⟨m.nodup, List.nodup_singleton k, ?_⟩
      intro a ha hb
      simp only [List.mem_singleton] at hb
      subst hb
      exact hk ha⟩

/-! ## strings, sort -/

/-- Go `strings.HasSuffix`. -/
def HasSuffix (s suffix : String) : Bool := suffix.toList.isSuffixOf s.toList

/-- Go `strings.TrimSuffix`. -/
def TrimSuffix (s suffix : String) : String :=
  if HasSuffix s suffix then ⟨s.toList.take (s.toList.length - suffix.toList.length)⟩ else s

/-- Go `sort.Strings`: the ascending arrangement for the order of Go strings,
which compares byte by byte; on UTF-8 text that is the order of the code
points, the lexicographic order of `List Char`. -/
def sortStrings (names : List String) : List String :=
  names.insertionSort (fun a b => a.toList ≤ b.toList)

/-! ## encoding/json -/

/-- A JSON number literal, split at the decimal point and at the exponent,
together with the bytes of the literal as they stand in the text. -/
structure JSONNumber where
  negative : Bool
  intDigits : Bytes
  fracDigits : Bytes
  expNegative : Bool
  expDigits : Bytes
  literal : Bytes
  deriving DecidableEq

/-- A JSON value.  As the value that a text denotes, an object holds its
members in document order, several of them with one key when the text has
them so.  As what Go `json.Unmarshal` stores in an `interface{}`, an object is
a `map[string]interface{}`: a list of members with distinct keys. -/
inductive JSON where
  | null
  | bool (b : Bool)
  | number (n : JSONNumber)
  | string (s : String)
  | array (elems : List JSON)
  | object (members : List (String × JSON))

/-- Why `json.Unmarshal` failed: a `SyntaxError`, or an `UnmarshalTypeError`
with the given `Value`: the kind of the JSON value that does not fit, followed
by the literal when a number does not convert to `float64`. -/
inductive JSONError where
  | syntaxError
  | unmarshalTypeError (value : String)
  deriving DecidableEq

/-- Go `json.isSpace`. -/
def isSpace (c : UInt8) : Bool := c = 0x20 || c = 0x09 || c = 0x0D || c = 0x0A

/-- Skips JSON white space. -/
def skipSpace : Bytes → Bytes
  | [] => []
  | c :: rest => if isSpace c then skipSpace rest else c :: rest

/-- An ASCII decimal digit. -/
def isDigit (c : UInt8) : Bool := 0x30 ≤ c && c ≤ 0x39

/-- The value of a string of decimal digits. -/
def digitsValue (ds : Bytes) : Nat := ds.foldl (fun n d => 10 * n + (d.toNat - 48)) 0

/-- The value of a hexadecimal digit. -/
def hexValue (c : UInt8) : Option Nat :=
  if 0x30 ≤ c && c ≤ 0x39 then some (c.toNat - 0x30)
  else if 0x61 ≤ c && c ≤ 0x66 then some (c.toNat - 0x61 + 10)
  else if 0x41 ≤ c && c ≤ 0x46 then some (c.toNat - 0x41 + 10)
  else none

/-- Go `json.getu4`: the code unit of a `\uXXXX` escape at the head of `bs`. -/
def getu4 : Bytes → Option Nat
  | 0x5C :: 0x75 :: a :: b :: c :: d :: _ =>
    match hexValue a, hexValue b, hexValue c, hexValue d with
    | some x, some y, some z, some w => some (((x * 16 + y) * 16 + z) * 16 + w)
    | _, _, _, _ => none
  | _ => none

/-- A UTF-8 continuation byte. -/
def isCont (b : UInt8) : Bool := 0x80 ≤ b && b ≤ 0xBF

/-- Go `utf8.DecodeRune` on a sequence whose first byte `p0` is not ASCII: the
rune and its width, `(U+FFFD, 1)` for an invalid encoding. -/
def decodeRune (p0 : UInt8) (rest : Bytes) : Nat × Nat :=
  if 0xC2 ≤ p0 && p0 ≤ 0xDF then
    match rest with
    | b1 :: _ =>
      if isCont b1 then ((p0.toNat % 32) * 64 + b1.toNat % 64, 2) else (0xFFFD, 1)
    | _ => (0xFFFD, 1)
  else if 0xE0 ≤ p0 && p0 ≤ 0xEF then
    let lo : UInt8 := if p0 = 0xE0 then 0xA0 else 0x80
    let hi : UInt8 := if p0 = 0xED then 0x9F else 0xBF
    match rest with
    | b1 :: b2 :: _ =>
      if lo ≤ b1 && b1 ≤ hi && isCont b2 then
        (((p0.toNat % 16) * 64 + b1.toNat % 64) * 64 + b2.toNat % 64, 3)
      else (0xFFFD, 1)
    | _ => (0xFFFD, 1)
  else if 0xF0 ≤ p0 && p0 ≤ 0xF4 then
    let lo : UInt8 := if p0 = 0xF0 then 0x90 else 0x80
    let hi : UInt8 := if p0 = 0xF4 then 0x8F else 0xBF
    match rest with
    | b1 :: b2 :: b3 :: _ =>
      if lo ≤ b1 && b1 ≤ hi && isCont b2 && isCont b3 then
        ((((p0.toNat % 8) * 64 + b1.toNat % 64) * 64 + b2.toNat % 64) * 64 + b3.toNat % 64, 4)
      else (0xFFFD, 1)
    | _ => (0xFFFD, 1)
  else (0xFFFD, 1)

/-- The character of a one-letter escape `\c`. -/
def simpleEscape (c : UInt8) : Option Char :=
  if c = 0x22 then some (Char.ofNat 0x22)
  else if c = 0x5C then some (Char.ofNat 0x5C)
  else if c = 0x2F then some (Char.ofNat 0x2F)
  else if c = 0x62 then some (Char.ofNat 0x08)
  else if c = 0x66 then some (Char.ofNat 0x0C)
  else if c = 0x6E then some (Char.ofNat 0x0A)
  else if c = 0x72 then some (Char.ofNat 0x0D)
  else if c = 0x74 then some (Char.ofNat 0x09)
  else none

/-- The scanner and Go `json.unquote` in one pass over the bytes after an
opening quote: the text of the string literal and the input after its closing
quote.  A control byte, an unknown escape or a missing closing quote is a
syntax error; an invalid UTF-8 sequence and an unpaired surrogate escape become
U+FFFD.  Every step consumes a byte, so a fuel of the length of the input
suffices. -/
def scanString : Nat → Bytes → Option (List Char × Bytes)
  | 0, _ => none
  | _ + 1, [] => none
  | fuel + 1, c :: rest =>
    let emit (ch : Char) (bs : Bytes) : Option (List Char × Bytes) :=
      (scanString fuel bs).map (fun r => (ch :: r.1, r.2))
    if c = 0x22 then some ([], rest)
    else if c < 0x20 then none
    else if c = 0x5C then
      match rest with
      | [] => none
      | e :: rest' =>
        if e = 0x75 then
          match getu4 (c :: rest) with
          | none => none
          | some r =>
            let after := rest'.drop 4
            if 0xD800 ≤ r && r < 0xE000 then
              match getu4 after with
              | some r2 =>
                if r < 0xDC00 && 0xDC00 ≤ r2 && r2 < 0xE000 then
                  emit (Char.ofNat ((r - 0xD800) * 1024 + (r2 - 0xDC00) + 0x10000)) (after.drop 6)
                else emit (Char.ofNat 0xFFFD) after
              | none => emit (Char.ofNat 0xFFFD) after
            else emit (Char.ofNat r) after
        else
          match simpleEscape e with
          | some ch => emit ch rest'
          | none => none
    else if c < 0x80 then emit (Char.ofNat c.toNat) rest
    else
      let d := decodeRune c rest
      emit (Char.ofNat d.1) (rest.drop (d.2 - 1))

/-- The scanner on a number literal: `-? (0 | [1-9][0-9]*) (. [0-9]+)? ([eE] [+-]? [0-9]+)?`. -/
def scanNumber (bs : Bytes) : Option (JSONNumber × Bytes) :=
  let sign : Bool × Bytes := match bs with
    | 0x2D :: r => (true, r)
    | _ => (false, bs)
  let intPart : Option (Bytes × Bytes) := match sign.2 with
    | [] => none
    | c :: r =>
      if c = 0x30 then some ([c], r)
      else if isDigit c then some (c :: (r.span isDigit).1, (r.span isDigit).2)
      else none
  match intPart with
  | none => none
  | some (ints, rest) =>
    let fracPart : Option (Bytes × Bytes) := match rest with
      | 0x2E :: r =>
        if (r.span isDigit).1 = [] then none else some ((r.span isDigit).1, (r.span isDigit).2)
      | _ => some ([], rest)
    match fracPart with
    | none => none
    | some (fracs, rest) =>
      if rest.head? = some 0x65 || rest.head? = some 0x45 then
        let r := rest.drop 1
        let esign : Bool × Bytes := match r with
          | 0x2D :: r' => (true, r')
          | 0x2B :: r' => (false, r')
          | _ => (false, r)
        if (esign.2.span isDigit).1 = [] then none
        else
          some (⟨sign.1, ints, fracs, esign.1, (esign.2.span isDigit).1,
              bs.take (bs.length - (esign.2.span isDigit).2.length)⟩,
            (esign.2.span isDigit).2)
      else some (⟨sign.1, ints, fracs, false, [], bs.take (bs.length - rest.length)⟩, rest)

/-- Go `json.maxNestingDepth`. -/
def maxNestingDepth : Nat := 10000

mutual
/-- One JSON value at the head of the input, and the input after it.  `depth`
counts the arrays and objects that are open.  An object comes with its members
in document order, as the decoder meets them. -/
def decodeValue : Nat → Nat → Bytes → Option (JSON × Bytes)
  | 0, _, _ => none
  | fuel + 1, depth, bs =>
    match skipSpace bs with
    | [] => none
    | c :: rest =>
      if c = 0x7B then
        if depth + 1 > maxNestingDepth then none
        else
          match skipSpace rest with
          | 0x7D :: rest' => some (.object [], rest')
          | _ =>
            (decodeMembers fuel (depth + 1) rest).map (fun r => (.object r.1, r.2))
      else if c = 0x5B then
        if depth + 1 > maxNestingDepth then none
        else
          match skipSpace rest with
          | 0x5D :: rest' => some (.array [], rest')
          | _ => (decodeElements fuel (depth + 1) rest).map (fun r => (.array r.1, r.2))
      else if c = 0x22 then
        (scanString rest.length rest).map (fun r => (.string ⟨r.1⟩, r.2))
      else if c = 0x2D || isDigit c then
        (scanNumber (c :: rest)).map (fun r => (.number r.1, r.2))
      else if (ascii "true").isPrefixOf (c :: rest) then some (.bool true, rest.drop 3)
      else if (ascii "false").isPrefixOf (c :: rest) then some (.bool false, rest.drop 4)
      else if (ascii "null").isPrefixOf (c :: rest) then some (.null, rest.drop 3)
      else none
/-- The elements of an array, up to and including the closing bracket. -/
def decodeElements : Nat → Nat → Bytes → Option (List JSON × Bytes)
  | 0, _, _ => none
  | fuel + 1, depth, bs =>
    match decodeValue fuel depth bs with
    | none => none
    | some (v, rest) =>
      match skipSpace rest with
      | 0x2C :: rest' => (decodeElements fuel depth rest').map (fun r => (v :: r.1, r.2))
      | 0x5D :: rest' => some ([v], rest')
      | _ => none
/-- The members of an object, up to and including the closing brace. -/
def decodeMembers : Nat → Nat → Bytes → Option (List (String × JSON) × Bytes)
  | 0, _, _ => none
  | fuel + 1, depth, bs =>
    match skipSpace bs with
    | 0x22 :: rest =>
      match scanString rest.length rest with
      | none => none
      | some (key, rest) =>
        match skipSpace rest with
        | 0x3A :: rest =>
          match decodeValue fuel depth rest with
          | none => none
          | some (v, rest) =>
            match skipSpace rest with
            | 0x2C :: rest' =>
              (decodeMembers fuel depth rest').map (fun r => ((⟨key⟩, v) :: r.1, r.2))
            | 0x7D :: rest' => some ([(⟨key⟩, v)], rest')
            | _ => none
        | _ => none
    | _ => none
end

/-- A whole JSON text: one value between optional white space.  Every call of
the decoder above consumes a byte before it calls itself twice more, so the
fuel below is never exhausted; `none` is a syntax error (Go `checkValid`). -/
def decodeText (data : Bytes) : Option JSON :=
  match decodeValue (2 * data.length + 2) 0 data with
  | some (v, rest) => if skipSpace rest = [] then some v else none
  | none => none

/-- Go `json.Valid`. -/
def jsonValid (data : Bytes) : Bool := (decodeText data).isSome

/-- Whether Go `strconv.ParseFloat(s, 64)` reports `ErrRange` for the literal:
its magnitude `m * 10^e` reaches `2^1024 - 2^970`, half an ulp above the
largest `float64`.  A magnitude below `10^308` is in range and one of at least
`10^401` is not; the shortcuts keep the powers of ten below the size of the
literal. -/
def float64Overflows (n : JSONNumber) : Bool :=
  let digits := n.intDigits ++ n.fracDigits
  let m := digitsValue digits
  let e := digitsValue n.expDigits
  if m = 0 then false
  else if !n.expNegative && n.fracDigits.length ≤ e then
    let up := e - n.fracDigits.length
    if digits.length + up ≤ 308 then false
    else if 400 < up then true
    else decide (2 ^ 1024 - 2 ^ 970 ≤ m * 10 ^ up)
  else
    let down := if n.expNegative then e + n.fracDigits.length else n.fracDigits.length - e
    if digits.length ≤ 308 + down then false
    else decide ((2 ^ 1024 - 2 ^ 970) * 10 ^ down ≤ m)

mutual
/-- What the decoder stores in an `interface{}` for a value of the text: the
members of an object are assigned one after the other, `m[key] = value`, so
the last of several members with one key wins, and a number that does not
convert to `float64` leaves `nil`. -/
def JSON.stored : JSON → JSON
  | .number n => if float64Overflows n then .null else .number n
  | .array es => .array (storedList es)
  | .object ms => .object ((storedMembers ms).foldl (fun m kv => assignEntry kv.1 kv.2 m) [])
  | v => v
/-- The same for the elements of an array. -/
def storedList : List JSON → List JSON
  | [] => []
  | v :: vs => v.stored :: storedList vs
/-- The same for the members of an object, still in document order. -/
def storedMembers : List (String × JSON) → List (String × JSON)
  | [] => []
  | (k, v) :: ms => (k, v.stored) :: storedMembers ms
end

/-- The `UnmarshalTypeError` of Go `convertNumber` for a literal that does not
convert to `float64`. -/
def rangeError (n : JSONNumber) : JSONError :=
  .unmarshalTypeError ("number " ++ String.mk (n.literal.map (fun b => Char.ofNat b.toNat)))

mutual
/-- The error that the decoder has saved (Go `saveError`, which keeps the first
one) once it has stored the value in an `interface{}`: that of the first
number of the text, a member that is overwritten later included, that does not
convert to `float64`. -/
def JSON.savedError : JSON → Option JSONError
  | .number n => if float64Overflows n then some (rangeError n) else none
  | .array es => savedErrorList es
  | .object ms => savedErrorMembers ms
  | _ => none
/-- The same for the elements of an array. -/
def savedErrorList : List JSON → Option JSONError
  | [] => none
  | v :: vs => v.savedError.or (savedErrorList vs)
/-- The same for the members of an object. -/
def savedErrorMembers : List (String × JSON) → Option JSONError
  | [] => none
  | (_, v) :: ms => v.savedError.or (savedErrorMembers ms)
end

mutual
/-- Whether every number of the value converts to a `float64`. -/
def JSON.numbersInRange : JSON → Bool
  | .number n => !float64Overflows n
  | .array es => numbersInRangeList es
  | .object ms => numbersInRangeMembers ms
  | _ => true
/-- The same for the elements of an array. -/
def numbersInRangeList : List JSON → Bool
  | [] => true
  | v :: vs => v.numbersInRange && numbersInRangeList vs
/-- The same for the members of an object. -/
def numbersInRangeMembers : List (String × JSON) → Bool
  | [] => true
  | (_, v) :: ms => v.numbersInRange && numbersInRangeMembers ms
end

/-- The kind of a value as named in an `UnmarshalTypeError`. -/
def JSON.kind : JSON → String
  | .null => "null"
  | .bool _ => "bool"
  | .number _ => "number"
  | .string _ => "string"
  | .array _ => "array"
  | .object _ => "object"

/-- Go `json.Unmarshal(data, &specDoc)` for a nil `specDoc` of type
`map[string]interface{}`.  The text must be valid JSON (Go `checkValid`, which
runs first).  A top-level object is stored member by member, and the call
returns the saved error, if any, when it is through; `null` leaves the map
nil; any other top-level value is a type error and is skipped. -/
def unmarshalSpecDoc (data : Bytes) : Except JSONError (List (String × JSON)) :=
  match decodeText data with
  | none => .error .syntaxError
  | some (.object members) =>
    match savedErrorMembers members with
    | some e => .error e
    | none => .ok ((storedMembers members).foldl (fun m kv => assignEntry kv.1 kv.2 m) [])
  | some .null => .ok []
  | some other => .error (.unmarshalTypeError other.kind)

/-! ## net/textproto and net/http -/

/-- Go `textproto.validHeaderFieldByte`: the token characters of RFC 7230.
Every character outside ASCII is encoded by bytes above 127, none of which is
a token byte. -/
def validHeaderFieldByte (c : Char) : Bool :=
  c.isAlphanum ||
    [33, 35, 36, 37, 38, 39, 42, 43, 45, 46, 94, 95, 96, 124, 126].contains c.toNat

/-- The rewriting loop of Go `textproto.canonicalMIMEHeaderKey`: upper case for
the first letter and for a letter after a hyphen, lower case elsewhere. -/
def canonicalMIMEHeaderKey : Bool → List Char → List Char
  | _, [] => []
  | upper, c :: cs =>
    let c' := if upper && c.isLower then c.toUpper
              else if !upper && c.isUpper then c.toLower else c
    c' :: canonicalMIMEHeaderKey (c' == '-') cs

/-- Go `textproto.CanonicalMIMEHeaderKey`: a key holding a byte that is not a
token byte is returned unchanged, any other key is put in canonical form. -/
def CanonicalMIMEHeaderKey (s : String) : String :=
  if s.toList.all validHeaderFieldByte then ⟨canonicalMIMEHeaderKey true s.toList⟩ else s

/-- Go `http.Header`, a `map[string][]string`. -/
abbrev Header := GoMap (List String)

/-- Go `http.Header.Set`: `h[CanonicalMIMEHeaderKey(key)] = []string{value}`. -/
def Header.Set (h : Header) (key value : String) : Header :=
  GoMap.set h (CanonicalMIMEHeaderKey key) [value]

/-- Go `delete(m, k)` on a map. -/
def GoMap.delete {V : Type} (m : GoMap V) (k : String) : GoMap V :=
  ⟨m.entries.filter (fun p => p.1 != k),
    m.nodup.sublist ((List.filter_sublist m.entries).map Prod.fst)⟩

/-- Go `http.Header.Del`: `delete(h, CanonicalMIMEHeaderKey(key))`. -/
def Header.Del (h : Header) (key : String) : Header :=
  GoMap.delete h (CanonicalMIMEHeaderKey key)

/-- Go `http.Header.Get`: the first value stored under the canonical form of
the key, the empty string when there is none. -/
def Header.Get (h : Header) (key : String) : String :=
  match GoMap.get? h (CanonicalMIMEHeaderKey key) with
  | some (v :: _) => v
  | _ => ""

/-- Go `url.Userinfo`: a user name and, when one is set, a password. -/
structure Userinfo where
  username : String
  password : Option String
  deriving DecidableEq

/-- Go `url.URL`. -/
structure URL where
  Scheme : String
  Opaque : String
  User : Option Userinfo
  Host : String
  Path : String
  RawPath : String
  OmitHost : Bool
  ForceQuery : Bool
  RawQuery : String
  Fragment : String
  RawFragment : String
  deriving DecidableEq

/-- Go `strings.LastIndex(s, sep)` for a separator `sep` of one character: the
byte index of its last occurrence in `s`, or -1.  `off` is the byte index of
the head of the list and `last` the result so far. -/
def lastIndexFrom (sep : Char) : List Char → Nat → Int → Int
  | [], _, last => last
  | c :: cs, off, last => lastIndexFrom sep cs (off + c.utf8Size) (if c = sep then off else last)

/-- Go `http.hasPort`: `strings.LastIndex(s, ":") > strings.LastIndex(s, "]")`. -/
def hasPort (s : String) : Bool :=
  decide (lastIndexFrom ':' s.toList 0 (-1) > lastIndexFrom ']' s.toList 0 (-1))

/-- Go `http.removeEmptyPort`: strips the empty port in `host:`. -/
def removeEmptyPort (host : String) : String :=
  if hasPort host then TrimSuffix host ":" else host

/-- The fields of a Go `*http.Request` that `Forward` determines. -/
structure HttpRequest where
  Method : String
  URL : URL
  Host : String
  Header : Header
  Body : Option Bytes

/-- The fields of a Go `*http.Response` that `Forward` reads; `Body` is what
`io.ReadAll(httpResp.Body)` yields. -/
structure HttpResponse where
  StatusCode : Int
  Header : Header
  Body : Except String Bytes

/-- What `Forward` calls outside the repository: `url.Parse`, with the error
or the URL it returns for a target, and `httpClient.Do`, with what it answers
to a request. -/
structure Transport where
  parseURL : String → Except String URL
  Do : HttpRequest → Except String HttpResponse

/-! ## internal/storage: the store interface -/

/-- Go `storage.ServiceConfig`; `AuthHeaders` is `none` for a nil map. -/
structure ServiceConfig where
  BaseURL : String
  AuthHeaders : Option (GoMap String)

/-- The ways in which loading one directory of specs fails, one per
`fmt.Errorf` of `loadSpecs`. -/
inductive LoadError where
  | readDirectory (cause : String)
  | readSpecFile (name cause : String)
  | invalidJSON (name : String) (cause : JSONError)
  | marshalProxyConfig (name cause : String)
  | invalidProxyConfig (name : String) (cause : JSONError)
  deriving DecidableEq

/-- Errors of package `storage`: the exported `ErrServiceNotFound` and one
constructor per `fmt.Errorf` of `NewFileSpecStore`, `Get` and `GetConfig`. -/
inductive StoreError where
  | ErrServiceNotFound
  | directoryDoesNotExist (specsDir : String)
  | failedToLoadSpecs (err : LoadError)
  | specNotFound (serviceName : String)
  | configNotFound (serviceName : String)
  deriving DecidableEq

/-- Go interface `storage.SpecStore`. -/
structure SpecStore where
  List : Except StoreError (List String)
  Get : String → Except StoreError Bytes
  GetConfig : String → Except StoreError ServiceConfig

/-! ## internal/storage: decoding the proxy config -/

/-- Go `json.Marshal` on a value that `Unmarshal` stored in an `interface{}`,
written as the value that the text denotes: the keys of every map come out
sorted.  It has no error case on such a value. -/
def sortMembers (members : List (String × JSON)) : List (String × JSON) :=
  members.insertionSort (fun a b => a.1.toList ≤ b.1.toList)

mutual
/-- The value denoted by the output of `json.Marshal`. -/
def JSON.marshal : JSON → JSON
  | .array es => .array (marshalList es)
  | .object ms => .object (sortMembers (marshalMembers ms))
  | v => v
/-- The same for the elements of an array. -/
def marshalList : List JSON → List JSON
  | [] => []
  | v :: vs => v.marshal :: marshalList vs
/-- The same for the members of an object. -/
def marshalMembers : List (String × JSON) → List (String × JSON)
  | [] => []
  | (k, v) :: ms => (k, v.marshal) :: marshalMembers ms
end

/-- Go `json.Marshal(proxyConfigRaw)`. -/
def jsonMarshal (v : JSON) : Except String JSON := .ok v.marshal

/-- Go `json.foldName` on one character, as far as equality with an ASCII name
goes: ASCII letters go to upper case, and of all other runes only the long s
and the Kelvin sign fold to an ASCII letter. -/
def foldChar (c : Char) : Char :=
  if c = Char.ofNat 0x17F then 'S' else if c = Char.ofNat 0x212A then 'K' else c.toUpper

/-- Go `json.foldName`. -/
def foldName (s : String) : List Char := s.toList.map foldChar

/-- The fields of `ServiceConfig`. -/
inductive ConfigField where
  | BaseURL
  | AuthHeaders
  deriving DecidableEq

/-- The field that the decoder picks for an object key: the one whose JSON name
is the key, failing that the one whose folded name is the folded key. -/
def findField (key : String) : Option ConfigField :=
  if key = "baseURL" then some .BaseURL
  else if key = "authHeaders" then some .AuthHeaders
  else if foldName key = foldName "baseURL" then some .BaseURL
  else if foldName key = foldName "authHeaders" then some .AuthHeaders
  else none

/-- The state of the decoder: the struct being filled and the first
`UnmarshalTypeError` saved so far. -/
structure DecodeState where
  config : ServiceConfig
  saved : Option JSONError

/-- Saves an error unless one is saved already (Go `saveError`). -/
def DecodeState.saveError (st : DecodeState) (e : JSONError) : DecodeState :=
  { st with saved := st.saved.or (some e) }

/-- One member of the `authHeaders` object stored into the `map[string]string`:
a string is stored, `null` stores the zero value, anything else stores the zero
value and saves a type error. -/
def storeAuthHeader (acc : GoMap String × Option JSONError) (kv : String × JSON) :
    GoMap String × Option JSONError :=
  match kv.2 with
  | .string v => (acc.1.set kv.1 v, acc.2)
  | .null => (acc.1.set kv.1 "", acc.2)
  | other => (acc.1.set kv.1 "", acc.2.or (some (.unmarshalTypeError other.kind)))

/-- One member of the config object stored into the struct. -/
def storeField (st : DecodeState) (kv : String × JSON) : DecodeState :=
  match findField kv.1 with
  | none => st
  | some .BaseURL =>
    match kv.2 with
    | .string v => { st with config := { st.config with BaseURL := v } }
    | .null => st
    | other => st.saveError (.unmarshalTypeError other.kind)
  | some .AuthHeaders =>
    match kv.2 with
    | .object members =>
      let r := members.foldl storeAuthHeader (st.config.AuthHeaders.getD GoMap.empty, st.saved)
      { config := { st.config with AuthHeaders := some r.1 }, saved := r.2 }
    | .null => { st with config := { st.config with AuthHeaders := none } }
    | other => st.saveError (.unmarshalTypeError other.kind)

/-- Go `json.Unmarshal(configBytes, &config)` for a zero `ServiceConfig`: an
object fills the fields member by member, `null` leaves the struct as it is,
any other value is a type error. -/
def unmarshalServiceConfig (configBytes : JSON) : Except JSONError ServiceConfig :=
  let zero : DecodeState := { config := { BaseURL := "", AuthHeaders := none }, saved := none }
  match configBytes with
  | .object members =>
    let st := members.foldl storeField zero
    match st.saved with
    | some e => .error e
    | none => .ok st.config
  | .null => .ok zero.config
  | other => .error (.unmarshalTypeError other.kind)

/-! ## internal/storage: the file store -/

/-- Go `os.DirEntry`, as far as `loadSpecs` looks at it. -/
structure DirEntry where
  Name : String
  IsDir : Bool
  deriving DecidableEq

/-- What the operating system answers about `specsDir`: whether `os.Stat`
fails with a does-not-exist error, the result of `os.ReadDir`, and the result
of `os.ReadFile(filepath.Join(specsDir, name))` for every name.  The names of
a directory listing are pairwise distinct. -/
structure FileSystem where
  statIsNotExist : Bool
  ReadDir : Except String (List DirEntry)
  ReadFile : String → Except String Bytes
  names_nodup : ∀ entries, ReadDir = .ok entries → (entries.map DirEntry.Name).Nodup

/-- Go `storage.FileSpecStore`. -/
structure FileSpecStore where
  specsDir : String
  specs : GoMap Bytes
  configs : GoMap ServiceConfig

/-- What a call of `loadSpecs` did: its error or the store it filled, and the
names of the files it handed to `os.ReadFile`, in order. -/
structure LoadOutcome where
  result : Except LoadError FileSpecStore
  reads : List String

/-- The body of the loop of `loadSpecs` below the two `continue` guards, from
the data read for one entry. -/
def loadSpec (s : FileSpecStore) (name : String) (data : Bytes) :
    Except LoadError FileSpecStore :=
  -- Extract service name (filename without .json extension)
  let serviceName := TrimSuffix name ".json"
  -- Parse spec to extract proxy config
  match unmarshalSpecDoc data with
  | .error e => .error (.invalidJSON name e)
  | .ok specDoc =>
    -- Extract x-proxy-config if present
    match specDoc.lookup "x-proxy-config" with
    | some proxyConfigRaw =>
      match jsonMarshal proxyConfigRaw with
      | .error e => .error (.marshalProxyConfig name e)
      | .ok configBytes =>
        match unmarshalServiceConfig configBytes with
        | .error e => .error (.invalidProxyConfig name e)
        | .ok config =>
          -- Store full spec in memory
          .ok { s with configs := s.configs.set serviceName config
                       specs := s.specs.set serviceName data }
    | none => .ok { s with specs := s.specs.set serviceName data }

/-- The loop `for _, entry := range entries` of `loadSpecs`. -/
def loadEntries (fs : FileSystem) : List DirEntry → FileSpecStore → List String → LoadOutcome
  | [], s, reads => ⟨.ok s, reads⟩
  | entry :: entries, s, reads =>
    -- Skip directories
    if entry.IsDir then loadEntries fs entries s reads
    -- Only process .json files
    else if !HasSuffix entry.Name ".json" then loadEntries fs entries s reads
    else
      -- Read file
      match fs.ReadFile entry.Name with
      | .error e => ⟨.error (.readSpecFile entry.Name e), reads ++ [entry.Name]⟩
      | .ok data =>
        match loadSpec s entry.Name data with
        | .error e => ⟨.error e, reads ++ [entry.Name]⟩
        | .ok s' => loadEntries fs entries s' (reads ++ [entry.Name])

/-- Go `(*FileSpecStore).loadSpecs`. -/
def loadSpecs (fs : FileSystem) (s : FileSpecStore) : LoadOutcome :=
  match fs.ReadDir with
  | .error e => ⟨.error (.readDirectory e), []⟩
  | .ok entries => loadEntries fs entries s []

/-- Go `NewFileSpecStore`. -/
def NewFileSpecStore (fs : FileSystem) (specsDir : String) : Except StoreError FileSpecStore :=
  -- Check if directory exists
  if fs.statIsNotExist then .error (.directoryDoesNotExist specsDir)
  else
    let store : FileSpecStore :=
      { specsDir := specsDir, specs := GoMap.empty, configs := GoMap.empty }
    -- Load all spec files
    match (loadSpecs fs store).result with
    | .error err => .error (.failedToLoadSpecs err)
    | .ok store => .ok store

/-- Go `(*FileSpecStore).List`. -/
def FileSpecStore.List (s : FileSpecStore) : Except StoreError (List String) :=
  let names := s.specs.entries.foldl (fun names kv => names ++ [kv.1]) []
  .ok (sortStrings names)

/-- Go `(*FileSpecStore).Get`. -/
def FileSpecStore.Get (s : FileSpecStore) (serviceName : String) : Except StoreError Bytes :=
  match s.specs.get? serviceName with
  | none => .error (.specNotFound serviceName)
  | some spec => .ok spec

/-- Go `(*FileSpecStore).GetConfig`. -/
def FileSpecStore.GetConfig (s : FileSpecStore) (serviceName : String) :
    Except StoreError ServiceConfig :=
  match s.configs.get? serviceName with
  | none => .error (.configNotFound serviceName)
  | some config => .ok config

/-- A `*FileSpecStore` used as a `storage.SpecStore`. -/
def FileSpecStore.toSpecStore (s : FileSpecStore) : SpecStore where
  List := s.List
  Get := s.Get
  GetConfig := s.GetConfig

/-! ## internal/proxy -/

/-- Go `proxy.Request`; `Headers` is `none` for a nil map. -/
structure Request where
  Service : String
  Method : String
  Path : String
  Headers : Option (GoMap String)
  Body : Bytes

/-- Go `proxy.Response`. -/
structure Response where
  StatusCode : Int
  Headers : Header
  Body : Bytes

/-- The errors of `Forward`, one per `fmt.Errorf` of the function. -/
inductive ForwardError where
  | invalidHTTPMethod (method : String)
  | serviceNotFound (service : String)
  | failedToCreateRequest (cause : String)
  | requestFailed (cause : String)
  | failedToReadResponseBody (cause : String)
  deriving DecidableEq

/-- Go `isValidHTTPMethod`: membership in the `validMethods` map literal. -/
def isValidHTTPMethod (method : String) : Bool :=
  ["GET", "POST", "PUT", "PATCH", "DELETE", "HEAD", "OPTIONS"].contains method

/-- Go `http.validMethod`: a non-empty token. -/
def validMethod (method : String) : Bool :=
  method.length > 0 && method.toList.all validHeaderFieldByte

/-- Go `http.NewRequest`: it fails when the method is not a token or `url.Parse`
rejects the target.  Otherwise it strips an empty port from the host of the
URL that `url.Parse` returned, and yields a request with that URL, its host,
and an empty header. -/
def NewRequest (t : Transport) (method url : String) (body : Option Bytes) :
    Except String HttpRequest :=
  let method := if method = "" then "GET" else method
  if !validMethod method then .error "net/http: invalid method"
  else
    match t.parseURL url with
    | .error e => .error e
    | .ok u =>
      -- The host's colon:port should be normalized.
      let u := { u with Host := removeEmptyPort u.Host }
      .ok { Method := method, URL := u, Host := u.Host, Header := GoMap.empty, Body := body }

/-- The loop `for key, value := range m { httpReq.Header.Set(key, value) }`,
guarded by `m != nil`. -/
def setHeaders (h : Header) : Option (GoMap String) → Header
  | none => h
  | some m => m.entries.foldl (fun acc kv => Header.Set acc kv.1 kv.2) h

/-- What a call of `Forward` did: its return value, the arguments of every
call of `http.NewRequest`, and the requests handed to `httpClient.Do`. -/
structure Outcome where
  result : Except ForwardError Response
  created : List (String × String × Option Bytes)
  sent : List HttpRequest

/-- Go `(*Client).Forward`. -/
def Forward (t : Transport) (store : SpecStore) (req : Request) : Outcome :=
  -- Validate method
  if !isValidHTTPMethod req.Method then
    ⟨.error (.invalidHTTPMethod req.Method), [], []⟩
  else
    -- Get service config
    match store.GetConfig req.Service with
    | .error _ => ⟨.error (.serviceNotFound req.Service), [], []⟩
    | .ok config =>
      -- Construct target URL
      let targetURL := config.BaseURL ++ req.Path
      -- Create HTTP request
      let bodyReader : Option Bytes := if req.Body.length > 0 then some req.Body else none
      let created := [(req.Method, targetURL, bodyReader)]
      match NewRequest t req.Method targetURL bodyReader with
      | .error e => ⟨.error (.failedToCreateRequest e), created, []⟩
      | .ok httpReq =>
        -- Set auth headers from config first
        let h := setHeaders httpReq.Header config.AuthHeaders
        -- Overlay request headers (allows override)
        let h := setHeaders h req.Headers
        -- Set Content-Type if body is present and not already set
        let h := if req.Body.length > 0 && Header.Get h "Content-Type" == "" then
                   Header.Set h "Content-Type" "application/json"
                 else h
        let httpReq := { httpReq with Header := h }
        -- Execute request
        match t.Do httpReq with
        | .error e => ⟨.error (.requestFailed e), created, [httpReq]⟩
        | .ok httpResp =>
          -- Read response body
          match httpResp.Body with
          | .error e => ⟨.error (.failedToReadResponseBody e), created, [httpReq]⟩
          | .ok respBody =>
            -- Build response
            ⟨.ok { StatusCode := httpResp.StatusCode
                   Headers := httpResp.Header
                   Body := respBody }, created, [httpReq]⟩

/-! ## Inputs used by the examples -/

/-- What `url.Parse` returns for a target of the form `scheme://host/path`
whose scheme is made of lower-case letters and whose host and path are made of
letters, digits, `.`, `-`, `:` and `/`: the scheme, the host up to the first
slash, and the path from that slash on.  The example backends are reached
through targets of this form. -/
def parseTarget (target : String) : URL :=
  let scheme := target.toList.takeWhile (fun c => c != ':')
  let rest := target.toList.drop (scheme.length + 3)
  { Scheme := ⟨scheme⟩, Opaque := "", User := none,
    Host := ⟨rest.takeWhile (fun c => c != '/')⟩,
    Path := ⟨rest.dropWhile (fun c => c != '/')⟩, RawPath := "",
    OmitHost := false, ForceQuery := false, RawQuery := "", Fragment := "", RawFragment := "" }

/-- A transport whose backend echoes the request body with status 200. -/
def echoTransport : Transport where
  parseURL := fun target => .ok (parseTarget target)
  Do := fun r => .ok { StatusCode := 200, Header := GoMap.empty, Body := .ok (r.Body.getD []) }

/-- A store with the single service `svc`, configured with one auth header. -/
def oneServiceStore (authKey authValue : String) : SpecStore where
  List := .ok ["svc"]
  Get := fun n => if n = "svc" then .ok (ascii "\x7b\x7d") else .error (.specNotFound n)
  GetConfig := fun n =>
    if n = "svc" then
      .ok { BaseURL := "http://backend", AuthHeaders := some (GoMap.set GoMap.empty authKey authValue) }
    else .error (.configNotFound n)

/-- A `GET /x` to `svc` carrying the request headers `hs`. -/
def getRequest (hs : GoMap String) (body : Bytes) : Request :=
  { Service := "svc", Method := "GET", Path := "/x", Headers := some hs, Body := body }

/-- The request headers `Authorization: Bearer B` and `authorization: Bearer C`,
visited in that order. -/
def caseVariantHeaders : GoMap String :=
  GoMap.set (GoMap.set GoMap.empty "Authorization" "Bearer B") "authorization" "Bearer C"

/-- The single header `Content-Type` with an empty value. -/
def emptyContentType : GoMap String := GoMap.set GoMap.empty "Content-Type" ""

/-- The single header `Authorization: Bearer B`. -/
def bearerB : GoMap String := GoMap.set GoMap.empty "Authorization" "Bearer B"

/-- A store whose single service `svc` has no auth headers. -/
def emptyConfigStore : SpecStore where
  List := .ok ["svc"]
  Get := fun n => if n = "svc" then .ok (ascii "\x7b\x7d") else .error (.specNotFound n)
  GetConfig := fun n =>
    if n = "svc" then .ok { BaseURL := "http://backend", AuthHeaders := none }
    else .error (.configNotFound n)

/-- A store without any service. -/
def emptyStore : SpecStore where
  List := .ok []
  Get := fun n => .error (.specNotFound n)
  GetConfig := fun n => .error (.configNotFound n)

/-- The entries that `loadSpecs` does not skip: not a directory, and a name
ending in `.json`. -/
def isSpecFile (e : DirEntry) : Bool := !e.IsDir && HasSuffix e.Name ".json"

/-- The service names that `loadSpecs` derives from a directory listing. -/
def serviceNames (entries : List DirEntry) : List String :=
  (entries.filter isSpecFile).map (fun e => TrimSuffix e.Name ".json")

/-- The directory of the repository's test `IgnoresNonJSONFiles`, with a
subdirectory added: `rag-api.json` holding `{"openapi":"3.0.0"}`, `readme.txt`
holding `some text`, and a directory `sub.json`. -/
def mixedDirectory : FileSystem where
  statIsNotExist := false
  ReadDir := .ok [⟨"rag-api.json", false⟩, ⟨"readme.txt", false⟩, ⟨"sub.json", true⟩]
  ReadFile := fun n =>
    if n = "rag-api.json" then .ok (ascii "\x7b\"openapi\":\"3.0.0\"\x7d")
    else if n = "readme.txt" then .ok (ascii "some text")
    else .error "is a directory"
  names_nodup := by
    intro entries h
    cases h
    decide

/-- The store that `NewFileSpecStore` builds from `mixedDirectory`. -/
def mixedStore : FileSpecStore :=
  { specsDir := "specs"
    specs := GoMap.set GoMap.empty "rag-api" (ascii "\x7b\"openapi\":\"3.0.0\"\x7d")
    configs := GoMap.empty }

/-- A directory with the valid `rag-api.json` and, after it, `invalid.json`
holding `{invalid json}`, as in the repository's test `InvalidJSON`. -/
def brokenDirectory : FileSystem where
  statIsNotExist := false
  ReadDir := .ok [⟨"rag-api.json", false⟩, ⟨"invalid.json", false⟩]
  ReadFile := fun n =>
    if n = "rag-api.json" then .ok (ascii "\x7b\"openapi\":\"3.0.0\"\x7d")
    else .ok (ascii "\x7binvalid json\x7d")
  names_nodup := by
    intro entries h
    cases h
    decide

/-- A directory whose single file `a.json` holds `data`. -/
def singleFile (data : Bytes) : FileSystem where
  statIsNotExist := false
  ReadDir := .ok [⟨"a.json", false⟩]
  ReadFile := fun _ => .ok data
  names_nodup := by
    intro entries h
    cases h
    decide

/-- The entries of a possibly nil map, in visiting order. -/
def entriesOf {V : Type} : Option (GoMap V) → List (String × V)
  | none => []
  | some m => m.entries

/-- The header that `Forward` leaves in `httpReq` before it calls
`httpClient.Do`: the three header steps of the function applied to the empty
header of a new request. -/
def outboundHeader (config : ServiceConfig) (req : Request) : Header :=
  let h := setHeaders (setHeaders GoMap.empty config.AuthHeaders) req.Headers
  if req.Body.length > 0 && Header.Get h "Content-Type" == "" then
    Header.Set h "Content-Type" "application/json"
  else h

/-- The request that `Forward` hands to `httpClient.Do`, where `u` is the URL
that `url.Parse` returned for the target. -/
def outboundRequest (config : ServiceConfig) (req : Request) (u : URL) : HttpRequest :=
  { Method := req.Method
    URL := { u with Host := removeEmptyPort u.Host }
    Host := removeEmptyPort u.Host
    Header := outboundHeader config req
    Body := if req.Body.length > 0 then some req.Body else none }

mutual
/-- Whether every object inside the value has pairwise distinct keys, as a Go
map has. -/
def JSON.distinctKeys : JSON → Bool
  | .array es => distinctKeysList es
  | .object ms => decide ((ms.map Prod.fst).Nodup) && distinctKeysMembers ms
  | _ => true
/-- The same for the elements of an array. -/
def distinctKeysList : List JSON → Bool
  | [] => true
  | v :: vs => v.distinctKeys && distinctKeysList vs
/-- The same for the values of the members of an object. -/
def distinctKeysMembers : List (String × JSON) → Bool
  | [] => true
  | (_, v) :: ms => v.distinctKeys && distinctKeysMembers ms
end

/-! ## The shapes that the config decoder takes -/

/-- A value that the decoder stores into a Go `string` field without a type
error: a string, or `null`, which leaves the field as it is. -/
def acceptsString : JSON → Bool
  | .string _ => true
  | .null => true
  | _ => false

/-- A value that the decoder stores into a Go `map[string]string` field
without a type error: an object whose values are strings or `null`, or `null`. -/
def acceptsStringMap : JSON → Bool
  | .object hs => hs.all (fun p => acceptsString p.2)
  | .null => true
  | _ => false

/-- A member of the config object that the decoder takes without a type error:
one that names no field of `ServiceConfig`, or one whose value fits the field
it names. -/
def acceptsField (p : String × JSON) : Bool :=
  match findField p.1 with
  | none => true
  | some .BaseURL => acceptsString p.2
  | some .AuthHeaders => acceptsStringMap p.2

/-- An `x-proxy-config` value that decodes into a `ServiceConfig` without a
type error: an object all of whose members are taken, or `null`. -/
def acceptsConfig : JSON → Bool
  | .object ms => ms.all acceptsField
  | .null => true
  | _ => false

/-! ## The memory behind a store -/

/-- The address of an object on the Go heap. -/
abbrev Addr := Nat

/-- Go `map[string]V` with every value replaced by its image under `f`. -/
def GoMap.mapValues {V W : Type} (f : V → W) (m : GoMap V) : GoMap W :=
  ⟨m.entries.map (fun p => (p.1, f p.2)), by
    have h : (m.entries.map (fun p => (p.1, f p.2))).map Prod.fst = m.entries.map Prod.fst := by
      rw [List.map_map]
      rfl
    rw [h]
    exact m.nodup⟩

/-- The memory that a `*FileSpecStore` reaches.  The values of its two maps are
references: a `json.RawMessage` is a slice, which points at a backing array,
and a `*ServiceConfig` is a pointer to a struct.  `arrays` and `structs` give
the object behind each address; the map of `AuthHeaders` is kept with the
struct that points to it. -/
structure StoreMemory where
  specsDir : String
  specs : GoMap Addr
  configs : GoMap Addr
  arrays : Addr → Bytes
  structs : Addr → ServiceConfig

/-- The store that the memory holds: every reference is replaced by the object
behind it. -/
def StoreMemory.view (m : StoreMemory) : FileSpecStore :=
  { specsDir := m.specsDir
    specs := m.specs.mapValues m.arrays
    configs := m.configs.mapValues m.structs }

/-- A memory that holds the given store: the values of the maps are laid out
at the addresses 0, 1, 2 and so on, in the order of the entries. -/
def StoreMemory.ofStore (s : FileSpecStore) : StoreMemory :=
  { specsDir := s.specsDir
    specs := ⟨s.specs.entries.enum.map (fun p => (p.2.1, p.1)), by
      have h : (s.specs.entries.enum.map (fun p => (p.2.1, p.1))).map Prod.fst
          = (s.specs.entries.enum.map Prod.snd).map Prod.fst := by
        rw [List.map_map, List.map_map]
        rfl
      rw [h, List.enum_map_snd]
      exact s.specs.nodup⟩
    configs := ⟨s.configs.entries.enum.map (fun p => (p.2.1, p.1)), by
      have h : (s.configs.entries.enum.map (fun p => (p.2.1, p.1))).map Prod.fst
          = (s.configs.entries.enum.map Prod.snd).map Prod.fst := by
        rw [List.map_map, List.map_map]
        rfl
      rw [h, List.enum_map_snd]
      exact s.configs.nodup⟩
    arrays := fun a => ((s.specs.entries.get? a).map Prod.snd).getD []
    structs := fun a =>
      ((s.configs.entries.get? a).map Prod.snd).getD { BaseURL := "", AuthHeaders := none } }

/-- The statement `spec, exists := s.specs[serviceName]`: it reads the map. -/
def StoreMemory.indexSpecs (serviceName : String) : StateM StoreMemory (Option Addr) := do
  let m ← get
  pure (m.specs.get? serviceName)

/-- The statement `config, exists := s.configs[serviceName]`: it reads the map. -/
def StoreMemory.indexConfigs (serviceName : String) : StateM StoreMemory (Option Addr) := do
  let m ← get
  pure (m.configs.get? serviceName)

/-- The keys that `for name := range s.specs` visits, in order: it reads the
map. -/
def StoreMemory.rangeSpecs : StateM StoreMemory (List String) := do
  let m ← get
  pure m.specs.keys

/-- A read through a `*ServiceConfig`, as in `config.BaseURL` and in
`range config.AuthHeaders`. -/
def StoreMemory.load (config : Addr) : StateM StoreMemory ServiceConfig := do
  let m ← get
  pure (m.structs config)

/-- The assignment `spec[i] = b` through a slice: it writes to the backing
array.  None of the methods below holds such a statement. -/
def StoreMemory.assignByte (spec : Addr) (i : Nat) (b : UInt8) : StateM StoreMemory Unit :=
  modify fun m =>
    { m with arrays := fun a => if a = spec then (m.arrays a).set i b else m.arrays a }

/-- Go `(*FileSpecStore).List`, statement by statement on the memory. -/
def StoreMemory.List : StateM StoreMemory (Except StoreError (List String)) := do
  -- for name := range s.specs { names = append(names, name) }
  let keys ← StoreMemory.rangeSpecs
  let names := keys.foldl (fun names name => names ++ [name]) []
  pure (.ok (sortStrings names))

/-- Go `(*FileSpecStore).Get`, statement by statement on the memory: it
returns the slice that the map holds, not a copy of its bytes. -/
def StoreMemory.Get (serviceName : String) : StateM StoreMemory (Except StoreError Addr) := do
  match ← StoreMemory.indexSpecs serviceName with
  | none => pure (.error (.specNotFound serviceName))
  | some spec => pure (.ok spec)

/-- Go `(*FileSpecStore).GetConfig`, statement by statement on the memory: it
returns the pointer that the map holds. -/
def StoreMemory.GetConfig (serviceName : String) :
    StateM StoreMemory (Except StoreError Addr) := do
  match ← StoreMemory.indexConfigs serviceName with
  | none => pure (.error (.configNotFound serviceName))
  | some config => pure (.ok config)

/-- Go `(*Client).Forward`, statement by statement on the memory of the store
of the client. -/
def StoreMemory.Forward (t : Transport) (req : Request) : StateM StoreMemory Outcome := do
  -- Validate method
  if !isValidHTTPMethod req.Method then
    pure ⟨.error (.invalidHTTPMethod req.Method), [], []⟩
  else do
    -- Get service config
    match ← StoreMemory.GetConfig req.Service with
    | .error _ => pure ⟨.error (.serviceNotFound req.Service), [], []⟩
    | .ok config =>
      -- Construct target URL
      let targetURL := (← StoreMemory.load config).BaseURL ++ req.Path
      -- Create HTTP request
      let bodyReader : Option Bytes := if req.Body.length > 0 then some req.Body else none
      let created := [(req.Method, targetURL, bodyReader)]
      match NewRequest t req.Method targetURL bodyReader with
      | .error e => pure ⟨.error (.failedToCreateRequest e), created, []⟩
      | .ok httpReq =>
        -- Set auth headers from config first
        let h := setHeaders httpReq.Header (← StoreMemory.load config).AuthHeaders
        -- Overlay request headers (allows override)
        let h := setHeaders h req.Headers
        -- Set Content-Type if body is present and not already set
        let h := if req.Body.length > 0 && Header.Get h "Content-Type" == "" then
                   Header.Set h "Content-Type" "application/json"
                 else h
        let httpReq := { httpReq with Header := h }
        -- Execute request
        match t.Do httpReq with
        | .error e => pure ⟨.error (.requestFailed e), created, [httpReq]⟩
        | .ok httpResp =>
          -- Read response body
          match httpResp.Body with
          | .error e => pure ⟨.error (.failedToReadResponseBody e), created, [httpReq]⟩
          | .ok respBody =>
            -- Build response
            pure ⟨.ok { StatusCode := httpResp.StatusCode
                        Headers := httpResp.Header
                        Body := respBody }, created, [httpReq]⟩

/-! ## Calls on a store, one after the other -/

/-- A call of one of the methods that read the store: the three of
`FileSpecStore`, and `Forward` of a client built on it. -/
inductive Call where
  | List
  | Get (serviceName : String)
  | GetConfig (serviceName : String)
  | Forward (t : Transport) (req : Request)

/-- What a call returns: `Get` returns a slice and `GetConfig` a pointer. -/
inductive Reply where
  | names (r : Except StoreError (List String))
  | spec (r : Except StoreError Addr)
  | config (r : Except StoreError Addr)
  | forwarded (o : Outcome)

/-- One call: what it returns, and the memory after it. -/
def Call.run : Call → StateM StoreMemory Reply
  | .List => do return .names (← StoreMemory.List)
  | .Get serviceName => do return .spec (← StoreMemory.Get serviceName)
  | .GetConfig serviceName => do return .config (← StoreMemory.GetConfig serviceName)
  | .Forward t req => do return .forwarded (← StoreMemory.Forward t req)

/-- A sequence of calls, each on the memory that the one before it left: the
replies in order. -/
def runCalls : List Call → StateM StoreMemory (List Reply)
  | [] => pure []
  | c :: cs => do
    let r ← c.run
    let rs ← runCalls cs
    return r :: rs

/-! ## More inputs used by the examples -/

/-- Go `url.stringContainsCTLByte`: a byte below 0x20 or the byte 0x7f. -/
def stringContainsCTLByte (s : String) : Bool :=
  s.toList.any (fun c => c.toNat < 0x20 || c.toNat = 0x7F)

/-- A transport whose `url.Parse` makes the first check of the Go function,
which rejects a target with an ASCII control character, and whose backend
answers every request with status `status` and the request body. -/
def echoStatusTransport (status : Int) : Transport where
  parseURL := fun url =>
    if stringContainsCTLByte url then .error "net/url: invalid control character in URL"
    else .ok (parseTarget url)
  Do := fun r => .ok { StatusCode := status, Header := GoMap.empty, Body := .ok (r.Body.getD []) }

/-- A request with the method, path and body given, to the service `svc`,
without headers. -/
def plainRequest (method path : String) (body : Bytes) : Request :=
  { Service := "svc", Method := method, Path := path, Headers := none, Body := body }

/-- The spec of the repository's test `GetConfig_WithAuth`:
`{"openapi":"3.0.0","x-proxy-config":{"baseURL":"https://api.example.com",
"authHeaders":{"Authorization":"Bearer token123","X-Api-Key":"secret"}}}`. -/
def authSpec : Bytes :=
  ascii ("\x7b\"openapi\":\"3.0.0\",\"x-proxy-config\":\x7b\"baseURL\":\"https://api.example.com\"," ++
    "\"authHeaders\":\x7b\"Authorization\":\"Bearer token123\",\"X-Api-Key\":\"secret\"\x7d\x7d\x7d")

/-- The `x-proxy-config` object of `authSpec`, decoded. -/
def authConfigMembers : List (String × JSON) :=
  [("baseURL", .string "https://api.example.com"),
   ("authHeaders", .object [("Authorization", .string "Bearer token123"),
                            ("X-Api-Key", .string "secret")])]

/-- A spec whose `x-proxy-config` has the members `baseURL` and `baseurl`:
`{"x-proxy-config":{"baseURL":"http://x","baseurl":"http://y"}}`. -/
def twoBaseURLSpec : Bytes :=
  ascii "\x7b\"x-proxy-config\":\x7b\"baseURL\":\"http://x\",\"baseurl\":\"http://y\"\x7d\x7d"

/-- A directory with the valid `rag-api.json` and, after it, `bad.json`
holding `{"x-proxy-config":{"baseURL":5}}`. -/
def badConfigDirectory : FileSystem where
  statIsNotExist := false
  ReadDir := .ok [⟨"rag-api.json", false⟩, ⟨"bad.json", false⟩]
  ReadFile := fun n =>
    if n = "rag-api.json" then .ok (ascii "\x7b\"openapi\":\"3.0.0\"\x7d")
    else .ok (ascii "\x7b\"x-proxy-config\":\x7b\"baseURL\":5\x7d\x7d")
  names_nodup := by
    intro entries h
    cases h
    decide

/-- The store that `NewFileSpecStore` builds from the directory whose single
file `a.json` holds `authSpec`. -/
def authStore : FileSpecStore :=
  { specsDir := "specs"
    specs := GoMap.set GoMap.empty "a" authSpec
    configs := GoMap.set GoMap.empty "a"
      { BaseURL := "https://api.example.com"
        AuthHeaders := some (GoMap.set (GoMap.set GoMap.empty
          "Authorization" "Bearer token123") "X-Api-Key" "secret") } }

/-! ## net/http: the server side -/

/-- What a handler wrote to the body of a response: the bytes given to
`w.Write`, or the value given to `json.NewEncoder(w).Encode`, whose bytes are
those that `encoding/json` makes of it: a proxy response, or a list of service
names. -/
inductive Written where
  | bytes (b : Bytes)
  | encoded (resp : Response)
  | encodedNames (names : List String)

/-- Go `http.ResponseWriter`: the header map `w.Header()`, the status code and
the header that went out with it once `WriteHeader` has run, and what was
written to the body, in order. -/
structure ResponseWriter where
  header : Header
  wroteHeader : Option (Int × Header)
  body : List Written

/-- The assignment `w.Header().Set(key, value)`. -/
def ResponseWriter.SetHeader (w : ResponseWriter) (key value : String) : ResponseWriter :=
  { w with header := Header.Set w.header key value }

/-- Go `w.WriteHeader(code)`: the first call sends the status code with the
header as it is then, a later call does nothing. -/
def ResponseWriter.WriteHeader (w : ResponseWriter) (code : Int) : ResponseWriter :=
  match w.wroteHeader with
  | some _ => w
  | none => { w with wroteHeader := some (code, w.header) }

/-- Go `w.Write(b)`, and a write by an encoder: it calls `WriteHeader(200)`
when no status code was sent yet. -/
def ResponseWriter.Write (w : ResponseWriter) (item : Written) : ResponseWriter :=
  { w.WriteHeader 200 with body := (w.WriteHeader 200).body ++ [item] }

/-- The status code of the response: the one sent by `WriteHeader`, 200 when
the handler returns without having sent one. -/
def ResponseWriter.statusCode (w : ResponseWriter) : Int :=
  match w.wroteHeader with
  | some (code, _) => code
  | none => 200

/-- The header of the response: the one sent by `WriteHeader`, the header map
at the return of the handler when none was sent before. -/
def ResponseWriter.responseHeader (w : ResponseWriter) : Header :=
  match w.wroteHeader with
  | some (_, h) => h
  | none => w.header

/-- The statement `w.Header().Del(key)`. -/
def ResponseWriter.DelHeader (w : ResponseWriter) (key : String) : ResponseWriter :=
  { w with header := Header.Del w.header key }

/-- Go `http.Error(w, error, code)`. -/
def httpError (w : ResponseWriter) (error : String) (code : Int) : ResponseWriter :=
  ((((w.DelHeader "Content-Length").SetHeader "Content-Type" "text/plain; charset=utf-8").SetHeader
    "X-Content-Type-Options" "nosniff").WriteHeader code).Write (.bytes (ascii (error ++ "\n")))

/-- The fields of the Go `*http.Request` that the handlers read: the method,
the wildcards that the mux matched, and the bytes of the body. -/
structure InboundRequest where
  Method : String
  PathValues : List (String × String)
  Body : Bytes

/-- Go `r.PathValue(name)`: the empty string when there is no such wildcard. -/
def InboundRequest.PathValue (r : InboundRequest) (name : String) : String :=
  (r.PathValues.lookup name).getD ""

/-- Go `http.Handler`, as a function on the response writer. -/
abbrev Handler := ResponseWriter → InboundRequest → ResponseWriter

/-! ## internal/handlers and cmd/server -/

/-- Go `(*ProxyHandler).Handle`.  `decode` is `json.NewDecoder(r.Body).Decode`
into a `proxy.Request`; the result is the writer at the return of the handler
and the requests handed to `proxyClient.Forward`.  The calls of the logger are
left out. -/
def ProxyHandler.Handle (decode : Bytes → Except String Request) (t : Transport)
    (store : SpecStore) (w : ResponseWriter) (r : InboundRequest) :
    ResponseWriter × List Request :=
  match decode r.Body with
  | .error _ => (httpError w "invalid request body" 400, [])
  | .ok req =>
    match (Forward t store req).result with
    | .error _ => (httpError w "proxy request failed" 502, [req])
    | .ok resp =>
      let w := w.SetHeader "Content-Type" "application/json"
      let w := w.WriteHeader 200
      (w.Write (.encoded resp), [req])

/-- Go `(*SpecsHandler).Get`: the writer at the return of the handler and the
names handed to `store.Get`. -/
def SpecsHandler.Get (store : SpecStore) (w : ResponseWriter) (r : InboundRequest) :
    ResponseWriter × List String :=
  let serviceName := r.PathValue "service"
  if serviceName = "" then (httpError w "service name required" 400, [])
  else
    match store.Get serviceName with
    | .error _ => (httpError w "spec not found" 404, [serviceName])
    | .ok spec =>
      let w := w.SetHeader "Content-Type" "application/json"
      (w.Write (.bytes spec), [serviceName])

/-- Go `(*HealthHandler).Check`. -/
def HealthHandler.Check (w : ResponseWriter) (_r : InboundRequest) : ResponseWriter :=
  (w.WriteHeader 200).Write (.bytes (ascii "ok"))

/-- Go `(*SpecsHandler).List`.  The calls of the logger are left out. -/
def SpecsHandler.List (store : SpecStore) (w : ResponseWriter) (_r : InboundRequest) :
    ResponseWriter :=
  match store.List with
  | .error _ => httpError w "internal error" 500
  | .ok services =>
    let w := w.SetHeader "Content-Type" "application/json"
    w.Write (.encodedNames services)

/-- The four patterns that `routes` registers with the mux: `GET /health`,
`GET /api/specs`, `GET /api/specs/{service}` and `POST /api/proxy`. -/
inductive Route where
  | health
  | specsList
  | specsGet
  | proxy

/-- What Go `(*ServeMux).ServeHTTP` finds for a request: a registered pattern
that matches, with the values of its wildcards; a redirect to the clean form
of the path (`RedirectHandler`), with the value of `Location` and the page
that goes with it; a pattern that matches but for the method, with the
methods that are allowed; no pattern at all (`NotFoundHandler`); or the
request target `*`, for a request of HTTP/1.1 or later or not. -/
inductive MuxChoice where
  | registered (route : Route) (wildcards : List (String × String))
  | redirect (location : String) (page : Bytes)
  | methodNotAllowed (allowedMethods : String)
  | notFound
  | star (http11 : Bool)

/-- Go `http.Redirect` with the code 301, for the location and the page that
the function makes of the target. -/
def Redirect (w : ResponseWriter) (r : InboundRequest) (location : String) (page : Bytes) :
    ResponseWriter :=
  let hadCT := (GoMap.get? w.header "Content-Type").isSome
  let w := w.SetHeader "Location" location
  let w := if !hadCT && (r.Method = "GET" || r.Method = "HEAD") then
             w.SetHeader "Content-Type" "text/html; charset=utf-8"
           else w
  let w := w.WriteHeader 301
  -- Shouldn't send the body for POST or HEAD; that leaves GET.
  if !hadCT && r.Method = "GET" then w.Write (.bytes page) else w

/-- Go `(*ServeMux).ServeHTTP`.  `find` is the search of the mux among the
registered patterns, which the model leaves open; what the mux does with each
outcome of the search is what the Go function does. -/
def ServeMux.ServeHTTP (find : InboundRequest → MuxChoice) (handlers : Route → Handler)
    (w : ResponseWriter) (r : InboundRequest) : ResponseWriter :=
  match find r with
  | .star http11 =>
    let w := if http11 then w.SetHeader "Connection" "close" else w
    w.WriteHeader 400
  | .registered route wildcards => handlers route w { r with PathValues := wildcards }
  | .redirect location page => Redirect w r location page
  | .methodNotAllowed allowedMethods =>
    httpError (w.SetHeader "Allow" allowedMethods) "Method Not Allowed" 405
  | .notFound => httpError w "404 page not found" 404

/-- Go `(*Server).logging`: it calls the wrapped handler; the call of the
logger that follows is left out. -/
def Server.logging (next : Handler) (w : ResponseWriter) (r : InboundRequest) :
    ResponseWriter :=
  next w r

/-- Go `(*Server).cors`: the writer at the return of the middleware and the
arguments of the calls of `next.ServeHTTP`. -/
def Server.cors (next : Handler) (w : ResponseWriter) (r : InboundRequest) :
    ResponseWriter × List (ResponseWriter × InboundRequest) :=
  -- Set CORS headers
  let w := w.SetHeader "Access-Control-Allow-Origin" "*"
  let w := w.SetHeader "Access-Control-Allow-Methods" "GET, POST, PUT, PATCH, DELETE, OPTIONS"
  let w := w.SetHeader "Access-Control-Allow-Headers" "Content-Type, Authorization"
  let w := w.SetHeader "Access-Control-Max-Age" "86400"
  -- Handle preflight requests
  if r.Method = "OPTIONS" then (w.WriteHeader 204, [])
  else (next w r, [(w, r)])

/-- The handlers of `routes`, by pattern. -/
def Server.handlers (decode : Bytes → Except String Request) (t : Transport)
    (store : SpecStore) : Route → Handler
  | .health => HealthHandler.Check
  | .specsList => SpecsHandler.List store
  | .specsGet => fun w r => (SpecsHandler.Get store w r).1
  | .proxy => fun w r => (ProxyHandler.Handle decode t store w r).1

/-- Go `(*Server).routes`: `s.cors(s.logging(mux))` for the mux with the four
patterns. -/
def Server.routes (decode : Bytes → Except String Request) (t : Transport)
    (store : SpecStore) (find : InboundRequest → MuxChoice) : Handler :=
  fun w r =>
    (Server.cors (Server.logging (ServeMux.ServeHTTP find (Server.handlers decode t store)))
      w r).1

/-- The header map of the writer and the header of the response both hold `v`
under the name `k`. -/
def ResponseWriter.holds (w : ResponseWriter) (k : String) (v : Option (List String)) : Prop :=
  GoMap.get? w.header k = v ∧ GoMap.get? w.responseHeader k = v

/-- The four headers that the middleware sets. -/
def carriesCORS (h : Header) : Prop :=
  GoMap.get? h "Access-Control-Allow-Origin" = some ["*"] ∧
  GoMap.get? h "Access-Control-Allow-Methods"
    = some ["GET, POST, PUT, PATCH, DELETE, OPTIONS"] ∧
  GoMap.get? h "Access-Control-Allow-Headers" = some ["Content-Type, Authorization"] ∧
  GoMap.get? h "Access-Control-Max-Age" = some ["86400"]

/-- The names of the four headers that the middleware sets. -/
def corsNames : List String :=
  ["Access-Control-Allow-Origin", "Access-Control-Allow-Methods",
   "Access-Control-Allow-Headers", "Access-Control-Max-Age"]

/-- A response writer on which nothing was set, sent or written. -/
def freshWriter : ResponseWriter := { header := GoMap.empty, wroteHeader := none, body := [] }

/-- A decoder that takes the bytes `ok` for the request `req` and fails on all
others. -/
def decodeOnly (ok : Bytes) (req : Request) : Bytes → Except String Request :=
  fun b => if b = ok then .ok req else .error "invalid character"

/-- The writer after the four `Set` calls of the middleware. -/
def corsWriter (w : ResponseWriter) : ResponseWriter :=
  (((w.SetHeader "Access-Control-Allow-Origin" "*").SetHeader
    "Access-Control-Allow-Methods" "GET, POST, PUT, PATCH, DELETE, OPTIONS").SetHeader
    "Access-Control-Allow-Headers" "Content-Type, Authorization").SetHeader
    "Access-Control-Max-Age" "86400"

/-- The map `caseVariantHeaders` visited in the other order:
`authorization: Bearer C`, then `Authorization: Bearer B`. -/
def caseVariantHeadersReversed : GoMap String :=
  GoMap.set (GoMap.set GoMap.empty "authorization" "Bearer C") "Authorization" "Bearer B"

/-- A header name with its ASCII letters in lower case: two names differ only
in letter case when they have the same `lowerName`. -/
def lowerName (s : String) : List Char := s.toList.map Char.toLower

/-- Whether a header name is a token, which is when
`CanonicalMIMEHeaderKey` puts it in canonical form. -/
def isToken (s : String) : Bool := s.toList.all validHeaderFieldByte

/-- Two headers visited in the order `Authorization`, `X-Api-Key`. -/
def twoHeaders : GoMap String :=
  GoMap.set (GoMap.set GoMap.empty "Authorization" "Bearer B") "X-Api-Key" "secret"

/-- The same two headers visited in the order `X-Api-Key`, `Authorization`. -/
def twoHeadersReversed : GoMap String :=
  GoMap.set (GoMap.set GoMap.empty "X-Api-Key" "secret") "Authorization" "Bearer B"

/-- The single header `authorization: Bearer B`, named in lower case. -/
def lowerBearerB : GoMap String := GoMap.set GoMap.empty "authorization" "Bearer B"

/-- The single header `x y: b`, whose name holds a space and is no token. -/
def spacedHeader : GoMap String := GoMap.set GoMap.empty "x y" "b"

/-- The single header `content-type`, named in lower case, with the empty
value. -/
def lowerEmptyContentType : GoMap String := GoMap.set GoMap.empty "content-type" ""

/-- A store whose single service `svc` has the base URL given and no auth
headers. -/
def baseURLStore (base : String) : SpecStore where
  List := .ok ["svc"]
  Get := fun n => if n = "svc" then .ok (ascii "\x7b\x7d") else .error (.specNotFound n)
  GetConfig := fun n =>
    if n = "svc" then .ok { BaseURL := base, AuthHeaders := none }
    else .error (.configNotFound n)

/-- A store that holds the single spec `{}` under the name `a`. -/
def oneSpecStore : FileSpecStore :=
  { specsDir := "specs"
    specs := GoMap.set GoMap.empty "a" (ascii "\x7b\x7d")
    configs := GoMap.empty }

/-- A caller that fetches the spec `a` and assigns the byte `[` to the first
element of the slice it got. -/
def writeThroughGet : StateM StoreMemory Unit := do
  match ← StoreMemory.Get "a" with
  | .error _ => return ()
  | .ok spec => StoreMemory.assignByte spec 0 0x5B

/-! # Theorems -/

/-! ## Go maps -/

theorem lookup_assignEntry_self {V : Type} (k : String) (v : V) (l : List (String × V)) :
    (assignEntry k v l).lookup k = some v := by
  induction l with
  | nil => simp [assignEntry, List.lookup]
  | cons p rest ih =>
    obtain ⟨k', v'⟩ := p
    by_cases h : k' = k
    · simp [assignEntry, h, List.lookup]
    · have h' : (k == k') = false := by simpa using fun e => h e.symm
      simp [assignEntry, h, List.lookup, h', ih]

theorem lookup_assignEntry_ne {V : Type} (k k' : String) (v : V) (l : List (String × V))
    (hne : k' ≠ k) : (assignEntry k v l).lookup k' = l.lookup k' := by
  induction l with
  | nil =>
    have h' : (k' == k) = false := by simpa using hne
    simp [assignEntry, List.lookup, h']
  | cons p rest ih =>
    obtain ⟨k1, v1⟩ := p
    by_cases h : k1 = k
    · subst h
      have h' : (k' == k1) = false := by simpa using hne
      simp [assignEntry, List.lookup, h']
    · simp only [assignEntry, h, if_false, List.lookup, ih]

theorem GoMap.get?_set_self {V : Type} (m : GoMap V) (k : String) (v : V) :
    (m.set k v).get? k = some v :=
  lookup_assignEntry_self k v m.entries

theorem GoMap.get?_set_ne {V : Type} (m : GoMap V) (k k' : String) (v : V) (hne : k' ≠ k) :
    (m.set k v).get? k' = m.get? k' :=
  lookup_assignEntry_ne k k' v m.entries hne

/-! ## Headers -/

/-- Visiting entries none of which has canonical form `c` leaves `c` alone. -/
theorem foldl_Set_get?_of_absent (c : String) (l : List (String × String)) (h : Header)
    (habs : ∀ p ∈ l, CanonicalMIMEHeaderKey p.1 ≠ c) :
    GoMap.get? (l.foldl (fun acc kv => Header.Set acc kv.1 kv.2) h) c = GoMap.get? h c := by
  induction l generalizing h with
  | nil => rfl
  | cons p rest ih =>
    rw [List.foldl_cons, ih _ (fun q hq => habs q (List.mem_cons_of_mem _ hq))]
    exact GoMap.get?_set_ne h _ c _ (fun e => habs p (List.mem_cons_self _ _) e.symm)

/-- Visiting entries all of which carry `v` under the canonical form `c` ends
with `v` under `c`, when one such entry is visited or `v` was there before. -/
theorem foldl_Set_get?_of_agree (c v : String) (l : List (String × String)) (h : Header)
    (hall : ∀ p ∈ l, CanonicalMIMEHeaderKey p.1 = c → p.2 = v)
    (hex : (∃ p ∈ l, CanonicalMIMEHeaderKey p.1 = c) ∨ GoMap.get? h c = some [v]) :
    GoMap.get? (l.foldl (fun acc kv => Header.Set acc kv.1 kv.2) h) c = some [v] := by
  induction l generalizing h with
  | nil =>
    rcases hex with ⟨p, hp, _⟩ | hh
    · cases hp
    · exact hh
  | cons p rest ih =>
    rw [List.foldl_cons]
    apply ih _ (fun q hq => hall q (List.mem_cons_of_mem _ hq))
    by_cases hpc : CanonicalMIMEHeaderKey p.1 = c
    · right
      have hv : p.2 = v := hall p (List.mem_cons_self _ _) hpc
      unfold Header.Set
      rw [hpc, hv]
      exact GoMap.get?_set_self h c [v]
    · rcases hex with ⟨q, hq, hqc⟩ | hh
      · rcases List.mem_cons.1 hq with rfl | hq'
        · exact absurd hqc hpc
        · exact Or.inl ⟨q, hq', hqc⟩
      · right
        unfold Header.Set
        rw [GoMap.get?_set_ne h _ c _ (fun e => hpc e.symm)]
        exact hh

theorem setHeaders_get?_of_absent (c : String) (m : Option (GoMap String)) (h : Header)
    (habs : ∀ p ∈ entriesOf m, CanonicalMIMEHeaderKey p.1 ≠ c) :
    GoMap.get? (setHeaders h m) c = GoMap.get? h c := by
  cases m with
  | none => rfl
  | some m => exact foldl_Set_get?_of_absent c m.entries h habs

theorem setHeaders_get?_of_agree (c v : String) (m : Option (GoMap String)) (h : Header)
    (hall : ∀ p ∈ entriesOf m, CanonicalMIMEHeaderKey p.1 = c → p.2 = v)
    (hex : (∃ p ∈ entriesOf m, CanonicalMIMEHeaderKey p.1 = c) ∨ GoMap.get? h c = some [v]) :
    GoMap.get? (setHeaders h m) c = some [v] := by
  cases m with
  | none =>
    rcases hex with ⟨p, hp, _⟩ | hh
    · cases hp
    · exact hh
  | some m => exact foldl_Set_get?_of_agree c v m.entries h hall hex

/-- The `Content-Type` default does not touch a key that holds `v`, unless the
key is `Content-Type`, `v` is empty and there is a body. -/
theorem outboundHeader_get?_of_merged (config : ServiceConfig) (req : Request) (c v : String)
    (hmerged : GoMap.get? (setHeaders (setHeaders GoMap.empty config.AuthHeaders) req.Headers) c
      = some [v])
    (hct : ¬ (c = "Content-Type" ∧ v = "" ∧ req.Body ≠ [])) :
    GoMap.get? (outboundHeader config req) c = some [v] := by
  unfold outboundHeader
  simp only []
  split
  · rename_i hcond
    by_cases hc : c = "Content-Type"
    · exfalso
      apply hct
      simp only [Bool.and_eq_true, decide_eq_true_eq, beq_iff_eq] at hcond
      refine ⟨hc, ?_, ?_⟩
      · have hget := hcond.2
        unfold Header.Get at hget
        have hcan : CanonicalMIMEHeaderKey "Content-Type" = "Content-Type" := by decide
        rw [hcan, ← hc, hmerged] at hget
        exact hget
      · intro hb
        rw [hb] at hcond
        simp at hcond
    · unfold Header.Set
      have hcan : CanonicalMIMEHeaderKey "Content-Type" = "Content-Type" := by decide
      rw [hcan, GoMap.get?_set_ne _ _ c _ hc]
      exact hmerged
  · exact hmerged

/-! ## Forward -/

theorem isValidHTTPMethod_iff (method : String) :
    isValidHTTPMethod method = true ↔
      method ∈ ["GET", "POST", "PUT", "PATCH", "DELETE", "HEAD", "OPTIONS"] := by
  unfold isValidHTTPMethod
  simp

theorem validMethod_of_isValidHTTPMethod (method : String)
    (h : isValidHTTPMethod method = true) : method ≠ "" ∧ validMethod method = true := by
  rw [isValidHTTPMethod_iff] at h
  simp only [List.mem_cons, List.mem_singleton, List.not_mem_nil, or_false] at h
  rcases h with rfl | rfl | rfl | rfl | rfl | rfl | rfl <;> decide

/-- Every request that `Forward` hands to `httpClient.Do` is `outboundRequest`
for the config of the service, after the method and the target were accepted. -/
theorem Forward_sent (t : Transport) (store : SpecStore) (req : Request) (r : HttpRequest)
    (hr : r ∈ (Forward t store req).sent) :
    isValidHTTPMethod req.Method = true ∧
      ∃ config u, store.GetConfig req.Service = .ok config ∧
        t.parseURL (config.BaseURL ++ req.Path) = .ok u ∧ r = outboundRequest config req u := by
  unfold Forward at hr
  by_cases hm : isValidHTTPMethod req.Method = true
  · refine ⟨hm, ?_⟩
    obtain ⟨hne, hvm⟩ := validMethod_of_isValidHTTPMethod _ hm
    simp only [hm, Bool.not_true, Bool.false_eq_true, if_false] at hr
    cases hcfg : store.GetConfig req.Service with
    | error e => simp [hcfg] at hr
    | ok config =>
      simp only [hcfg, NewRequest, hne, if_false, hvm, Bool.not_true, Bool.false_eq_true] at hr
      cases hp : t.parseURL (config.BaseURL ++ req.Path) with
      | error e => simp [hp] at hr
      | ok u =>
        refine ⟨config, u, rfl, hp, ?_⟩
        simp only [hp] at hr
        have key : ∀ o : Outcome, r ∈ o.sent → o.sent = [outboundRequest config req u] →
            r = outboundRequest config req u := by
          intro o h1 h2
          rw [h2] at h1
          simpa using h1
        apply key _ hr
        unfold outboundRequest outboundHeader
        cases t.Do _ with
        | error e => rfl
        | ok resp =>
          cases hb : resp.Body with
          | error e => simp [hb]
          | ok b => simp [hb]
  · simp [hm] at hr

/-- A request is handed to `httpClient.Do` as soon as the method, the service
and the target are accepted. -/
theorem Forward_sent_of_accepted (t : Transport) (store : SpecStore) (req : Request)
    (config : ServiceConfig) (u : URL) (hm : isValidHTTPMethod req.Method = true)
    (hcfg : store.GetConfig req.Service = .ok config)
    (hp : t.parseURL (config.BaseURL ++ req.Path) = .ok u) :
    (Forward t store req).sent = [outboundRequest config req u] := by
  obtain ⟨hne, hvm⟩ := validMethod_of_isValidHTTPMethod _ hm
  unfold Forward
  simp only [hm, Bool.not_true, Bool.false_eq_true, if_false, hcfg, NewRequest, hne, hvm, hp]
  unfold outboundRequest outboundHeader
  cases t.Do _ with
  | error e => rfl
  | ok resp =>
    cases hb : resp.Body with
    | error e => simp [hb]
    | ok b => simp [hb]

/-! ## strings -/

theorem HasSuffix_iff (s suffix : String) :
    HasSuffix s suffix = true ↔ ∃ p : List Char, s.toList = p ++ suffix.toList := by
  unfold HasSuffix
  rw [List.isSuffixOf_iff_suffix]
  constructor
  · rintro ⟨p, hp⟩
    exact ⟨p, hp.symm⟩
  · rintro ⟨p, hp⟩
    exact ⟨p, hp.symm⟩

theorem TrimSuffix_of_eq (s suffix : String) (p : List Char)
    (h : s.toList = p ++ suffix.toList) : TrimSuffix s suffix = ⟨p⟩ := by
  have hs : HasSuffix s suffix = true := (HasSuffix_iff s suffix).2 ⟨p, h⟩
  unfold TrimSuffix
  rw [if_pos hs, h]
  simp

/-- On names that end in the suffix, trimming it is undone by appending it. -/
theorem TrimSuffix_eq_iff (s suffix n : String) (hs : HasSuffix s suffix = true) :
    TrimSuffix s suffix = n ↔ s = n ++ suffix := by
  obtain ⟨p, hp⟩ := (HasSuffix_iff s suffix).1 hs
  rw [TrimSuffix_of_eq s suffix p hp]
  constructor
  · intro h
    subst h
    apply String.toList_inj.1
    rw [hp]
    simp
  · intro h
    subst h
    have : (n ++ suffix).toList = n.toList ++ suffix.toList := by simp
    rw [this] at hp
    have hp' := List.append_cancel_right hp
    apply String.toList_inj.1
    exact hp'.symm

theorem HasSuffix_append (n suffix : String) : HasSuffix (n ++ suffix) suffix = true :=
  (HasSuffix_iff _ _).2 ⟨n.toList, by simp⟩

theorem TrimSuffix_injective (a b suffix : String) (ha : HasSuffix a suffix = true)
    (hb : HasSuffix b suffix = true) (h : TrimSuffix a suffix = TrimSuffix b suffix) : a = b := by
  rw [(TrimSuffix_eq_iff a suffix _ ha).1 rfl, (TrimSuffix_eq_iff b suffix _ hb).1 rfl, h]

/-! ## Go maps: keys -/

theorem lookup_isSome_iff {V : Type} (l : List (String × V)) (k : String) :
    (l.lookup k).isSome = true ↔ k ∈ l.map Prod.fst := by
  induction l with
  | nil => simp [List.lookup]
  | cons p rest ih =>
    obtain ⟨k', v'⟩ := p
    by_cases h : k = k'
    · subst h; simp [List.lookup]
    · have h' : (k == k') = false := by simpa using h
      simp [List.lookup, h', ih, h]

theorem lookup_eq_some_iff {V : Type} (l : List (String × V)) (hnd : (l.map Prod.fst).Nodup)
    (k : String) (v : V) : l.lookup k = some v ↔ (k, v) ∈ l := by
  induction l with
  | nil => simp [List.lookup]
  | cons p rest ih =>
    obtain ⟨k', v'⟩ := p
    rw [List.map_cons, List.nodup_cons] at hnd
    by_cases h : k = k'
    · subst h
      have hnot : ∀ w, (k, w) ∉ rest := fun w hw => hnd.1 (List.mem_map.2 ⟨(k, w), hw, rfl⟩)
      simp [List.lookup, hnot, eq_comm]
    · have h' : (k == k') = false := by simpa using h
      simp [List.lookup, h', ih hnd.2, h]

theorem GoMap.mem_keys_iff {V : Type} (m : GoMap V) (k : String) :
    k ∈ m.keys ↔ (m.get? k).isSome = true :=
  (lookup_isSome_iff m.entries k).symm

theorem GoMap.get?_empty {V : Type} (k : String) : (GoMap.empty : GoMap V).get? k = none := rfl

theorem mem_of_lookup_eq_some {V : Type} (l : List (String × V)) (k : String) (v : V)
    (h : l.lookup k = some v) : (k, v) ∈ l := by
  induction l with
  | nil => simp [List.lookup] at h
  | cons p rest ih =>
    obtain ⟨k', v'⟩ := p
    by_cases hk : k = k'
    · subst hk
      simp [List.lookup] at h
      subst h
      exact List.mem_cons_self _ _
    · have h' : (k == k') = false := by simpa using hk
      simp only [List.lookup, h'] at h
      exact List.mem_cons_of_mem _ (ih h)

/-! ## loadSpecs -/

theorem loadEntries_skip (fs : FileSystem) (e : DirEntry) (es : List DirEntry)
    (s : FileSpecStore) (reads : List String) (h : isSpecFile e = false) :
    loadEntries fs (e :: es) s reads = loadEntries fs es s reads := by
  unfold isSpecFile at h
  rw [loadEntries]
  by_cases hd : e.IsDir = true
  · simp [hd]
  · have hs : HasSuffix e.Name ".json" = false := by simpa [hd] using h
    simp [hd, hs]

theorem loadEntries_step (fs : FileSystem) (e : DirEntry) (es : List DirEntry)
    (s : FileSpecStore) (reads : List String) (h : isSpecFile e = true) :
    loadEntries fs (e :: es) s reads =
      match fs.ReadFile e.Name with
      | .error c => ⟨.error (.readSpecFile e.Name c), reads ++ [e.Name]⟩
      | .ok data =>
        match loadSpec s e.Name data with
        | .error x => ⟨.error x, reads ++ [e.Name]⟩
        | .ok s' => loadEntries fs es s' (reads ++ [e.Name]) := by
  unfold isSpecFile at h
  simp only [Bool.and_eq_true, Bool.not_eq_true'] at h
  rw [loadEntries]
  simp [h.1, h.2]

/-- What one successful pass through the loop body does to the store. -/
theorem loadSpec_ok (s s' : FileSpecStore) (name : String) (data : Bytes)
    (h : loadSpec s name data = .ok s') :
    s'.specs = s.specs.set (TrimSuffix name ".json") data ∧
    ∃ doc, unmarshalSpecDoc data = .ok doc ∧
      ((doc.lookup "x-proxy-config" = none ∧ s'.configs = s.configs) ∨
       (∃ raw config, doc.lookup "x-proxy-config" = some raw ∧
          unmarshalServiceConfig raw.marshal = .ok config ∧
          s'.configs = s.configs.set (TrimSuffix name ".json") config)) := by
  unfold loadSpec at h
  cases hdoc : unmarshalSpecDoc data with
  | error e => simp [hdoc] at h
  | ok doc =>
    simp only [hdoc] at h
    cases hl : doc.lookup "x-proxy-config" with
    | none =>
      simp only [hl] at h
      cases h
      exact ⟨rfl, doc, rfl, Or.inl ⟨hl, rfl⟩⟩
    | some raw =>
      simp only [hl, jsonMarshal] at h
      cases hc : unmarshalServiceConfig raw.marshal with
      | error e => simp [hc] at h
      | ok config =>
        simp only [hc] at h
        cases h
        exact ⟨rfl, doc, rfl, Or.inr ⟨raw, config, hl, hc, rfl⟩⟩

/-- Skipped entries and entries of other services leave a name alone. -/
theorem loadEntries_frame (fs : FileSystem) (entries : List DirEntry) (s s' : FileSpecStore)
    (reads : List String) (h : (loadEntries fs entries s reads).result = .ok s') (n : String)
    (hn : ∀ e ∈ entries, isSpecFile e = true → TrimSuffix e.Name ".json" ≠ n) :
    s'.specs.get? n = s.specs.get? n ∧ s'.configs.get? n = s.configs.get? n := by
  induction entries generalizing s reads with
  | nil =>
    simp only [loadEntries] at h
    cases h
    exact ⟨rfl, rfl⟩
  | cons e es ih =>
    have hn' : ∀ e' ∈ es, isSpecFile e' = true → TrimSuffix e'.Name ".json" ≠ n :=
      fun e' he' => hn e' (List.mem_cons_of_mem _ he')
    cases hspec : isSpecFile e with
    | false =>
      rw [loadEntries_skip fs e es s reads hspec] at h
      exact ih s reads h hn'
    | true =>
      rw [loadEntries_step fs e es s reads hspec] at h
      cases hread : fs.ReadFile e.Name with
      | error c => simp [hread] at h
      | ok data =>
        simp only [hread] at h
        cases hload : loadSpec s e.Name data with
        | error x => simp [hload] at h
        | ok s1 =>
          simp only [hload] at h
          obtain ⟨h1, h2⟩ := ih s1 _ h hn'
          have hne : n ≠ TrimSuffix e.Name ".json" :=
            fun heq => hn e (List.mem_cons_self _ _) hspec heq.symm
          obtain ⟨hs, doc, _, hc | ⟨raw, config, _, _, hc⟩⟩ := loadSpec_ok s s1 e.Name data hload
          · rw [h1, h2, hs, hc.2]
            exact ⟨GoMap.get?_set_ne _ _ _ _ hne, rfl⟩
          · rw [h1, h2, hs, hc]
            exact ⟨GoMap.get?_set_ne _ _ _ _ hne, GoMap.get?_set_ne _ _ _ _ hne⟩

/-- Distinct names of spec files give distinct service names. -/
theorem serviceName_ne_of_nodup (e : DirEntry) (es : List DirEntry)
    (hnd : ((e :: es).map DirEntry.Name).Nodup) (hspec : isSpecFile e = true) :
    ∀ e' ∈ es, isSpecFile e' = true →
      TrimSuffix e'.Name ".json" ≠ TrimSuffix e.Name ".json" := by
  intro e' he' hspec' heq
  rw [List.map_cons, List.nodup_cons] at hnd
  unfold isSpecFile at hspec hspec'
  simp only [Bool.and_eq_true] at hspec hspec'
  have := TrimSuffix_injective e'.Name e.Name ".json" hspec'.2 hspec.2 heq
  exact hnd.1 (List.mem_map.2 ⟨e', he', this⟩)

/-- After a successful load every spec file of the listing was read and
decoded, its bytes are stored under its service name, and its config is stored
under that name exactly when the document has an `x-proxy-config` member. -/
theorem loadEntries_loaded (fs : FileSystem) (entries : List DirEntry) (s s' : FileSpecStore)
    (reads : List String) (h : (loadEntries fs entries s reads).result = .ok s')
    (hnd : (entries.map DirEntry.Name).Nodup) (e : DirEntry) (he : e ∈ entries)
    (hspec : isSpecFile e = true) :
    ∃ data doc, fs.ReadFile e.Name = .ok data ∧ unmarshalSpecDoc data = .ok doc ∧
      s'.specs.get? (TrimSuffix e.Name ".json") = some data ∧
      ((doc.lookup "x-proxy-config" = none ∧
          s'.configs.get? (TrimSuffix e.Name ".json")
            = s.configs.get? (TrimSuffix e.Name ".json")) ∨
       (∃ raw config, doc.lookup "x-proxy-config" = some raw ∧
          unmarshalServiceConfig raw.marshal = .ok config ∧
          s'.configs.get? (TrimSuffix e.Name ".json") = some config)) := by
  induction entries generalizing s reads with
  | nil => cases he
  | cons e0 es ih =>
    have hnd' : (es.map DirEntry.Name).Nodup := by
      rw [List.map_cons, List.nodup_cons] at hnd
      exact hnd.2
    cases hspec0 : isSpecFile e0 with
    | false =>
      rw [loadEntries_skip fs e0 es s reads hspec0] at h
      rcases List.mem_cons.1 he with rfl | he'
      · rw [hspec] at hspec0; cases hspec0
      · exact ih s reads h hnd' he'
    | true =>
      rw [loadEntries_step fs e0 es s reads hspec0] at h
      cases hread : fs.ReadFile e0.Name with
      | error c => simp [hread] at h
      | ok data =>
        simp only [hread] at h
        cases hload : loadSpec s e0.Name data with
        | error x => simp [hload] at h
        | ok s1 =>
          simp only [hload] at h
          rcases List.mem_cons.1 he with rfl | he'
          · obtain ⟨h1, h2⟩ := loadEntries_frame fs es s1 s' _ h _
              (serviceName_ne_of_nodup e es hnd hspec)
            obtain ⟨hs, doc, hdoc, hc | ⟨raw, config, hraw, hcfg, hc⟩⟩ :=
              loadSpec_ok s s1 e.Name data hload
            · refine ⟨data, doc, hread, hdoc, ?_, Or.inl ⟨hc.1, ?_⟩⟩
              · rw [h1, hs]; exact GoMap.get?_set_self _ _ _
              · rw [h2, hc.2]
            · refine ⟨data, doc, hread, hdoc, ?_, Or.inr ⟨raw, config, hraw, hcfg, ?_⟩⟩
              · rw [h1, hs]; exact GoMap.get?_set_self _ _ _
              · rw [h2, hc]; exact GoMap.get?_set_self _ _ _
          · obtain ⟨d, doc, hr, hdoc, hsp, hcf⟩ := ih s1 _ h hnd' he'
            refine ⟨d, doc, hr, hdoc, hsp, ?_⟩
            have hne : TrimSuffix e.Name ".json" ≠ TrimSuffix e0.Name ".json" :=
              serviceName_ne_of_nodup e0 es hnd hspec0 e he' hspec
            rcases hcf with ⟨hnone, hcf⟩ | hcf
            · left
              refine ⟨hnone, ?_⟩
              rw [hcf]
              obtain ⟨_, _, _, hc | ⟨_, _, _, _, hc⟩⟩ := loadSpec_ok s s1 e0.Name data hload
              · rw [hc.2]
              · rw [hc]; exact GoMap.get?_set_ne _ _ _ _ hne
            · exact Or.inr hcf

/-- The files read by a successful load are the spec files of the listing, in
order. -/
theorem loadEntries_reads (fs : FileSystem) (entries : List DirEntry) (s s' : FileSpecStore)
    (reads : List String) (h : (loadEntries fs entries s reads).result = .ok s') :
    (loadEntries fs entries s reads).reads
      = reads ++ (entries.filter isSpecFile).map DirEntry.Name := by
  induction entries generalizing s reads with
  | nil => simp [loadEntries]
  | cons e es ih =>
    cases hspec : isSpecFile e with
    | false =>
      rw [loadEntries_skip fs e es s reads hspec] at h ⊢
      rw [ih s reads h]
      simp [List.filter_cons, hspec]
    | true =>
      rw [loadEntries_step fs e es s reads hspec] at h ⊢
      cases hread : fs.ReadFile e.Name with
      | error c => simp [hread] at h
      | ok data =>
        simp only [hread] at h ⊢
        cases hload : loadSpec s e.Name data with
        | error x => simp [hload] at h
        | ok s1 =>
          simp only [hload] at h ⊢
          rw [ih s1 _ h]
          simp [List.filter_cons, hspec]

/-- The load depends on the file system only through the listing and the
contents of the spec files. -/
theorem loadEntries_congr (fs fs' : FileSystem) (entries : List DirEntry) (s : FileSpecStore)
    (reads : List String)
    (hsame : ∀ e ∈ entries, isSpecFile e = true → fs'.ReadFile e.Name = fs.ReadFile e.Name) :
    loadEntries fs' entries s reads = loadEntries fs entries s reads := by
  induction entries generalizing s reads with
  | nil => simp [loadEntries]
  | cons e es ih =>
    have hsame' : ∀ e' ∈ es, isSpecFile e' = true → fs'.ReadFile e'.Name = fs.ReadFile e'.Name :=
      fun e' he' => hsame e' (List.mem_cons_of_mem _ he')
    cases hspec : isSpecFile e with
    | false =>
      rw [loadEntries_skip fs e es s reads hspec, loadEntries_skip fs' e es s reads hspec]
      exact ih s reads hsame'
    | true =>
      rw [loadEntries_step fs e es s reads hspec, loadEntries_step fs' e es s reads hspec,
        hsame e (List.mem_cons_self _ _) hspec]
      cases fs.ReadFile e.Name with
      | error c => rfl
      | ok data =>
        simp only []
        cases loadSpec s e.Name data with
        | error x => rfl
        | ok s1 => exact ih s1 _ hsame'

/-- One spec file that does not decode makes the whole load fail. -/
theorem loadEntries_error_of_bad (fs : FileSystem) (entries : List DirEntry)
    (s : FileSpecStore) (reads : List String) (e : DirEntry) (data : Bytes) (je : JSONError)
    (he : e ∈ entries) (hspec : isSpecFile e = true) (hread : fs.ReadFile e.Name = .ok data)
    (hbad : unmarshalSpecDoc data = .error je) :
    ∃ err, (loadEntries fs entries s reads).result = .error err := by
  induction entries generalizing s reads with
  | nil => cases he
  | cons e0 es ih =>
    cases hspec0 : isSpecFile e0 with
    | false =>
      rw [loadEntries_skip fs e0 es s reads hspec0]
      rcases List.mem_cons.1 he with rfl | he'
      · rw [hspec] at hspec0; cases hspec0
      · exact ih s reads he'
    | true =>
      rw [loadEntries_step fs e0 es s reads hspec0]
      cases hread0 : fs.ReadFile e0.Name with
      | error c => exact ⟨_, rfl⟩
      | ok data0 =>
        simp only []
        cases hload : loadSpec s e0.Name data0 with
        | error x => exact ⟨_, rfl⟩
        | ok s1 =>
          simp only []
          rcases List.mem_cons.1 he with rfl | he'
          · exfalso
            rw [hread] at hread0
            cases hread0
            unfold loadSpec at hload
            simp [hbad] at hload
          · exact ih s1 _ he'

/-- Spec files that decode to documents without an `x-proxy-config` member
load. -/
theorem loadEntries_ok_of_plain (fs : FileSystem) (entries : List DirEntry)
    (s : FileSpecStore) (reads : List String)
    (hall : ∀ e ∈ entries, isSpecFile e = true →
      ∃ data doc, fs.ReadFile e.Name = .ok data ∧ unmarshalSpecDoc data = .ok doc ∧
        doc.lookup "x-proxy-config" = none) :
    ∃ s', (loadEntries fs entries s reads).result = .ok s' := by
  induction entries generalizing s reads with
  | nil => exact ⟨s, rfl⟩
  | cons e es ih =>
    have hall' := fun e' (he' : e' ∈ es) => hall e' (List.mem_cons_of_mem _ he')
    cases hspec : isSpecFile e with
    | false =>
      rw [loadEntries_skip fs e es s reads hspec]
      exact ih s reads hall'
    | true =>
      rw [loadEntries_step fs e es s reads hspec]
      obtain ⟨data, doc, hread, hdoc, hnone⟩ := hall e (List.mem_cons_self _ _) hspec
      have hload : loadSpec s e.Name data
          = .ok { s with specs := s.specs.set (TrimSuffix e.Name ".json") data } := by
        unfold loadSpec
        simp [hdoc, hnone]
      simp only [hread, hload]
      exact ih _ _ hall'

/-- A successful `NewFileSpecStore` is a successful load into the empty store
of a directory that was listed. -/
theorem NewFileSpecStore_ok (fs : FileSystem) (specsDir : String) (store : FileSpecStore)
    (h : NewFileSpecStore fs specsDir = .ok store) :
    fs.statIsNotExist = false ∧ ∃ entries, fs.ReadDir = .ok entries ∧
      (entries.map DirEntry.Name).Nodup ∧
      (loadEntries fs entries
        { specsDir := specsDir, specs := GoMap.empty, configs := GoMap.empty } []).result
          = .ok store := by
  unfold NewFileSpecStore at h
  cases hstat : fs.statIsNotExist with
  | true => simp [hstat] at h
  | false =>
    refine ⟨rfl, ?_⟩
    simp only [hstat, Bool.false_eq_true, if_false, loadSpecs] at h
    cases hdir : fs.ReadDir with
    | error c => simp [hdir] at h
    | ok entries =>
      refine ⟨entries, rfl, fs.names_nodup entries hdir, ?_⟩
      simp only [hdir] at h
      cases hres : (loadEntries fs entries
        { specsDir := specsDir, specs := GoMap.empty, configs := GoMap.empty } []).result with
      | error c => simp [hres] at h
      | ok s' =>
        simp only [hres] at h
        cases h
        rfl

/-! ## Header precedence (C1, C2) -/

/-- C1, as stated, fails in two ways.  With the config header
`Authorization: Bearer A` and the request headers `Authorization: Bearer B`
and `authorization: Bearer C`, visited in that order, the name `Authorization`
is in both maps and the outbound request carries `Bearer C`.  With
`Content-Type` in both maps, empty in the request, and a body, the outbound
request carries `application/json`. -/
theorem request_header_wins_counterexample :
    (∃ config, (oneServiceStore "Authorization" "Bearer A").GetConfig "svc" = .ok config ∧
      ("Authorization", "Bearer A") ∈ entriesOf config.AuthHeaders ∧
      ("Authorization", "Bearer B") ∈ entriesOf (getRequest caseVariantHeaders []).Headers ∧
      (Forward echoTransport (oneServiceStore "Authorization" "Bearer A")
        (getRequest caseVariantHeaders [])).sent.map
          (fun r => GoMap.get? r.Header "Authorization") = [some ["Bearer C"]]) ∧
    (∃ config, (oneServiceStore "Content-Type" "text/plain").GetConfig "svc" = .ok config ∧
      ("Content-Type", "text/plain") ∈ entriesOf config.AuthHeaders ∧
      ("Content-Type", "") ∈ entriesOf (getRequest emptyContentType (ascii "\x7b\x7d")).Headers ∧
      (Forward echoTransport (oneServiceStore "Content-Type" "text/plain")
        (getRequest emptyContentType (ascii "\x7b\x7d"))).sent.map
          (fun r => GoMap.get? r.Header "Content-Type") = [some ["application/json"]]) :=
  ⟨⟨_, rfl, by decide, by decide, by decide⟩, ⟨_, rfl, by decide, by decide, by decide⟩⟩

/-- C1, amended: when a header name `k` is in `config.AuthHeaders` and in
`request.Headers` with the request value `vr`, every request header whose
canonical name is that of `k` carries `vr`, and it is not the case that `k` is
`Content-Type`, `vr` is empty and the request has a body, then every outbound
request of `Forward` carries exactly `vr` under `k`. -/
theorem forward_request_header_wins (t : Transport) (store : SpecStore) (req : Request)
    (config : ServiceConfig) (k vc vr : String) (r : HttpRequest)
    (hcfg : store.GetConfig req.Service = .ok config)
    (_hk : (k, vc) ∈ entriesOf config.AuthHeaders)
    (hr : (k, vr) ∈ entriesOf req.Headers)
    (hall : ∀ p ∈ entriesOf req.Headers,
      CanonicalMIMEHeaderKey p.1 = CanonicalMIMEHeaderKey k → p.2 = vr)
    (hct : ¬ (CanonicalMIMEHeaderKey k = "Content-Type" ∧ vr = "" ∧ req.Body ≠ []))
    (hsent : r ∈ (Forward t store req).sent) :
    GoMap.get? r.Header (CanonicalMIMEHeaderKey k) = some [vr] := by
  obtain ⟨_, config', u, hcfg', _, rfl⟩ := Forward_sent t store req r hsent
  rw [hcfg] at hcfg'
  cases hcfg'
  exact outboundHeader_get?_of_merged config req _ vr
    (setHeaders_get?_of_agree _ vr req.Headers _ hall (Or.inl ⟨(k, vr), hr, rfl⟩)) hct

/-- C1 at the input of the repository's test: config `Authorization: Bearer A`,
request `Authorization: Bearer B`. -/
theorem forward_request_header_wins_witness :
    GoMap.get? (outboundRequest
        { BaseURL := "http://backend"
          AuthHeaders := some (GoMap.set GoMap.empty "Authorization" "Bearer A") }
        (getRequest bearerB [])
          (parseTarget "http://backend/x")).Header
      (CanonicalMIMEHeaderKey "Authorization") = some ["Bearer B"] :=
  forward_request_header_wins echoTransport (oneServiceStore "Authorization" "Bearer A")
    (getRequest bearerB []) _ "Authorization" "Bearer A" "Bearer B" _
    rfl (by decide) (by decide) (by decide) (by decide)
    (by rw [Forward_sent_of_accepted echoTransport _ _ _ _ (by decide) rfl rfl]
        exact List.mem_singleton_self _)

/-- C2, as stated, fails: of the request headers `Authorization: Bearer B` and
`authorization: Bearer C` only one value is sent, and a configured
`Content-Type` with an empty value, which the request does not supply, is sent
as `application/json` when there is a body. -/
theorem headers_sent_counterexample :
    (("Authorization", "Bearer B") ∈ entriesOf (getRequest caseVariantHeaders []).Headers ∧
      (Forward echoTransport emptyConfigStore (getRequest caseVariantHeaders [])).sent.map
        (fun r => r.Header.entries) = [[("Authorization", ["Bearer C"])]]) ∧
    (∃ config, (oneServiceStore "Content-Type" "").GetConfig "svc" = .ok config ∧
      ("Content-Type", "") ∈ entriesOf config.AuthHeaders ∧
      (entriesOf (getRequest GoMap.empty (ascii "\x7b\x7d")).Headers).map Prod.fst = [] ∧
      (Forward echoTransport (oneServiceStore "Content-Type" "")
        (getRequest GoMap.empty (ascii "\x7b\x7d"))).sent.map
          (fun r => r.Header.entries) = [[("Content-Type", ["application/json"])]]) :=
  ⟨⟨by decide, by decide⟩, ⟨_, rfl, by decide, by decide, by decide⟩⟩

/-- C2, amended: a header `(k, v)` of `config.AuthHeaders` is sent with exactly
`v` when no request header has the canonical name of `k` and every configured
header with that canonical name carries `v`; a header `(k, v)` of
`request.Headers` is sent with exactly `v` when every request header with the
canonical name of `k` carries `v`; both unless `k` is `Content-Type`, `v` is
empty and the request has a body. -/
theorem forward_headers_sent (t : Transport) (store : SpecStore) (req : Request)
    (config : ServiceConfig) (r : HttpRequest)
    (hcfg : store.GetConfig req.Service = .ok config)
    (hsent : r ∈ (Forward t store req).sent) :
    (∀ k v, (k, v) ∈ entriesOf config.AuthHeaders →
      (∀ p ∈ entriesOf req.Headers, CanonicalMIMEHeaderKey p.1 ≠ CanonicalMIMEHeaderKey k) →
      (∀ p ∈ entriesOf config.AuthHeaders,
        CanonicalMIMEHeaderKey p.1 = CanonicalMIMEHeaderKey k → p.2 = v) →
      ¬ (CanonicalMIMEHeaderKey k = "Content-Type" ∧ v = "" ∧ req.Body ≠ []) →
      GoMap.get? r.Header (CanonicalMIMEHeaderKey k) = some [v]) ∧
    (∀ k v, (k, v) ∈ entriesOf req.Headers →
      (∀ p ∈ entriesOf req.Headers,
        CanonicalMIMEHeaderKey p.1 = CanonicalMIMEHeaderKey k → p.2 = v) →
      ¬ (CanonicalMIMEHeaderKey k = "Content-Type" ∧ v = "" ∧ req.Body ≠ []) →
      GoMap.get? r.Header (CanonicalMIMEHeaderKey k) = some [v]) := by
  obtain ⟨_, config', u, hcfg', _, rfl⟩ := Forward_sent t store req r hsent
  rw [hcfg] at hcfg'
  cases hcfg'
  constructor
  · intro k v hk habs hall hct
    refine outboundHeader_get?_of_merged config req _ v ?_ hct
    rw [setHeaders_get?_of_absent _ req.Headers _ habs]
    exact setHeaders_get?_of_agree _ v config.AuthHeaders _ hall (Or.inl ⟨(k, v), hk, rfl⟩)
  · intro k v hk hall hct
    exact outboundHeader_get?_of_merged config req _ v
      (setHeaders_get?_of_agree _ v req.Headers _ hall (Or.inl ⟨(k, v), hk, rfl⟩)) hct

/-- C2 at a concrete input: the configured `X-Api-Key: secret` and the request
header `Authorization: Bearer B` are both sent as they are. -/
theorem forward_headers_sent_witness :
    GoMap.get? (outboundRequest
        { BaseURL := "http://backend"
          AuthHeaders := some (GoMap.set GoMap.empty "X-Api-Key" "secret") }
        (getRequest bearerB [])
          (parseTarget "http://backend/x")).Header (CanonicalMIMEHeaderKey "X-Api-Key")
      = some ["secret"] ∧
    GoMap.get? (outboundRequest
        { BaseURL := "http://backend"
          AuthHeaders := some (GoMap.set GoMap.empty "X-Api-Key" "secret") }
        (getRequest bearerB [])
          (parseTarget "http://backend/x")).Header (CanonicalMIMEHeaderKey "Authorization")
      = some ["Bearer B"] :=
  have h := forward_headers_sent echoTransport (oneServiceStore "X-Api-Key" "secret")
    (getRequest bearerB []) _ _ rfl
    (by rw [Forward_sent_of_accepted echoTransport _ _ _ _ (by decide) rfl rfl]
        exact List.mem_singleton_self _)
  ⟨h.1 "X-Api-Key" "secret" (by decide) (by decide) (by decide) (by decide),
   h.2 "Authorization" "Bearer B" (by decide) (by decide) (by decide)⟩

/-! ## Method validation and service lookup (C3, C4) -/

/-- C3: `Forward` returns the invalid-method error exactly when the method is
not one of the seven strings `GET`, `POST`, `PUT`, `PATCH`, `DELETE`, `HEAD`,
`OPTIONS`, compared as they are (`get`, `TRACE`, `CONNECT` and the empty string
are rejected); it does so for every store, whatever the service, and without
creating or sending a request. -/
theorem forward_invalid_method_iff (t : Transport) (store : SpecStore) (req : Request) :
    ((∃ m, (Forward t store req).result = .error (.invalidHTTPMethod m)) ↔
      req.Method ∉ ["GET", "POST", "PUT", "PATCH", "DELETE", "HEAD", "OPTIONS"]) ∧
    (req.Method ∉ ["GET", "POST", "PUT", "PATCH", "DELETE", "HEAD", "OPTIONS"] →
      (Forward t store req).result = .error (.invalidHTTPMethod req.Method) ∧
      (Forward t store req).created = [] ∧ (Forward t store req).sent = []) ∧
    isValidHTTPMethod "get" = false ∧ isValidHTTPMethod "TRACE" = false ∧
    isValidHTTPMethod "CONNECT" = false ∧ isValidHTTPMethod "" = false ∧
    isValidHTTPMethod "GET" = true := by
  have hbad : req.Method ∉ ["GET", "POST", "PUT", "PATCH", "DELETE", "HEAD", "OPTIONS"] →
      (Forward t store req).result = .error (.invalidHTTPMethod req.Method) ∧
      (Forward t store req).created = [] ∧ (Forward t store req).sent = [] := by
    intro h
    have hm : isValidHTTPMethod req.Method = false := by
      rw [← isValidHTTPMethod_iff] at h
      simpa using h
    unfold Forward
    simp [hm]
  refine ⟨⟨?_, fun h => ⟨_, (hbad h).1⟩⟩, hbad, by decide, by decide, by decide, by decide,
    by decide⟩
  rintro ⟨m, hres⟩ hmem
  have hm : isValidHTTPMethod req.Method = true := (isValidHTTPMethod_iff _).2 hmem
  unfold Forward at hres
  simp only [hm, Bool.not_true, Bool.false_eq_true, if_false] at hres
  cases hcfg : store.GetConfig req.Service with
  | error e => simp [hcfg] at hres
  | ok config =>
    simp only [hcfg] at hres
    cases hn : NewRequest t req.Method (config.BaseURL ++ req.Path)
        (if req.Body.length > 0 then some req.Body else none) with
    | error e => simp [hn] at hres
    | ok httpReq =>
      simp only [hn] at hres
      revert hres
      cases t.Do _ with
      | error e => simp
      | ok resp =>
        cases hb : resp.Body with
        | error e => simp [hb]
        | ok b => simp [hb]

/-- C4: for a valid method and a service for which `GetConfig` fails, `Forward`
returns the service-not-found error, and it neither creates a request nor
hands one to the HTTP client. -/
theorem forward_service_not_found (t : Transport) (store : SpecStore) (req : Request)
    (e : StoreError) (hm : isValidHTTPMethod req.Method = true)
    (hcfg : store.GetConfig req.Service = .error e) :
    (Forward t store req).result = .error (.serviceNotFound req.Service) ∧
      (Forward t store req).created = [] ∧ (Forward t store req).sent = [] := by
  unfold Forward
  simp [hm, hcfg]

/-- C4 at a concrete input: a `GET` to `svc` on a store without services. -/
theorem forward_service_not_found_witness :
    (Forward echoTransport emptyStore (getRequest GoMap.empty [])).result
        = .error (.serviceNotFound "svc") ∧
      (Forward echoTransport emptyStore (getRequest GoMap.empty [])).created = [] ∧
      (Forward echoTransport emptyStore (getRequest GoMap.empty [])).sent = [] :=
  forward_service_not_found echoTransport emptyStore (getRequest GoMap.empty []) _
    (by decide) rfl

/-! ## List (C5) -/

theorem foldl_append_keys {V : Type} (l : List (String × V)) (acc : List String) :
    l.foldl (fun names kv => names ++ [kv.1]) acc = acc ++ l.map Prod.fst := by
  induction l generalizing acc with
  | nil => simp
  | cons p rest ih => simp [List.foldl_cons, ih]

theorem sortStrings_perm (l : List String) : (sortStrings l).Perm l :=
  List.perm_insertionSort _ l

theorem sortStrings_sorted (l : List String) :
    (sortStrings l).Sorted (fun a b : String => a ≤ b) := by
  haveI : IsTotal String (fun a b => a.toList ≤ b.toList) :=
    ⟨fun a b => le_total a.toList b.toList⟩
  haveI : IsTrans String (fun a b => a.toList ≤ b.toList) :=
    ⟨fun a b c h1 h2 => le_trans h1 h2⟩
  have h := List.sorted_insertionSort (fun a b : String => a.toList ≤ b.toList) l
  exact List.Pairwise.imp (fun hab => String.le_iff_toList_le.2 hab) h

theorem FileSpecStore.List_eq (s : FileSpecStore) : s.List = .ok (sortStrings s.specs.keys) := by
  unfold FileSpecStore.List GoMap.keys
  simp [foldl_append_keys]

/-- C5: for every `FileSpecStore`, `List` succeeds, and the names it returns
are strictly ascending in the lexicographic order of strings and are the keys
of the spec map, each exactly once. -/
theorem list_sorted_keys (s : FileSpecStore) :
    ∃ names, s.List = .ok names ∧ names.Sorted (fun a b : String => a < b) ∧
      names.Nodup ∧ names.Perm s.specs.keys ∧
      ∀ n, n ∈ names ↔ (s.specs.get? n).isSome = true := by
  have hperm := sortStrings_perm s.specs.keys
  have hnd : (sortStrings s.specs.keys).Nodup := hperm.nodup_iff.2 s.specs.nodup
  refine ⟨_, s.List_eq, (sortStrings_sorted _).lt_of_le hnd, hnd, hperm, fun n => ?_⟩
  rw [hperm.mem_iff]
  exact GoMap.mem_keys_iff s.specs n

/-! ## The decoder builds maps -/

theorem distinctKeysMembers_iff (ms : List (String × JSON)) :
    distinctKeysMembers ms = true ↔ ∀ p ∈ ms, p.2.distinctKeys = true := by
  induction ms with
  | nil => simp [distinctKeysMembers]
  | cons p rest ih =>
    obtain ⟨k, v⟩ := p
    simp [distinctKeysMembers, ih]

theorem mem_assignEntry {V : Type} (k : String) (v : V) (l : List (String × V))
    (p : String × V) (hp : p ∈ assignEntry k v l) : p = (k, v) ∨ p ∈ l := by
  induction l with
  | nil => simpa [assignEntry] using hp
  | cons q rest ih =>
    obtain ⟨k', v'⟩ := q
    by_cases h : k' = k
    · simp only [assignEntry, h, if_true, List.mem_cons] at hp
      rcases hp with hp | hp
      · exact Or.inl hp
      · exact Or.inr (List.mem_cons_of_mem _ hp)
    · simp only [assignEntry, h, if_false, List.mem_cons] at hp
      rcases hp with hp | hp
      · exact Or.inr (hp ▸ List.mem_cons_self _ _)
      · rcases ih hp with h1 | h1
        · exact Or.inl h1
        · exact Or.inr (List.mem_cons_of_mem _ h1)

theorem assignEntry_keys_nodup {V : Type} (k : String) (v : V) (l : List (String × V))
    (h : (l.map Prod.fst).Nodup) : ((assignEntry k v l).map Prod.fst).Nodup :=
  (GoMap.set ⟨l, h⟩ k v).nodup

theorem foldl_assignEntry_spec {V : Type} (ms acc : List (String × V))
    (hacc : (acc.map Prod.fst).Nodup) :
    ((ms.foldl (fun m kv => assignEntry kv.1 kv.2 m) acc).map Prod.fst).Nodup ∧
      ∀ p ∈ ms.foldl (fun m kv => assignEntry kv.1 kv.2 m) acc, p ∈ ms ∨ p ∈ acc := by
  induction ms generalizing acc with
  | nil => exact ⟨hacc, fun p hp => Or.inr hp⟩
  | cons q rest ih =>
    obtain ⟨h1, h2⟩ := ih (assignEntry q.1 q.2 acc) (assignEntry_keys_nodup _ _ _ hacc)
    refine ⟨h1, fun p hp => ?_⟩
    rcases h2 p hp with h | h
    · exact Or.inl (List.mem_cons_of_mem _ h)
    · rcases mem_assignEntry _ _ _ _ h with h | h
      · exact Or.inl (h ▸ List.mem_cons_self _ _)
      · exact Or.inr h

mutual
/-- Every object that the decoder stores has pairwise distinct keys. -/
theorem stored_distinctKeys : ∀ v : JSON, v.stored.distinctKeys = true
  | .null => rfl
  | .bool _ => rfl
  | .number n => by
    unfold JSON.stored
    split <;> rfl
  | .string _ => rfl
  | .array es => by
    simp only [JSON.stored, JSON.distinctKeys]
    exact storedList_distinctKeys es
  | .object ms => by
    simp only [JSON.stored, JSON.distinctKeys, Bool.and_eq_true, decide_eq_true_eq]
    obtain ⟨h1, h2⟩ := foldl_assignEntry_spec (storedMembers ms) [] List.nodup_nil
    refine ⟨h1, (distinctKeysMembers_iff _).2 (fun p hp => ?_)⟩
    rcases h2 p hp with h | h
    · exact (distinctKeysMembers_iff _).1 (storedMembers_distinctKeys ms) p h
    · cases h
/-- The same for the elements of an array. -/
theorem storedList_distinctKeys : ∀ es : List JSON, distinctKeysList (storedList es) = true
  | [] => rfl
  | v :: vs => by
    simp only [storedList, distinctKeysList, Bool.and_eq_true]
    exact ⟨stored_distinctKeys v, storedList_distinctKeys vs⟩
/-- The same for the members of an object. -/
theorem storedMembers_distinctKeys :
    ∀ ms : List (String × JSON), distinctKeysMembers (storedMembers ms) = true
  | [] => rfl
  | (_, v) :: ms => by
    simp only [storedMembers, distinctKeysMembers, Bool.and_eq_true]
    exact ⟨stored_distinctKeys v, storedMembers_distinctKeys ms⟩
end

mutual
/-- No error is saved for a value all of whose numbers convert. -/
theorem savedError_of_numbersInRange :
    ∀ v : JSON, v.numbersInRange = true → v.savedError = none
  | .null, _ => rfl
  | .bool _, _ => rfl
  | .number n, h => by
    simp only [JSON.numbersInRange, Bool.not_eq_true'] at h
    simp [JSON.savedError, h]
  | .string _, _ => rfl
  | .array es, h => by
    simp only [JSON.numbersInRange] at h
    simp only [JSON.savedError]
    exact savedErrorList_of_numbersInRange es h
  | .object ms, h => by
    simp only [JSON.numbersInRange] at h
    simp only [JSON.savedError]
    exact savedErrorMembers_of_numbersInRange ms h
/-- The same for the elements of an array. -/
theorem savedErrorList_of_numbersInRange :
    ∀ es : List JSON, numbersInRangeList es = true → savedErrorList es = none
  | [], _ => rfl
  | v :: vs, h => by
    simp only [numbersInRangeList, Bool.and_eq_true] at h
    simp only [savedErrorList, savedError_of_numbersInRange v h.1,
      savedErrorList_of_numbersInRange vs h.2]
    rfl
/-- The same for the members of an object. -/
theorem savedErrorMembers_of_numbersInRange :
    ∀ ms : List (String × JSON), numbersInRangeMembers ms = true → savedErrorMembers ms = none
  | [], _ => rfl
  | (_, v) :: ms, h => by
    simp only [numbersInRangeMembers, Bool.and_eq_true] at h
    simp only [savedErrorMembers, savedError_of_numbersInRange v h.1,
      savedErrorMembers_of_numbersInRange ms h.2]
    rfl
end

theorem storedMembers_keys (ms : List (String × JSON)) :
    (storedMembers ms).map Prod.fst = ms.map Prod.fst := by
  induction ms with
  | nil => rfl
  | cons p rest ih =>
    obtain ⟨k, v⟩ := p
    simp [storedMembers, ih]

/-! ## Loading a directory (C6 to C10) -/

theorem isSpecFile_iff (e : DirEntry) :
    isSpecFile e = true ↔ e.IsDir = false ∧ HasSuffix e.Name ".json" = true := by
  unfold isSpecFile
  simp

theorem mem_serviceNames_iff (entries : List DirEntry) (n : String) :
    n ∈ serviceNames entries ↔ ∃ e ∈ entries, e.IsDir = false ∧ e.Name = n ++ ".json" := by
  unfold serviceNames
  simp only [List.mem_map, List.mem_filter]
  constructor
  · rintro ⟨e, ⟨he, hspec⟩, hn⟩
    obtain ⟨hd, hs⟩ := (isSpecFile_iff e).1 hspec
    exact ⟨e, he, hd, (TrimSuffix_eq_iff _ _ _ hs).1 hn⟩
  · rintro ⟨e, he, hd, hn⟩
    have hs : HasSuffix e.Name ".json" = true := by rw [hn]; exact HasSuffix_append n ".json"
    exact ⟨e, ⟨he, (isSpecFile_iff e).2 ⟨hd, hs⟩⟩, (TrimSuffix_eq_iff _ _ _ hs).2 hn⟩

theorem serviceNames_nodup (entries : List DirEntry)
    (hnd : (entries.map DirEntry.Name).Nodup) : (serviceNames entries).Nodup := by
  unfold serviceNames
  have hent : entries.Nodup := List.Nodup.of_map _ hnd
  refine List.Nodup.map_on ?_ (hent.filter _)
  intro x hx y hy hxy
  rw [List.mem_filter] at hx hy
  have hname : x.Name = y.Name :=
    TrimSuffix_injective _ _ ".json" ((isSpecFile_iff x).1 hx.2).2 ((isSpecFile_iff y).1 hy.2).2 hxy
  exact List.inj_on_of_nodup_map hnd hx.1 hy.1 hname

/-- The keys of the spec map of a store built by `NewFileSpecStore` are the
service names of the listing. -/
theorem NewFileSpecStore_keys (fs : FileSystem) (specsDir : String) (store : FileSpecStore)
    (entries : List DirEntry) (hdir : fs.ReadDir = .ok entries)
    (h : NewFileSpecStore fs specsDir = .ok store) (n : String) :
    n ∈ store.specs.keys ↔ n ∈ serviceNames entries := by
  obtain ⟨_, entries', hdir', hnd, hload⟩ := NewFileSpecStore_ok fs specsDir store h
  rw [hdir] at hdir'
  cases hdir'
  rw [GoMap.mem_keys_iff]
  constructor
  · intro hsome
    by_contra hnot
    have hframe := (loadEntries_frame fs entries _ store [] hload n (by
      intro e he hspec heq
      apply hnot
      unfold serviceNames
      exact List.mem_map.2 ⟨e, List.mem_filter.2 ⟨he, hspec⟩, heq⟩)).1
    rw [hframe] at hsome
    simp [GoMap.get?_empty] at hsome
  · intro hmem
    unfold serviceNames at hmem
    obtain ⟨e, he, rfl⟩ := List.mem_map.1 hmem
    rw [List.mem_filter] at he
    obtain ⟨data, doc, _, _, hget, _⟩ := loadEntries_loaded fs entries _ store [] hload hnd e he.1 he.2
    rw [hget]
    rfl

/-- C6: when `NewFileSpecStore` succeeds on a directory, `List` returns the
sorted list of the names got by removing `.json` from every entry that is not
a directory and whose name ends in `.json`, their number is the number of such
entries, only those entries are read, and the outcome does not depend on what
reading any other entry would give. -/
theorem list_names_of_directory (fs : FileSystem) (specsDir : String) (store : FileSpecStore)
    (h : NewFileSpecStore fs specsDir = .ok store) :
    ∃ entries names, fs.ReadDir = .ok entries ∧ store.List = .ok names ∧
      names = sortStrings (serviceNames entries) ∧
      (∀ n, n ∈ names ↔ ∃ e ∈ entries, e.IsDir = false ∧ e.Name = n ++ ".json") ∧
      names.length = (entries.filter isSpecFile).length ∧
      (loadSpecs fs { specsDir := specsDir, specs := GoMap.empty, configs := GoMap.empty }).reads
        = (entries.filter isSpecFile).map DirEntry.Name ∧
      ∀ fs' : FileSystem, fs'.statIsNotExist = fs.statIsNotExist → fs'.ReadDir = fs.ReadDir →
        (∀ e ∈ entries, isSpecFile e = true → fs'.ReadFile e.Name = fs.ReadFile e.Name) →
        NewFileSpecStore fs' specsDir = NewFileSpecStore fs specsDir := by
  obtain ⟨_, entries, hdir, hnd, hload⟩ := NewFileSpecStore_ok fs specsDir store h
  have hperm : store.specs.keys.Perm (serviceNames entries) :=
    (List.perm_ext_iff_of_nodup store.specs.nodup (serviceNames_nodup entries hnd)).2
      (fun n => NewFileSpecStore_keys fs specsDir store entries hdir h n)
  have hsort : sortStrings store.specs.keys = sortStrings (serviceNames entries) := by
    haveI : IsAntisymm String (fun a b : String => a ≤ b) := ⟨fun a b => le_antisymm⟩
    exact List.eq_of_perm_of_sorted
      (((sortStrings_perm _).trans hperm).trans (sortStrings_perm _).symm)
      (sortStrings_sorted _) (sortStrings_sorted _)
  refine ⟨entries, _, hdir, store.List_eq, hsort, ?_, ?_, ?_, ?_⟩
  · intro n
    rw [hsort, (sortStrings_perm _).mem_iff]
    exact mem_serviceNames_iff entries n
  · rw [hsort, (sortStrings_perm _).length_eq]
    unfold serviceNames
    simp
  · unfold loadSpecs
    simp only [hdir]
    rw [loadEntries_reads fs entries _ store [] hload]
    simp
  · intro fs' hstat hdir' hsame
    unfold NewFileSpecStore loadSpecs
    rw [hstat, hdir', hdir]
    simp only []
    rw [loadEntries_congr fs fs' entries _ [] hsame]

/-- C6 at the directory holding `rag-api.json`, `readme.txt` and a
subdirectory `sub.json`. -/
theorem list_names_of_directory_witness :
    ∃ entries names, mixedDirectory.ReadDir = .ok entries ∧ mixedStore.List = .ok names ∧
      names = sortStrings (serviceNames entries) ∧
      (∀ n, n ∈ names ↔ ∃ e ∈ entries, e.IsDir = false ∧ e.Name = n ++ ".json") ∧
      names.length = (entries.filter isSpecFile).length ∧
      (loadSpecs mixedDirectory
          { specsDir := "specs", specs := GoMap.empty, configs := GoMap.empty }).reads
        = (entries.filter isSpecFile).map DirEntry.Name ∧
      ∀ fs' : FileSystem, fs'.statIsNotExist = mixedDirectory.statIsNotExist →
        fs'.ReadDir = mixedDirectory.ReadDir →
        (∀ e ∈ entries, isSpecFile e = true →
          fs'.ReadFile e.Name = mixedDirectory.ReadFile e.Name) →
        NewFileSpecStore fs' "specs" = NewFileSpecStore mixedDirectory "specs" :=
  list_names_of_directory mixedDirectory "specs" mixedStore rfl

/-- C7: a directory that lists a file whose name ends in `.json` and whose
contents are not valid JSON makes `NewFileSpecStore` return an error, hence no
store, whatever else the directory holds and wherever the file stands in the
listing. -/
theorem new_store_fails_on_invalid_json (fs : FileSystem) (specsDir : String)
    (entries : List DirEntry) (e : DirEntry) (data : Bytes)
    (hdir : fs.ReadDir = .ok entries) (he : e ∈ entries) (hfile : e.IsDir = false)
    (hname : HasSuffix e.Name ".json" = true) (hread : fs.ReadFile e.Name = .ok data)
    (hbad : jsonValid data = false) :
    ∃ err, NewFileSpecStore fs specsDir = .error err := by
  have hdoc : unmarshalSpecDoc data = .error .syntaxError := by
    unfold jsonValid at hbad
    unfold unmarshalSpecDoc
    cases hd : decodeText data with
    | none => rfl
    | some v => simp [hd] at hbad
  unfold NewFileSpecStore
  cases fs.statIsNotExist with
  | true => exact ⟨_, rfl⟩
  | false =>
    obtain ⟨err, herr⟩ := loadEntries_error_of_bad fs entries
      { specsDir := specsDir, specs := GoMap.empty, configs := GoMap.empty } [] e data _
      he ((isSpecFile_iff e).2 ⟨hfile, hname⟩) hread hdoc
    refine ⟨.failedToLoadSpecs err, ?_⟩
    simp [loadSpecs, hdir, herr]

/-- C7 at the directory holding a valid `rag-api.json` followed by
`invalid.json` with the contents `{invalid json}`. -/
theorem new_store_fails_on_invalid_json_witness :
    ∃ err, NewFileSpecStore brokenDirectory "specs" = .error err :=
  new_store_fails_on_invalid_json brokenDirectory "specs" _ ⟨"invalid.json", false⟩
    (ascii "\x7binvalid json\x7d") rfl (by decide) rfl (by decide) rfl (by decide)

/-- C8, as stated, fails: a file `a.json` holding `[1]`, or holding
`{"a":1e999}`, is valid JSON without an `x-proxy-config` field, and
`NewFileSpecStore` fails on it with an invalid-JSON error.  It fails in the
same way on `{"a":1e999,"a":1}`, where the member out of range is overwritten
later. -/
theorem valid_json_loads_counterexample :
    (jsonValid (ascii "[1]") = true ∧
      NewFileSpecStore (singleFile (ascii "[1]")) "specs"
        = .error (.failedToLoadSpecs (.invalidJSON "a.json" (.unmarshalTypeError "array")))) ∧
    (jsonValid (ascii "\x7b\"a\":1e999\x7d") = true ∧
      NewFileSpecStore (singleFile (ascii "\x7b\"a\":1e999\x7d")) "specs"
        = .error (.failedToLoadSpecs
            (.invalidJSON "a.json" (.unmarshalTypeError "number 1e999")))) ∧
    (jsonValid (ascii "\x7b\"a\":1e999,\"a\":1\x7d") = true ∧
      NewFileSpecStore (singleFile (ascii "\x7b\"a\":1e999,\"a\":1\x7d")) "specs"
        = .error (.failedToLoadSpecs
            (.invalidJSON "a.json" (.unmarshalTypeError "number 1e999")))) :=
  ⟨⟨by decide, rfl⟩, ⟨by decide, rfl⟩, ⟨by decide, rfl⟩⟩

/-- C8, amended: `NewFileSpecStore` succeeds on every directory that exists and
can be listed, and in which every file with a name ending in `.json` can be
read and holds valid JSON in which every number of the text converts to
`float64` and whose top-level value is `null` or an object none of whose
members is named `x-proxy-config`. -/
theorem new_store_succeeds_on_plain_objects (fs : FileSystem) (specsDir : String)
    (entries : List DirEntry) (hstat : fs.statIsNotExist = false)
    (hdir : fs.ReadDir = .ok entries)
    (hall : ∀ e ∈ entries, e.IsDir = false → HasSuffix e.Name ".json" = true →
      ∃ data v, fs.ReadFile e.Name = .ok data ∧ decodeText data = some v ∧
        v.numbersInRange = true ∧
        (v = .null ∨ ∃ members, v = .object members ∧
          ∀ p ∈ members, p.1 ≠ "x-proxy-config")) :
    ∃ store, NewFileSpecStore fs specsDir = .ok store := by
  obtain ⟨s', hs'⟩ := loadEntries_ok_of_plain fs entries
    { specsDir := specsDir, specs := GoMap.empty, configs := GoMap.empty } [] (by
      intro e he hspec
      obtain ⟨hd, hn⟩ := (isSpecFile_iff e).1 hspec
      obtain ⟨data, v, hread, hdec, hnum, hv⟩ := hall e he hd hn
      rcases hv with rfl | ⟨members, rfl, hnone⟩
      · exact ⟨data, [], hread, by simp [unmarshalSpecDoc, hdec], rfl⟩
      · have hnum' : numbersInRangeMembers members = true := by
          simpa [JSON.numbersInRange] using hnum
        refine ⟨data, (storedMembers members).foldl (fun m kv => assignEntry kv.1 kv.2 m) [],
          hread, by
            simp [unmarshalSpecDoc, hdec, savedErrorMembers_of_numbersInRange members hnum'],
          ?_⟩
        cases hl : List.lookup "x-proxy-config"
            ((storedMembers members).foldl (fun m kv => assignEntry kv.1 kv.2 m) []) with
        | none => rfl
        | some v =>
          exfalso
          have hmem := mem_of_lookup_eq_some _ _ _ hl
          rcases (foldl_assignEntry_spec (storedMembers members) [] List.nodup_nil).2 _ hmem
            with h | h
          · have hk : "x-proxy-config" ∈ (storedMembers members).map Prod.fst :=
              List.mem_map.2 ⟨_, h, rfl⟩
            rw [storedMembers_keys] at hk
            obtain ⟨q, hq, hqk⟩ := List.mem_map.1 hk
            exact hnone q hq hqk
          · cases h)
  exact ⟨s', by simp [NewFileSpecStore, hstat, loadSpecs, hdir, hs']⟩

/-- C8 at the directory holding `rag-api.json`, `readme.txt` and a
subdirectory `sub.json`. -/
theorem new_store_succeeds_on_plain_objects_witness :
    ∃ store, NewFileSpecStore mixedDirectory "specs" = .ok store :=
  new_store_succeeds_on_plain_objects mixedDirectory "specs" _ rfl rfl (by
    intro e he hd hn
    simp only [List.mem_cons, List.mem_singleton, List.not_mem_nil, or_false] at he
    rcases he with rfl | rfl | rfl
    · exact ⟨ascii "\x7b\"openapi\":\"3.0.0\"\x7d", .object [("openapi", .string "3.0.0")],
        rfl, rfl, by decide, Or.inr ⟨_, rfl, by decide⟩⟩
    · exact absurd hn (by decide)
    · exact absurd hd (by decide))

/-- C9: when `NewFileSpecStore` succeeds, a spec file whose document has no
top-level `x-proxy-config` member can be fetched by `Get` under its service
name, which returns the bytes of the file, while `GetConfig` fails for that
name with the config-not-found error. -/
theorem get_without_config (fs : FileSystem) (specsDir : String) (store : FileSpecStore)
    (entries : List DirEntry) (e : DirEntry) (data : Bytes) (doc : List (String × JSON))
    (h : NewFileSpecStore fs specsDir = .ok store) (hdir : fs.ReadDir = .ok entries)
    (he : e ∈ entries) (hfile : e.IsDir = false) (hname : HasSuffix e.Name ".json" = true)
    (hread : fs.ReadFile e.Name = .ok data) (hdoc : unmarshalSpecDoc data = .ok doc)
    (hnone : doc.lookup "x-proxy-config" = none) :
    store.Get (TrimSuffix e.Name ".json") = .ok data ∧
      store.GetConfig (TrimSuffix e.Name ".json")
        = .error (.configNotFound (TrimSuffix e.Name ".json")) := by
  obtain ⟨_, entries', hdir', hnd, hload⟩ := NewFileSpecStore_ok fs specsDir store h
  rw [hdir] at hdir'
  cases hdir'
  obtain ⟨data', doc', hread', hdoc', hget, hcfg⟩ :=
    loadEntries_loaded fs entries _ store [] hload hnd e he ((isSpecFile_iff e).2 ⟨hfile, hname⟩)
  rw [hread] at hread'
  cases hread'
  rw [hdoc] at hdoc'
  cases hdoc'
  constructor
  · unfold FileSpecStore.Get
    rw [hget]
  · unfold FileSpecStore.GetConfig
    rcases hcfg with ⟨_, hc⟩ | ⟨raw, _, hraw, _, _⟩
    · rw [hc, GoMap.get?_empty]
    · rw [hnone] at hraw
      cases hraw

/-- C9 at the directory holding `rag-api.json` with `{"openapi":"3.0.0"}`. -/
theorem get_without_config_witness :
    mixedStore.Get (TrimSuffix "rag-api.json" ".json")
      = .ok (ascii "\x7b\"openapi\":\"3.0.0\"\x7d") ∧
    mixedStore.GetConfig (TrimSuffix "rag-api.json" ".json")
      = .error (.configNotFound (TrimSuffix "rag-api.json" ".json")) :=
  get_without_config mixedDirectory "specs" mixedStore _ ⟨"rag-api.json", false⟩ _
    [("openapi", .string "3.0.0")] rfl rfl (by decide) rfl (by decide) rfl rfl rfl

/-- C10: on a store built by `NewFileSpecStore`, `Get(name)` returns the bytes
that were read from the file `name.json` when the listing has such a file, and
fails with the spec-not-found error when it has none. -/
theorem get_iff_loaded (fs : FileSystem) (specsDir : String) (store : FileSpecStore)
    (h : NewFileSpecStore fs specsDir = .ok store) (name : String) :
    ∃ entries, fs.ReadDir = .ok entries ∧
      ((∃ e ∈ entries, e.IsDir = false ∧ e.Name = name ++ ".json") →
        ∃ data, fs.ReadFile (name ++ ".json") = .ok data ∧ store.Get name = .ok data) ∧
      ((¬ ∃ e ∈ entries, e.IsDir = false ∧ e.Name = name ++ ".json") →
        store.Get name = .error (.specNotFound name)) := by
  obtain ⟨_, entries, hdir, hnd, hload⟩ := NewFileSpecStore_ok fs specsDir store h
  refine ⟨entries, hdir, ?_, ?_⟩
  · rintro ⟨e, he, hd, hn⟩
    have hs : HasSuffix e.Name ".json" = true := by rw [hn]; exact HasSuffix_append name ".json"
    obtain ⟨data, _, hread, _, hget, _⟩ :=
      loadEntries_loaded fs entries _ store [] hload hnd e he ((isSpecFile_iff e).2 ⟨hd, hs⟩)
    rw [(TrimSuffix_eq_iff _ _ _ hs).2 hn] at hget
    rw [hn] at hread
    exact ⟨data, hread, by unfold FileSpecStore.Get; rw [hget]⟩
  · intro hnot
    have hkeys : name ∉ store.specs.keys := by
      rw [NewFileSpecStore_keys fs specsDir store entries hdir h name, mem_serviceNames_iff]
      exact hnot
    rw [GoMap.mem_keys_iff] at hkeys
    unfold FileSpecStore.Get
    cases hg : store.specs.get? name with
    | none => rfl
    | some v => simp [hg] at hkeys

/-- C10 at the directory holding `rag-api.json`, for the names `rag-api` and
`readme`. -/
theorem get_iff_loaded_witness :
    (∃ entries, mixedDirectory.ReadDir = .ok entries ∧
      ((∃ e ∈ entries, e.IsDir = false ∧ e.Name = "rag-api" ++ ".json") →
        ∃ data, mixedDirectory.ReadFile ("rag-api" ++ ".json") = .ok data ∧
          mixedStore.Get "rag-api" = .ok data) ∧
      ((¬ ∃ e ∈ entries, e.IsDir = false ∧ e.Name = "rag-api" ++ ".json") →
        mixedStore.Get "rag-api" = .error (.specNotFound "rag-api"))) ∧
    (∃ entries, mixedDirectory.ReadDir = .ok entries ∧
      ((∃ e ∈ entries, e.IsDir = false ∧ e.Name = "readme" ++ ".json") →
        ∃ data, mixedDirectory.ReadFile ("readme" ++ ".json") = .ok data ∧
          mixedStore.Get "readme" = .ok data) ∧
      ((¬ ∃ e ∈ entries, e.IsDir = false ∧ e.Name = "readme" ++ ".json") →
        mixedStore.Get "readme" = .error (.specNotFound "readme"))) :=
  ⟨get_iff_loaded mixedDirectory "specs" mixedStore rfl "rag-api",
   get_iff_loaded mixedDirectory "specs" mixedStore rfl "readme"⟩

/-! ## Marshalling and the shapes that the config decoder takes -/

theorem marshalMembers_eq_map (ms : List (String × JSON)) :
    marshalMembers ms = ms.map (fun p => (p.1, p.2.marshal)) := by
  induction ms with
  | nil => simp [marshalMembers]
  | cons p rest ih =>
    obtain ⟨k, v⟩ := p
    simp [marshalMembers, ih]

theorem sortMembers_perm (l : List (String × JSON)) : (sortMembers l).Perm l :=
  List.perm_insertionSort _ l

theorem all_eq_of_perm {α : Type} (f : α → Bool) (l₁ l₂ : List α) (h : l₁.Perm l₂) :
    l₁.all f = l₂.all f := by
  rw [Bool.eq_iff_iff, List.all_eq_true, List.all_eq_true]
  exact ⟨fun hx x hm => hx x (h.mem_iff.2 hm), fun hx x hm => hx x (h.mem_iff.1 hm)⟩

theorem mem_marshal_object (ms : List (String × JSON)) (p : String × JSON) :
    p ∈ sortMembers (marshalMembers ms) ↔ ∃ q ∈ ms, p = (q.1, q.2.marshal) := by
  rw [(sortMembers_perm _).mem_iff, marshalMembers_eq_map, List.mem_map]
  constructor
  · rintro ⟨q, hq, rfl⟩
    exact ⟨q, hq, rfl⟩
  · rintro ⟨q, hq, rfl⟩
    exact ⟨q, hq, rfl⟩

theorem marshal_object (ms : List (String × JSON)) :
    (JSON.object ms).marshal = .object (sortMembers (marshalMembers ms)) := by
  simp [JSON.marshal]

theorem acceptsString_marshal (v : JSON) : acceptsString v.marshal = acceptsString v := by
  cases v <;> simp [JSON.marshal, acceptsString]

theorem acceptsStringMap_marshal (v : JSON) :
    acceptsStringMap v.marshal = acceptsStringMap v := by
  cases v with
  | object hs =>
    rw [marshal_object]
    simp only [acceptsStringMap]
    rw [all_eq_of_perm _ _ _ (sortMembers_perm _), marshalMembers_eq_map, List.all_map]
    congr 1
    funext p
    exact acceptsString_marshal p.2
  | _ => simp [JSON.marshal, acceptsStringMap]

theorem acceptsField_marshal (p : String × JSON) :
    acceptsField (p.1, p.2.marshal) = acceptsField p := by
  unfold acceptsField
  cases findField p.1 with
  | none => rfl
  | some f =>
    cases f with
    | BaseURL => exact acceptsString_marshal p.2
    | AuthHeaders => exact acceptsStringMap_marshal p.2

theorem acceptsConfig_marshal (v : JSON) : acceptsConfig v.marshal = acceptsConfig v := by
  cases v with
  | object ms =>
    rw [marshal_object]
    simp only [acceptsConfig]
    rw [all_eq_of_perm _ _ _ (sortMembers_perm _), marshalMembers_eq_map, List.all_map]
    congr 1
    funext p
    exact acceptsField_marshal p
  | _ => simp [JSON.marshal, acceptsConfig]

/-! ## The config decoder and its saved error -/

theorem storeAuthHeader_saved (acc : GoMap String × Option JSONError) (kv : String × JSON) :
    (storeAuthHeader acc kv).2.isSome = (acc.2.isSome || !acceptsString kv.2) := by
  obtain ⟨m, sv⟩ := acc
  obtain ⟨k, v⟩ := kv
  cases v <;> cases sv <;> simp [storeAuthHeader, acceptsString, Option.or]

theorem foldl_storeAuthHeader_saved (hs : List (String × JSON))
    (acc : GoMap String × Option JSONError) :
    (hs.foldl storeAuthHeader acc).2.isSome
      = (acc.2.isSome || !hs.all (fun p => acceptsString p.2)) := by
  induction hs generalizing acc with
  | nil => simp
  | cons kv rest ih =>
    rw [List.foldl_cons, ih, storeAuthHeader_saved, List.all_cons]
    generalize acc.2.isSome = a
    generalize acceptsString kv.2 = b
    generalize (rest.all fun p => acceptsString p.2) = c
    cases a <;> cases b <;> cases c <;> rfl

theorem storeField_saved (st : DecodeState) (p : String × JSON) :
    (storeField st p).saved.isSome = (st.saved.isSome || !acceptsField p) := by
  obtain ⟨k, v⟩ := p
  unfold storeField acceptsField
  cases hf : findField k with
  | none => simp
  | some f =>
    cases f with
    | BaseURL =>
      cases v <;> cases hs : st.saved <;>
        simp [acceptsString, DecodeState.saveError, Option.or, hs]
    | AuthHeaders =>
      cases v with
      | object hs =>
        simp only [acceptsStringMap]
        exact foldl_storeAuthHeader_saved hs _
      | _ =>
        cases hs : st.saved <;> simp [acceptsStringMap, DecodeState.saveError, Option.or, hs]

theorem foldl_storeField_saved (ms : List (String × JSON)) (st : DecodeState) :
    (ms.foldl storeField st).saved.isSome = (st.saved.isSome || !ms.all acceptsField) := by
  induction ms generalizing st with
  | nil => simp
  | cons p rest ih =>
    rw [List.foldl_cons, ih, storeField_saved, List.all_cons]
    generalize st.saved.isSome = a
    generalize acceptsField p = b
    generalize rest.all acceptsField = c
    cases a <;> cases b <;> cases c <;> rfl

/-- The config decoder fails exactly on the values that `acceptsConfig`
rejects. -/
theorem unmarshalServiceConfig_error_iff (v : JSON) :
    (∃ e, unmarshalServiceConfig v = .error e) ↔ acceptsConfig v = false := by
  cases v with
  | object ms =>
    have h := foldl_storeField_saved ms
      { config := { BaseURL := "", AuthHeaders := none }, saved := none }
    simp only [unmarshalServiceConfig, acceptsConfig]
    cases hs : (ms.foldl storeField
      { config := { BaseURL := "", AuthHeaders := none }, saved := none }).saved with
    | none =>
      rw [hs] at h
      have hall : ms.all acceptsField = true := by
        cases hc : ms.all acceptsField with
        | true => rfl
        | false => rw [hc] at h; cases h
      rw [hall]
      constructor
      · rintro ⟨e, he⟩
        cases he
      · intro hc
        cases hc
    | some e =>
      rw [hs] at h
      have hall : ms.all acceptsField = false := by
        cases hc : ms.all acceptsField with
        | false => rfl
        | true => rw [hc] at h; cases h
      rw [hall]
      exact ⟨fun _ => rfl, fun _ => ⟨e, rfl⟩⟩
  | _ => simp [unmarshalServiceConfig, acceptsConfig]

/-! ## The config decoder and the fields it fills -/

theorem storeField_BaseURL_of_ne (st : DecodeState) (p : String × JSON)
    (h : findField p.1 ≠ some .BaseURL) :
    (storeField st p).config.BaseURL = st.config.BaseURL := by
  obtain ⟨k, v⟩ := p
  unfold storeField
  cases hf : findField k with
  | none => rfl
  | some f =>
    cases f with
    | BaseURL => exact absurd hf h
    | AuthHeaders => cases v <;> rfl

theorem storeField_AuthHeaders_of_ne (st : DecodeState) (p : String × JSON)
    (h : findField p.1 ≠ some .AuthHeaders) :
    (storeField st p).config.AuthHeaders = st.config.AuthHeaders := by
  obtain ⟨k, v⟩ := p
  unfold storeField
  cases hf : findField k with
  | none => rfl
  | some f =>
    cases f with
    | AuthHeaders => exact absurd hf h
    | BaseURL => cases v <;> rfl

/-- When every member that names `baseURL` carries the string `B`, the decoder
ends with `B` in `BaseURL`, once one such member is met or `B` was there. -/
theorem foldl_storeField_BaseURL (B : String) (ms : List (String × JSON)) (st : DecodeState)
    (hall : ∀ p ∈ ms, findField p.1 = some .BaseURL → p.2 = .string B)
    (hex : (∃ p ∈ ms, findField p.1 = some .BaseURL) ∨ st.config.BaseURL = B) :
    (ms.foldl storeField st).config.BaseURL = B := by
  induction ms generalizing st with
  | nil =>
    rcases hex with ⟨p, hp, _⟩ | h
    · cases hp
    · exact h
  | cons p rest ih =>
    rw [List.foldl_cons]
    apply ih _ (fun q hq => hall q (List.mem_cons_of_mem _ hq))
    by_cases hp : findField p.1 = some .BaseURL
    · right
      have hv := hall p (List.mem_cons_self _ _) hp
      obtain ⟨k, v⟩ := p
      simp only at hv hp
      subst hv
      unfold storeField
      simp [hp]
    · rcases hex with ⟨q, hq, hqf⟩ | h
      · rcases List.mem_cons.1 hq with rfl | hq'
        · exact absurd hqf hp
        · exact Or.inl ⟨q, hq', hqf⟩
      · right
        rw [storeField_BaseURL_of_ne st p hp]
        exact h

theorem foldl_storeField_AuthHeaders_of_absent (ms : List (String × JSON)) (st : DecodeState)
    (habs : ∀ p ∈ ms, findField p.1 ≠ some .AuthHeaders) :
    (ms.foldl storeField st).config.AuthHeaders = st.config.AuthHeaders := by
  induction ms generalizing st with
  | nil => rfl
  | cons p rest ih =>
    rw [List.foldl_cons, ih _ (fun q hq => habs q (List.mem_cons_of_mem _ hq))]
    exact storeField_AuthHeaders_of_ne st p (habs p (List.mem_cons_self _ _))

/-- When one member names `authHeaders`, it holds an object, and the field is
nil before, the decoder ends with the map that the members of that object
fill, starting from an empty one. -/
theorem foldl_storeField_AuthHeaders_of_single (k : String) (hs : List (String × JSON))
    (ms : List (String × JSON)) (st : DecodeState) (hnd : (ms.map Prod.fst).Nodup)
    (hmem : (k, JSON.object hs) ∈ ms) (hk : findField k = some .AuthHeaders)
    (hall : ∀ p ∈ ms, findField p.1 = some .AuthHeaders → p.1 = k)
    (hst : st.config.AuthHeaders = none) :
    ∃ sv, (ms.foldl storeField st).config.AuthHeaders
      = some (hs.foldl storeAuthHeader (GoMap.empty, sv)).1 := by
  induction ms generalizing st with
  | nil => cases hmem
  | cons p rest ih =>
    rw [List.map_cons, List.nodup_cons] at hnd
    rw [List.foldl_cons]
    by_cases hp : p.1 = k
    · have hpe : p = (k, JSON.object hs) := by
        rcases List.mem_cons.1 hmem with h | h
        · exact h.symm
        · exact absurd (List.mem_map.2 ⟨_, h, rfl⟩) (hp ▸ hnd.1)
      subst hpe
      refine ⟨st.saved, ?_⟩
      rw [foldl_storeField_AuthHeaders_of_absent rest _ (fun q hq hqf => by
        have := hall q (List.mem_cons_of_mem _ hq) hqf
        exact hnd.1 (List.mem_map.2 ⟨q, hq, this⟩))]
      unfold storeField
      simp [hk, hst]
    · have hpf : findField p.1 ≠ some .AuthHeaders :=
        fun h => hp (hall p (List.mem_cons_self _ _) h)
      have hmem' : (k, JSON.object hs) ∈ rest := by
        rcases List.mem_cons.1 hmem with h | h
        · exact absurd (by rw [← h]) hp
        · exact h
      exact ih _ hnd.2 hmem' (fun q hq => hall q (List.mem_cons_of_mem _ hq))
        (by rw [storeField_AuthHeaders_of_ne st p hpf]; exact hst)

theorem storeAuthHeader_get?_of_ne (acc : GoMap String × Option JSONError)
    (kv : String × JSON) (k : String) (h : k ≠ kv.1) :
    (storeAuthHeader acc kv).1.get? k = acc.1.get? k := by
  obtain ⟨k', v⟩ := kv
  cases v <;> exact GoMap.get?_set_ne _ _ _ _ h

theorem foldl_storeAuthHeader_get?_of_absent (hs : List (String × JSON))
    (acc : GoMap String × Option JSONError) (k : String) (habs : k ∉ hs.map Prod.fst) :
    (hs.foldl storeAuthHeader acc).1.get? k = acc.1.get? k := by
  induction hs generalizing acc with
  | nil => rfl
  | cons kv rest ih =>
    rw [List.map_cons, List.mem_cons, not_or] at habs
    rw [List.foldl_cons, ih _ habs.2]
    exact storeAuthHeader_get?_of_ne acc kv k habs.1

theorem foldl_storeAuthHeader_get?_of_mem (hs : List (String × JSON))
    (acc : GoMap String × Option JSONError) (k v : String) (hnd : (hs.map Prod.fst).Nodup)
    (hmem : (k, JSON.string v) ∈ hs) :
    (hs.foldl storeAuthHeader acc).1.get? k = some v := by
  induction hs generalizing acc with
  | nil => cases hmem
  | cons kv rest ih =>
    rw [List.map_cons, List.nodup_cons] at hnd
    rw [List.foldl_cons]
    rcases List.mem_cons.1 hmem with h | h
    · subst h
      rw [foldl_storeAuthHeader_get?_of_absent rest _ k hnd.1]
      exact GoMap.get?_set_self _ _ _
    · exact ih _ hnd.2 h

theorem object_distinctKeys (ms : List (String × JSON))
    (h : (JSON.object ms).distinctKeys = true) :
    (ms.map Prod.fst).Nodup ∧ ∀ p ∈ ms, p.2.distinctKeys = true := by
  simp only [JSON.distinctKeys, Bool.and_eq_true, decide_eq_true_eq] at h
  exact ⟨h.1, (distinctKeysMembers_iff ms).1 h.2⟩

/-- A decoded spec document is a map, and so is every object inside it. -/
theorem unmarshalSpecDoc_distinctKeys (data : Bytes) (doc : List (String × JSON))
    (h : unmarshalSpecDoc data = .ok doc) :
    (doc.map Prod.fst).Nodup ∧ ∀ p ∈ doc, p.2.distinctKeys = true := by
  unfold unmarshalSpecDoc at h
  cases hd : decodeText data with
  | none => simp [hd] at h
  | some v =>
    cases v with
    | object members =>
      simp only [hd] at h
      split at h
      · cases h
      · cases h
        have hv := stored_distinctKeys (.object members)
        simp only [JSON.stored] at hv
        exact object_distinctKeys _ hv
    | null =>
      simp only [hd] at h
      cases h
      exact ⟨List.nodup_nil, fun p hp => by cases hp⟩
    | _ => simp [hd] at h

theorem sortMembers_marshal_keys_nodup (ms : List (String × JSON))
    (h : (ms.map Prod.fst).Nodup) :
    ((sortMembers (marshalMembers ms)).map Prod.fst).Nodup := by
  have hp : ((sortMembers (marshalMembers ms)).map Prod.fst).Perm (ms.map Prod.fst) := by
    have h1 := (sortMembers_perm (marshalMembers ms)).map Prod.fst
    have h2 : (marshalMembers ms).map Prod.fst = ms.map Prod.fst := by
      rw [marshalMembers_eq_map, List.map_map]
      rfl
    rw [h2] at h1
    exact h1
  exact hp.nodup_iff.2 h

/-- What the config decoder stores for an object with a `baseURL` string and no
other member that names a field of `ServiceConfig` up to letter case, except
possibly `authHeaders`. -/
theorem unmarshalServiceConfig_fields (members : List (String × JSON))
    (config : ServiceConfig) (B : String)
    (hdist : (JSON.object members).distinctKeys = true)
    (hok : unmarshalServiceConfig (JSON.object members).marshal = .ok config)
    (hbase : members.lookup "baseURL" = some (.string B))
    (hfoldB : ∀ p ∈ members, findField p.1 = some .BaseURL → p.1 = "baseURL")
    (hfoldA : ∀ p ∈ members, findField p.1 = some .AuthHeaders → p.1 = "authHeaders") :
    config.BaseURL = B ∧
    (members.lookup "authHeaders" = none → config.AuthHeaders = none) ∧
    (∀ H, members.lookup "authHeaders" = some (.object H) →
      (∀ p ∈ H, ∃ v, p.2 = .string v) →
      ∃ m, config.AuthHeaders = some m ∧
        ∀ k v, m.get? k = some v ↔ H.lookup k = some (.string v)) := by
  obtain ⟨hnd, hvals⟩ := object_distinctKeys members hdist
  rw [marshal_object] at hok
  simp only [unmarshalServiceConfig] at hok
  have hcfg : config = ((sortMembers (marshalMembers members)).foldl storeField
      { config := { BaseURL := "", AuthHeaders := none }, saved := none }).config := by
    split at hok
    · cases hok
    · cases hok
      rfl
  have hndL := sortMembers_marshal_keys_nodup members hnd
  refine ⟨?_, ?_, ?_⟩
  · rw [hcfg]
    apply foldl_storeField_BaseURL B
    · intro p hp hpf
      obtain ⟨q, hq, rfl⟩ := (mem_marshal_object members p).1 hp
      have hq1 : q.1 = "baseURL" := hfoldB q hq hpf
      have hq2 : members.lookup "baseURL" = some q.2 :=
        (lookup_eq_some_iff members hnd _ _).2 (by rw [← hq1]; exact hq)
      rw [hbase] at hq2
      have hq3 : q.2 = JSON.string B := (Option.some.inj hq2).symm
      simp [hq3, JSON.marshal]
    · left
      refine ⟨("baseURL", JSON.string B), ?_, (by decide : findField "baseURL" = some .BaseURL)⟩
      exact (mem_marshal_object members _).2
        ⟨("baseURL", JSON.string B), mem_of_lookup_eq_some _ _ _ hbase, by simp [JSON.marshal]⟩
  · intro hnone
    rw [hcfg, foldl_storeField_AuthHeaders_of_absent]
    intro p hp hpf
    obtain ⟨q, hq, rfl⟩ := (mem_marshal_object members p).1 hp
    have hq1 : q.1 = "authHeaders" := hfoldA q hq hpf
    have hmem : "authHeaders" ∈ members.map Prod.fst := List.mem_map.2 ⟨q, hq, hq1⟩
    rw [← lookup_isSome_iff, hnone] at hmem
    cases hmem
  · intro H hH hstr
    have hHmem : ("authHeaders", JSON.object H) ∈ members := mem_of_lookup_eq_some _ _ _ hH
    obtain ⟨hndH, _⟩ := object_distinctKeys H (hvals _ hHmem)
    have hndH' := sortMembers_marshal_keys_nodup H hndH
    have hmemL : ("authHeaders", JSON.object (sortMembers (marshalMembers H)))
        ∈ sortMembers (marshalMembers members) :=
      (mem_marshal_object members _).2 ⟨_, hHmem, by rw [marshal_object]⟩
    obtain ⟨sv, hsv⟩ := foldl_storeField_AuthHeaders_of_single "authHeaders" _ _
      { config := { BaseURL := "", AuthHeaders := none }, saved := none } hndL hmemL (by decide)
      (fun p hp hpf => by
        obtain ⟨q, hq, rfl⟩ := (mem_marshal_object members p).1 hp
        exact hfoldA q hq hpf) rfl
    refine ⟨_, by rw [hcfg]; exact hsv, fun k v => ?_⟩
    have hmemH : ∀ k v, (k, JSON.string v) ∈ sortMembers (marshalMembers H)
        ↔ (k, JSON.string v) ∈ H := by
      intro k v
      rw [mem_marshal_object]
      constructor
      · rintro ⟨q, hq, heq⟩
        obtain ⟨w, hw⟩ := hstr q hq
        obtain ⟨qk, qv⟩ := q
        simp only at hw
        subst hw
        simp only [JSON.marshal, Prod.mk.injEq, JSON.string.injEq] at heq
        obtain ⟨rfl, rfl⟩ := heq
        exact hq
      · intro hq
        exact ⟨_, hq, by simp [JSON.marshal]⟩
    constructor
    · intro hget
      by_cases hk : k ∈ (sortMembers (marshalMembers H)).map Prod.fst
      · obtain ⟨p, hp, hpk⟩ := List.mem_map.1 hk
        obtain ⟨q, hq, rfl⟩ := (mem_marshal_object H p).1 hp
        obtain ⟨w, hw⟩ := hstr q hq
        obtain ⟨qk, qv⟩ := q
        simp only at hw hpk
        subst hw
        subst hpk
        have hin : (qk, JSON.string w) ∈ sortMembers (marshalMembers H) :=
          (hmemH qk w).2 hq
        rw [foldl_storeAuthHeader_get?_of_mem _ _ qk w hndH' hin] at hget
        cases hget
        exact (lookup_eq_some_iff H hndH _ _).2 hq
      · rw [foldl_storeAuthHeader_get?_of_absent _ _ k hk] at hget
        cases hget
    · intro hl
      have hq : (k, JSON.string v) ∈ H := (lookup_eq_some_iff H hndH _ _).1 hl
      exact foldl_storeAuthHeader_get?_of_mem _ _ k v hndH' ((hmemH k v).2 hq)

/-! ## The config of a loaded document (C11, C12) -/

/-- C11, as stated, fails: in `{"x-proxy-config":{"baseURL":"http://x",
"baseurl":"http://y"}}` the `x-proxy-config` object has the string `baseURL`
`http://x`, and `GetConfig` returns the `BaseURL` `http://y`, because the
decoder matches field names without regard to letter case and takes the
members in the order of their keys. -/
theorem get_config_counterexample :
    ∃ doc members store config,
      unmarshalSpecDoc twoBaseURLSpec = .ok doc ∧
      doc.lookup "x-proxy-config" = some (.object members) ∧
      members.lookup "baseURL" = some (.string "http://x") ∧
      NewFileSpecStore (singleFile twoBaseURLSpec) "specs" = .ok store ∧
      store.GetConfig "a" = .ok config ∧ config.BaseURL = "http://y" :=
  ⟨_, _, _, _, rfl, rfl, rfl, rfl, rfl, rfl⟩

/-- C11, amended: for a loaded document whose `x-proxy-config` is an object
with the string `baseURL` `B`, with `authHeaders` absent or an object `H` of
strings, and with no other member whose key is `baseURL` or `authHeaders` up
to letter case, `GetConfig` returns a config whose `BaseURL` is `B` and whose
`AuthHeaders` is nil when `authHeaders` is absent and holds exactly the
entries of `H` otherwise. -/
theorem get_config_of_document (fs : FileSystem) (specsDir : String) (store : FileSpecStore)
    (entries : List DirEntry) (e : DirEntry) (data : Bytes) (doc members : List (String × JSON))
    (B : String)
    (h : NewFileSpecStore fs specsDir = .ok store) (hdir : fs.ReadDir = .ok entries)
    (he : e ∈ entries) (hfile : e.IsDir = false) (hname : HasSuffix e.Name ".json" = true)
    (hread : fs.ReadFile e.Name = .ok data) (hdoc : unmarshalSpecDoc data = .ok doc)
    (hraw : doc.lookup "x-proxy-config" = some (.object members))
    (hbase : members.lookup "baseURL" = some (.string B))
    (hfoldB : ∀ p ∈ members, findField p.1 = some .BaseURL → p.1 = "baseURL")
    (hfoldA : ∀ p ∈ members, findField p.1 = some .AuthHeaders → p.1 = "authHeaders")
    (hauth : members.lookup "authHeaders" = none ∨
      ∃ H, members.lookup "authHeaders" = some (.object H) ∧ ∀ p ∈ H, ∃ v, p.2 = .string v) :
    ∃ config, store.GetConfig (TrimSuffix e.Name ".json") = .ok config ∧
      config.BaseURL = B ∧
      (members.lookup "authHeaders" = none → config.AuthHeaders = none) ∧
      (∀ H, members.lookup "authHeaders" = some (.object H) →
        ∃ m, config.AuthHeaders = some m ∧
          ∀ k v, m.get? k = some v ↔ H.lookup k = some (.string v)) := by
  obtain ⟨_, entries', hdir', hnd, hload⟩ := NewFileSpecStore_ok fs specsDir store h
  rw [hdir] at hdir'
  cases hdir'
  obtain ⟨data', doc', hread', hdoc', _, hcfg⟩ :=
    loadEntries_loaded fs entries _ store [] hload hnd e he ((isSpecFile_iff e).2 ⟨hfile, hname⟩)
  rw [hread] at hread'
  cases hread'
  rw [hdoc] at hdoc'
  cases hdoc'
  rcases hcfg with ⟨hnone, _⟩ | ⟨raw, config, hraw', hok, hget⟩
  · rw [hraw] at hnone
    cases hnone
  · rw [hraw] at hraw'
    cases hraw'
    have hdist : (JSON.object members).distinctKeys = true :=
      (unmarshalSpecDoc_distinctKeys data doc hdoc).2 _ (mem_of_lookup_eq_some _ _ _ hraw)
    obtain ⟨h1, h2, h3⟩ :=
      unmarshalServiceConfig_fields members config B hdist hok hbase hfoldB hfoldA
    refine ⟨config, ?_, h1, h2, fun H hH => ?_⟩
    · unfold FileSpecStore.GetConfig
      rw [hget]
    · rcases hauth with hn | ⟨H', hH', hstr⟩
      · rw [hn] at hH
        cases hH
      · rw [hH'] at hH
        obtain rfl : H' = H := by simpa using hH
        exact h3 H' hH' hstr

set_option maxRecDepth 100000 in
/-- C11 at the spec of the repository's test `GetConfig_WithAuth`. -/
theorem get_config_of_document_witness :
    ∃ config,
      (FileSpecStore.GetConfig
        { specsDir := "specs"
          specs := GoMap.set GoMap.empty "a" authSpec
          configs := GoMap.set GoMap.empty "a"
            { BaseURL := "https://api.example.com"
              AuthHeaders := some (GoMap.set (GoMap.set GoMap.empty
                "Authorization" "Bearer token123") "X-Api-Key" "secret") } }
        (TrimSuffix "a.json" ".json")) = .ok config ∧
      config.BaseURL = "https://api.example.com" ∧
      (authConfigMembers.lookup "authHeaders" = none → config.AuthHeaders = none) ∧
      (∀ H, authConfigMembers.lookup "authHeaders" = some (.object H) →
        ∃ m, config.AuthHeaders = some m ∧
          ∀ k v, m.get? k = some v ↔ H.lookup k = some (.string v)) :=
  get_config_of_document (singleFile authSpec) "specs" _ _ ⟨"a.json", false⟩ authSpec
    [("openapi", .string "3.0.0"), ("x-proxy-config", .object authConfigMembers)]
    authConfigMembers "https://api.example.com"
    rfl rfl (by decide) rfl (by decide) rfl rfl rfl rfl (by decide) (by decide)
    (Or.inr ⟨_, rfl, by
      intro p hp
      simp only [List.mem_cons, List.mem_singleton, List.not_mem_nil, or_false] at hp
      rcases hp with rfl | rfl
      · exact ⟨_, rfl⟩
      · exact ⟨_, rfl⟩⟩)

/-- One spec file on which the loop body fails makes the whole load fail. -/
theorem loadEntries_error_of_loadSpec (fs : FileSystem) (entries : List DirEntry)
    (s : FileSpecStore) (reads : List String) (e : DirEntry) (data : Bytes)
    (he : e ∈ entries) (hspec : isSpecFile e = true) (hread : fs.ReadFile e.Name = .ok data)
    (hbad : ∀ s', ∃ x, loadSpec s' e.Name data = .error x) :
    ∃ err, (loadEntries fs entries s reads).result = .error err := by
  induction entries generalizing s reads with
  | nil => cases he
  | cons e0 es ih =>
    cases hspec0 : isSpecFile e0 with
    | false =>
      rw [loadEntries_skip fs e0 es s reads hspec0]
      rcases List.mem_cons.1 he with rfl | he'
      · rw [hspec] at hspec0; cases hspec0
      · exact ih s reads he'
    | true =>
      rw [loadEntries_step fs e0 es s reads hspec0]
      cases hread0 : fs.ReadFile e0.Name with
      | error c => exact ⟨_, rfl⟩
      | ok data0 =>
        simp only []
        cases hload : loadSpec s e0.Name data0 with
        | error x => exact ⟨_, rfl⟩
        | ok s1 =>
          simp only []
          rcases List.mem_cons.1 he with rfl | he'
          · exfalso
            rw [hread] at hread0
            cases hread0
            obtain ⟨x, hx⟩ := hbad s
            rw [hx] at hload
            cases hload
          · exact ih s1 _ he'

/-- The loop body fails with the invalid-proxy-config error on a document whose
`x-proxy-config` the decoder does not take. -/
theorem loadSpec_error_of_rejected (s : FileSpecStore) (name : String) (data : Bytes)
    (doc : List (String × JSON)) (raw : JSON) (hdoc : unmarshalSpecDoc data = .ok doc)
    (hraw : doc.lookup "x-proxy-config" = some raw) (hbad : acceptsConfig raw = false) :
    ∃ je, loadSpec s name data = .error (.invalidProxyConfig name je) := by
  obtain ⟨je, hje⟩ := (unmarshalServiceConfig_error_iff raw.marshal).2
    (by rw [acceptsConfig_marshal]; exact hbad)
  exact ⟨je, by simp [loadSpec, hdoc, hraw, jsonMarshal, hje]⟩

/-- C12, as stated, fails: the documents `{"x-proxy-config":{}}`, which has no
`baseURL`, and `{"x-proxy-config":null}` load, and `GetConfig` returns for
them a config with an empty `BaseURL` and no auth headers. -/
theorem rejected_config_counterexample :
    (∃ store, NewFileSpecStore
        (singleFile (ascii "\x7b\"x-proxy-config\":\x7b\x7d\x7d")) "specs" = .ok store ∧
      store.GetConfig "a" = .ok { BaseURL := "", AuthHeaders := none }) ∧
    (∃ store, NewFileSpecStore
        (singleFile (ascii "\x7b\"x-proxy-config\":null\x7d")) "specs" = .ok store ∧
      store.GetConfig "a" = .ok { BaseURL := "", AuthHeaders := none }) :=
  ⟨⟨_, rfl, rfl⟩, ⟨_, rfl, rfl⟩⟩

/-- C12, amended: `NewFileSpecStore` fails, so that no store and no config
exist, on every directory that lists a readable `.json` file that holds valid
JSON with an object at the top, every number of the text in the range of
`float64`, and an `x-proxy-config` member, the last of that name, whose value
the decoder does not take; the loop body fails on that file with the
invalid-proxy-config error.  The decoder does not take a boolean, a number, a
string or an array, nor an object in which a member named `baseURL` up to
letter case is neither a string nor `null`, or a member named `authHeaders` up
to letter case is neither `null` nor an object of strings and `null`s; it
takes `null` and an object without `baseURL`. -/
theorem new_store_fails_on_rejected_config (fs : FileSystem) (specsDir : String)
    (entries : List DirEntry) (e : DirEntry) (data : Bytes)
    (members : List (String × JSON)) (raw : JSON)
    (hdir : fs.ReadDir = .ok entries) (he : e ∈ entries) (hfile : e.IsDir = false)
    (hname : HasSuffix e.Name ".json" = true) (hread : fs.ReadFile e.Name = .ok data)
    (hdec : decodeText data = some (.object members))
    (hnum : numbersInRangeMembers members = true)
    (hraw : ((storedMembers members).foldl (fun m kv => assignEntry kv.1 kv.2 m) []).lookup
      "x-proxy-config" = some raw)
    (hbad : acceptsConfig raw = false) :
    (∃ err, NewFileSpecStore fs specsDir = .error err) ∧
    (∀ s, ∃ je, loadSpec s e.Name data = .error (.invalidProxyConfig e.Name je)) ∧
    ((∃ je, unmarshalServiceConfig raw.marshal = .error je) ↔ acceptsConfig raw = false) ∧
    (∀ b, acceptsConfig (.bool b) = false) ∧ (∀ n, acceptsConfig (.number n) = false) ∧
    (∀ v, acceptsConfig (.string v) = false) ∧ (∀ es, acceptsConfig (.array es) = false) ∧
    acceptsConfig .null = true ∧ acceptsConfig (.object []) = true := by
  have hdoc : unmarshalSpecDoc data
      = .ok ((storedMembers members).foldl (fun m kv => assignEntry kv.1 kv.2 m) []) := by
    simp [unmarshalSpecDoc, hdec, savedErrorMembers_of_numbersInRange members hnum]
  have hbody := fun s => loadSpec_error_of_rejected s e.Name data _ raw hdoc hraw hbad
  refine ⟨?_, hbody, ?_, fun _ => rfl, fun _ => rfl, fun _ => rfl, fun _ => rfl, rfl, rfl⟩
  · unfold NewFileSpecStore
    cases fs.statIsNotExist with
    | true => exact ⟨_, rfl⟩
    | false =>
      obtain ⟨err, herr⟩ := loadEntries_error_of_loadSpec fs entries
        { specsDir := specsDir, specs := GoMap.empty, configs := GoMap.empty } [] e data
        he ((isSpecFile_iff e).2 ⟨hfile, hname⟩) hread
        (fun s' => (hbody s').elim fun je h => ⟨_, h⟩)
      refine ⟨.failedToLoadSpecs err, ?_⟩
      simp [loadSpecs, hdir, herr]
  · rw [unmarshalServiceConfig_error_iff, acceptsConfig_marshal]

/-- C12 at the directory holding a valid `rag-api.json` followed by `bad.json`
with the contents `{"x-proxy-config":{"baseURL":5}}`. -/
theorem new_store_fails_on_rejected_config_witness :
    ∃ err, NewFileSpecStore badConfigDirectory "specs" = .error err :=
  (new_store_fails_on_rejected_config badConfigDirectory "specs" _ ⟨"bad.json", false⟩
    (ascii "\x7b\"x-proxy-config\":\x7b\"baseURL\":5\x7d\x7d")
    [("x-proxy-config", .object [("baseURL", .number ⟨false, [0x35], [], false, [], [0x35]⟩)])]
    (.object [("baseURL", .number ⟨false, [0x35], [], false, [], [0x35]⟩)])
    rfl (by decide) rfl (by decide) rfl rfl (by decide) rfl (by decide)).1

/-! ## The six ways through Forward -/

/-- `Forward` takes one of six ways: it rejects the method, it does not find
the service, it cannot create the request, the call fails, the body of the
response cannot be read, or it returns the response. -/
theorem Forward_cases (t : Transport) (store : SpecStore) (req : Request) :
    (isValidHTTPMethod req.Method = false ∧
      Forward t store req = ⟨.error (.invalidHTTPMethod req.Method), [], []⟩) ∨
    (isValidHTTPMethod req.Method = true ∧ ∃ e, store.GetConfig req.Service = .error e ∧
      Forward t store req = ⟨.error (.serviceNotFound req.Service), [], []⟩) ∨
    (isValidHTTPMethod req.Method = true ∧ ∃ config c,
      store.GetConfig req.Service = .ok config ∧
      t.parseURL (config.BaseURL ++ req.Path) = .error c ∧
      Forward t store req = ⟨.error (.failedToCreateRequest c),
        [(req.Method, config.BaseURL ++ req.Path,
          if req.Body.length > 0 then some req.Body else none)], []⟩) ∨
    (isValidHTTPMethod req.Method = true ∧ ∃ config u c,
      store.GetConfig req.Service = .ok config ∧
      t.parseURL (config.BaseURL ++ req.Path) = .ok u ∧
      t.Do (outboundRequest config req u) = .error c ∧
      Forward t store req = ⟨.error (.requestFailed c),
        [(req.Method, config.BaseURL ++ req.Path, (outboundRequest config req u).Body)],
        [outboundRequest config req u]⟩) ∨
    (isValidHTTPMethod req.Method = true ∧ ∃ config u resp c,
      store.GetConfig req.Service = .ok config ∧
      t.parseURL (config.BaseURL ++ req.Path) = .ok u ∧
      t.Do (outboundRequest config req u) = .ok resp ∧ resp.Body = .error c ∧
      Forward t store req = ⟨.error (.failedToReadResponseBody c),
        [(req.Method, config.BaseURL ++ req.Path, (outboundRequest config req u).Body)],
        [outboundRequest config req u]⟩) ∨
    (isValidHTTPMethod req.Method = true ∧ ∃ config u resp body,
      store.GetConfig req.Service = .ok config ∧
      t.parseURL (config.BaseURL ++ req.Path) = .ok u ∧
      t.Do (outboundRequest config req u) = .ok resp ∧ resp.Body = .ok body ∧
      Forward t store req =
        ⟨.ok { StatusCode := resp.StatusCode, Headers := resp.Header, Body := body },
        [(req.Method, config.BaseURL ++ req.Path, (outboundRequest config req u).Body)],
        [outboundRequest config req u]⟩) := by
  cases hm : isValidHTTPMethod req.Method with
  | false =>
    left
    exact ⟨rfl, by unfold Forward; simp [hm]⟩
  | true =>
    right
    obtain ⟨hne, hvm⟩ := validMethod_of_isValidHTTPMethod _ hm
    cases hcfg : store.GetConfig req.Service with
    | error e =>
      left
      exact ⟨rfl, e, rfl, by unfold Forward; simp [hm, hcfg]⟩
    | ok config =>
      right
      cases hp : t.parseURL (config.BaseURL ++ req.Path) with
      | error c =>
        left
        refine ⟨rfl, config, c, rfl, hp, ?_⟩
        unfold Forward
        simp [hm, hcfg, NewRequest, hne, hvm, hp]
      | ok u =>
        right
        have hfw : Forward t store req =
            match t.Do (outboundRequest config req u) with
            | .error e => ⟨.error (.requestFailed e),
                [(req.Method, config.BaseURL ++ req.Path, (outboundRequest config req u).Body)],
                [outboundRequest config req u]⟩
            | .ok httpResp =>
              match httpResp.Body with
              | .error e => ⟨.error (.failedToReadResponseBody e),
                  [(req.Method, config.BaseURL ++ req.Path, (outboundRequest config req u).Body)],
                  [outboundRequest config req u]⟩
              | .ok respBody =>
                ⟨.ok { StatusCode := httpResp.StatusCode
                       Headers := httpResp.Header
                       Body := respBody },
                  [(req.Method, config.BaseURL ++ req.Path, (outboundRequest config req u).Body)],
                  [outboundRequest config req u]⟩ := by
          unfold Forward
          simp only [hm, Bool.not_true, Bool.false_eq_true, if_false, hcfg, NewRequest, hne, hvm,
            hp]
          rfl
        cases hdo : t.Do (outboundRequest config req u) with
        | error c =>
          left
          refine ⟨rfl, config, u, c, rfl, hp, hdo, ?_⟩
          rw [hfw, hdo]
        | ok resp =>
          right
          cases hb : resp.Body with
          | error c =>
            left
            refine ⟨rfl, config, u, resp, c, rfl, hp, hdo, hb, ?_⟩
            rw [hfw, hdo]
            simp only [hb]
          | ok body =>
            right
            refine ⟨rfl, config, u, resp, body, rfl, hp, hdo, hb, ?_⟩
            rw [hfw, hdo]
            simp only [hb]

/-! ## The Content-Type default (C13, C14) -/

theorem canonical_content_type : CanonicalMIMEHeaderKey "Content-Type" = "Content-Type" := by
  decide

/-- After visiting entries one of which has canonical form `c`, the value
under `c` is that of one such entry. -/
theorem foldl_Set_get?_of_mem (c : String) (l : List (String × String)) (h : Header)
    (hex : ∃ p ∈ l, CanonicalMIMEHeaderKey p.1 = c) :
    ∃ p ∈ l, CanonicalMIMEHeaderKey p.1 = c ∧
      GoMap.get? (l.foldl (fun acc kv => Header.Set acc kv.1 kv.2) h) c = some [p.2] := by
  induction l generalizing h with
  | nil =>
    obtain ⟨p, hp, _⟩ := hex
    cases hp
  | cons q rest ih =>
    rw [List.foldl_cons]
    by_cases hrest : ∃ p ∈ rest, CanonicalMIMEHeaderKey p.1 = c
    · obtain ⟨p, hp, hpc, hget⟩ := ih (Header.Set h q.1 q.2) hrest
      exact ⟨p, List.mem_cons_of_mem _ hp, hpc, hget⟩
    · have hq : CanonicalMIMEHeaderKey q.1 = c := by
        obtain ⟨p, hp, hpc⟩ := hex
        rcases List.mem_cons.1 hp with rfl | hp'
        · exact hpc
        · exact absurd ⟨p, hp', hpc⟩ hrest
      refine ⟨q, List.mem_cons_self _ _, hq, ?_⟩
      rw [foldl_Set_get?_of_absent c rest _ (fun p hp hpc => hrest ⟨p, hp, hpc⟩)]
      unfold Header.Set
      rw [hq]
      exact GoMap.get?_set_self h c [q.2]

theorem setHeaders_get?_of_mem (c : String) (m : Option (GoMap String)) (h : Header)
    (hex : ∃ p ∈ entriesOf m, CanonicalMIMEHeaderKey p.1 = c) :
    ∃ p ∈ entriesOf m, CanonicalMIMEHeaderKey p.1 = c ∧
      GoMap.get? (setHeaders h m) c = some [p.2] := by
  cases m with
  | none =>
    obtain ⟨p, hp, _⟩ := hex
    cases hp
  | some m => exact foldl_Set_get?_of_mem c m.entries h hex

/-- C13: when the request has a body and neither `config.AuthHeaders` nor
`request.Headers` has an entry whose name is `Content-Type` in any letter
case, every outbound request of `Forward` has the single `Content-Type` value
`application/json`. -/
theorem forward_default_content_type (t : Transport) (store : SpecStore) (req : Request)
    (config : ServiceConfig) (r : HttpRequest)
    (hcfg : store.GetConfig req.Service = .ok config) (hbody : req.Body ≠ [])
    (hc : ∀ p ∈ entriesOf config.AuthHeaders, CanonicalMIMEHeaderKey p.1 ≠ "Content-Type")
    (hr : ∀ p ∈ entriesOf req.Headers, CanonicalMIMEHeaderKey p.1 ≠ "Content-Type")
    (hsent : r ∈ (Forward t store req).sent) :
    GoMap.get? r.Header "Content-Type" = some ["application/json"] ∧
      Header.Get r.Header "Content-Type" = "application/json" := by
  obtain ⟨_, config', u, hcfg', _, rfl⟩ := Forward_sent t store req r hsent
  rw [hcfg] at hcfg'
  cases hcfg'
  have hmerged : GoMap.get?
      (setHeaders (setHeaders GoMap.empty config.AuthHeaders) req.Headers) "Content-Type"
        = none := by
    rw [setHeaders_get?_of_absent _ _ _ hr, setHeaders_get?_of_absent _ _ _ hc]
    rfl
  have hlen : decide (req.Body.length > 0) = true := by
    cases hb : req.Body with
    | nil => exact absurd hb hbody
    | cons b bs => simp
  have hget : GoMap.get? (outboundRequest config req u).Header "Content-Type"
      = some ["application/json"] := by
    simp only [outboundRequest, outboundHeader]
    have hG : Header.Get
        (setHeaders (setHeaders GoMap.empty config.AuthHeaders) req.Headers) "Content-Type"
          = "" := by
      unfold Header.Get
      rw [canonical_content_type, hmerged]
    rw [hG, hlen]
    simp only [beq_self_eq_true, Bool.and_self, if_true]
    unfold Header.Set
    rw [canonical_content_type]
    exact GoMap.get?_set_self _ _ _
  refine ⟨hget, ?_⟩
  unfold Header.Get
  rw [canonical_content_type, hget]

/-- C13 at a `POST` with the body `{"name":"test"}` and no headers. -/
theorem forward_default_content_type_witness :
    GoMap.get? (outboundRequest { BaseURL := "http://backend", AuthHeaders := none }
        (plainRequest "POST" "/items" (ascii "\x7b\"name\":\"test\"\x7d"))
          (parseTarget "http://backend/items")).Header "Content-Type"
      = some ["application/json"] ∧
    Header.Get (outboundRequest { BaseURL := "http://backend", AuthHeaders := none }
        (plainRequest "POST" "/items" (ascii "\x7b\"name\":\"test\"\x7d"))
          (parseTarget "http://backend/items")).Header "Content-Type"
      = "application/json" :=
  forward_default_content_type echoTransport emptyConfigStore
    (plainRequest "POST" "/items" (ascii "\x7b\"name\":\"test\"\x7d")) _ _ rfl (by decide)
    (by intro p hp; cases hp) (by intro p hp; cases hp)
    (by rw [Forward_sent_of_accepted echoTransport _ _ _ _ (by decide) rfl rfl]
        exact List.mem_singleton_self _)

/-- C14, where the code departs from it: the request sets `Content-Type` to the
empty string and has the body `{}`, no config header is set, and the outbound
request carries `Content-Type: application/json` in place of the empty value
that the request set.  The guard `Header.Get("Content-Type") == ""` of
`Forward` takes a header that is set to the empty string for one that is not
set, against the comment above it, "if body is present and not already set". -/
theorem empty_content_type_replaced :
    ("Content-Type", "") ∈ entriesOf (getRequest emptyContentType (ascii "\x7b\x7d")).Headers ∧
    (Forward echoTransport emptyConfigStore
      (getRequest emptyContentType (ascii "\x7b\x7d"))).sent.map (fun r => r.Header.entries)
        = [[("Content-Type", ["application/json"])]] :=
  ⟨by decide, by decide⟩

/-- Where the code does what C14 says: when the body is empty, or the request
has an entry named `Content-Type` in some letter case and every such entry has
a non-empty value, or the request has no such entry and the config has one and
every such entry of the config has a non-empty value, the header of every
outbound request is the one that the two sources set, without any default. -/
theorem forward_content_type_kept (t : Transport) (store : SpecStore) (req : Request)
    (config : ServiceConfig) (r : HttpRequest)
    (hcfg : store.GetConfig req.Service = .ok config)
    (hsent : r ∈ (Forward t store req).sent)
    (h : req.Body = [] ∨
      ((∃ p ∈ entriesOf req.Headers, CanonicalMIMEHeaderKey p.1 = "Content-Type") ∧
        ∀ p ∈ entriesOf req.Headers, CanonicalMIMEHeaderKey p.1 = "Content-Type" → p.2 ≠ "") ∨
      ((∀ p ∈ entriesOf req.Headers, CanonicalMIMEHeaderKey p.1 ≠ "Content-Type") ∧
        (∃ p ∈ entriesOf config.AuthHeaders, CanonicalMIMEHeaderKey p.1 = "Content-Type") ∧
        ∀ p ∈ entriesOf config.AuthHeaders,
          CanonicalMIMEHeaderKey p.1 = "Content-Type" → p.2 ≠ "")) :
    r.Header = setHeaders (setHeaders GoMap.empty config.AuthHeaders) req.Headers := by
  obtain ⟨_, config', u, hcfg', _, rfl⟩ := Forward_sent t store req r hsent
  rw [hcfg] at hcfg'
  cases hcfg'
  simp only [outboundRequest, outboundHeader]
  have hval : req.Body ≠ [] → ∃ v, v ≠ "" ∧ GoMap.get?
      (setHeaders (setHeaders GoMap.empty config.AuthHeaders) req.Headers) "Content-Type"
        = some [v] := by
    intro hb
    rcases h with h | ⟨hex, hall⟩ | ⟨habs, hex, hall⟩
    · exact absurd h hb
    · obtain ⟨p, hp, hpc, hget⟩ := setHeaders_get?_of_mem "Content-Type" req.Headers
        (setHeaders GoMap.empty config.AuthHeaders) hex
      exact ⟨p.2, hall p hp hpc, hget⟩
    · obtain ⟨p, hp, hpc, hget⟩ := setHeaders_get?_of_mem "Content-Type" config.AuthHeaders
        GoMap.empty hex
      exact ⟨p.2, hall p hp hpc, by rw [setHeaders_get?_of_absent _ _ _ habs]; exact hget⟩
  split
  · rename_i hcond
    exfalso
    simp only [Bool.and_eq_true, decide_eq_true_eq, beq_iff_eq] at hcond
    have hb : req.Body ≠ [] := by
      intro hb
      rw [hb] at hcond
      simp at hcond
    obtain ⟨v, hv, hget⟩ := hval hb
    have hG := hcond.2
    unfold Header.Get at hG
    rw [canonical_content_type, hget] at hG
    exact hv hG
  · rfl

/-- The same at a request that sets `Content-Type: text/plain` and has a body. -/
theorem forward_content_type_kept_witness :
    (outboundRequest { BaseURL := "http://backend", AuthHeaders := none }
        (getRequest (GoMap.set GoMap.empty "content-type" "text/plain")
          (ascii "hello"))
          (parseTarget "http://backend/x")).Header
      = setHeaders (setHeaders GoMap.empty none)
          (getRequest (GoMap.set GoMap.empty "content-type" "text/plain")
            (ascii "hello")).Headers :=
  forward_content_type_kept echoTransport emptyConfigStore
    (getRequest (GoMap.set GoMap.empty "content-type" "text/plain") (ascii "hello")) _ _ rfl
    (by rw [Forward_sent_of_accepted echoTransport _ _ _ _ (by decide) rfl rfl]
        exact List.mem_singleton_self _)
    (Or.inr (Or.inl ⟨by decide, by decide⟩))

/-! ## Target, body and response (C15 to C18) -/

/-- C15, as stated, fails: with the path `/x`, the base URLs `http://backend:`
and `http://backend` give the targets `http://backend:/x` and
`http://backend/x`, two strings, and one and the same outbound URL, whose host
is `backend`: `http.NewRequest` strips the empty port from the host
`backend:` that `url.Parse` returns for the first target. -/
theorem target_url_counterexample :
    "http://backend:" ++ "/x" ≠ "http://backend" ++ "/x" ∧
    echoTransport.parseURL ("http://backend:" ++ "/x")
      = .ok ⟨"http", "", none, "backend:", "/x", "", false, false, "", "", ""⟩ ∧
    (Forward echoTransport (baseURLStore "http://backend:") (plainRequest "GET" "/x" [])).sent.map
      (fun r => r.URL) = [⟨"http", "", none, "backend", "/x", "", false, false, "", "", ""⟩] ∧
    (Forward echoTransport (baseURLStore "http://backend") (plainRequest "GET" "/x" [])).sent.map
      (fun r => r.URL) = [⟨"http", "", none, "backend", "/x", "", false, false, "", "", ""⟩] :=
  ⟨by decide, rfl, by decide, by decide⟩

/-- C15, amended: for a request that passes method validation and service
lookup, the target handed to `http.NewRequest` is `config.BaseURL` followed by
`request.Path` and nothing else, and the URL of every outbound request is the
one that `url.Parse` returns for that target, with an empty port stripped from
its host.  `http://backend` and `x` give the target `http://backendx`, and
`http://backend` and `//x` give `http://backend//x`. -/
theorem forward_target_url (t : Transport) (store : SpecStore) (req : Request)
    (config : ServiceConfig) (hm : isValidHTTPMethod req.Method = true)
    (hcfg : store.GetConfig req.Service = .ok config) :
    (Forward t store req).created.map (fun c => c.2.1) = [config.BaseURL ++ req.Path] ∧
    (∀ r ∈ (Forward t store req).sent, ∃ u,
      t.parseURL (config.BaseURL ++ req.Path) = .ok u ∧
      r.URL = { u with Host := removeEmptyPort u.Host } ∧ r.Host = removeEmptyPort u.Host) ∧
    (Forward echoTransport emptyConfigStore (plainRequest "GET" "x" [])).created.map
      (fun c => c.2.1) = ["http://backendx"] ∧
    (Forward echoTransport emptyConfigStore (plainRequest "GET" "//x" [])).created.map
      (fun c => c.2.1) = ["http://backend//x"] := by
  refine ⟨?_, ?_, by decide, by decide⟩
  · rcases Forward_cases t store req with ⟨h, _⟩ | ⟨_, e, h, _⟩ | ⟨_, c, _, h, _, heq⟩ |
      ⟨_, c, _, _, h, _, _, heq⟩ | ⟨_, c, _, _, _, h, _, _, _, heq⟩ |
      ⟨_, c, _, _, _, h, _, _, _, heq⟩
    · rw [hm] at h; cases h
    · rw [hcfg] at h; cases h
    all_goals
      rw [hcfg] at h
      cases h
      rw [heq]
      rfl
  · intro r hr
    obtain ⟨_, config', u, hcfg', hp, rfl⟩ := Forward_sent t store req r hr
    rw [hcfg] at hcfg'
    cases hcfg'
    exact ⟨u, hp, rfl, rfl⟩

/-- C15 at a `GET /test` to a service with the base URL `http://backend`. -/
theorem forward_target_url_witness :
    (Forward echoTransport emptyConfigStore (plainRequest "GET" "/test" [])).created.map
      (fun c => c.2.1) = ["http://backend" ++ "/test"] ∧
    (∀ r ∈ (Forward echoTransport emptyConfigStore (plainRequest "GET" "/test" [])).sent, ∃ u,
      echoTransport.parseURL ("http://backend" ++ "/test") = .ok u ∧
      r.URL = { u with Host := removeEmptyPort u.Host } ∧ r.Host = removeEmptyPort u.Host) ∧
    (Forward echoTransport emptyConfigStore (plainRequest "GET" "x" [])).created.map
      (fun c => c.2.1) = ["http://backendx"] ∧
    (Forward echoTransport emptyConfigStore (plainRequest "GET" "//x" [])).created.map
      (fun c => c.2.1) = ["http://backend//x"] :=
  forward_target_url echoTransport emptyConfigStore (plainRequest "GET" "/test" [])
    { BaseURL := "http://backend", AuthHeaders := none } (by decide) rfl

/-- C16: every outbound request of `Forward` has the body `request.Body`,
unchanged, when `request.Body` is not empty, and no body when it is empty; the
same holds for the body handed to `http.NewRequest`. -/
theorem forward_body (t : Transport) (store : SpecStore) (req : Request) (r : HttpRequest)
    (hsent : r ∈ (Forward t store req).sent) :
    (req.Body ≠ [] → r.Body = some req.Body) ∧ (req.Body = [] → r.Body = none) ∧
    (∀ c ∈ (Forward t store req).created, c.2.2 = r.Body) := by
  obtain ⟨hm, config, u, hcfg, hp, rfl⟩ := Forward_sent t store req r hsent
  refine ⟨?_, ?_, ?_⟩
  · intro hb
    cases hbody : req.Body with
    | nil => exact absurd hbody hb
    | cons b bs => simp [outboundRequest, hbody]
  · intro hb
    simp [outboundRequest, hb]
  · intro c hc
    rcases Forward_cases t store req with ⟨h, _⟩ | ⟨_, e, h, _⟩ | ⟨_, c', _, h, h', heq⟩ |
      ⟨_, c', _, _, h, _, _, heq⟩ | ⟨_, c', _, _, _, h, _, _, _, heq⟩ |
      ⟨_, c', _, _, _, h, _, _, _, heq⟩
    · rw [hm] at h; cases h
    · rw [hcfg] at h; cases h
    · rw [hcfg] at h
      cases h
      rw [hp] at h'
      cases h'
    all_goals
      rw [hcfg] at h
      cases h
      rw [heq] at hc
      simp only [List.mem_singleton] at hc
      subst hc
      rfl

/-- C16 at a `POST` with the body `{"name":"test"}`. -/
theorem forward_body_witness :
    ((plainRequest "POST" "/items" (ascii "\x7b\"name\":\"test\"\x7d")).Body ≠ [] →
      (outboundRequest { BaseURL := "http://backend", AuthHeaders := none }
        (plainRequest "POST" "/items" (ascii "\x7b\"name\":\"test\"\x7d"))
          (parseTarget "http://backend/items")).Body
        = some (plainRequest "POST" "/items" (ascii "\x7b\"name\":\"test\"\x7d")).Body) ∧
    ((plainRequest "POST" "/items" (ascii "\x7b\"name\":\"test\"\x7d")).Body = [] →
      (outboundRequest { BaseURL := "http://backend", AuthHeaders := none }
        (plainRequest "POST" "/items" (ascii "\x7b\"name\":\"test\"\x7d"))
          (parseTarget "http://backend/items")).Body = none) ∧
    (∀ c ∈ (Forward echoTransport emptyConfigStore
        (plainRequest "POST" "/items" (ascii "\x7b\"name\":\"test\"\x7d"))).created,
      c.2.2 = (outboundRequest { BaseURL := "http://backend", AuthHeaders := none }
        (plainRequest "POST" "/items" (ascii "\x7b\"name\":\"test\"\x7d"))
          (parseTarget "http://backend/items")).Body) :=
  forward_body echoTransport emptyConfigStore
    (plainRequest "POST" "/items" (ascii "\x7b\"name\":\"test\"\x7d")) _
    (by rw [Forward_sent_of_accepted echoTransport _ _ _ _ (by decide) rfl rfl]
        exact List.mem_singleton_self _)

/-- The result of `Forward` after a call that returned a response whose body
was read. -/
theorem forward_response_aux (t : Transport) (store : SpecStore) (req : Request)
    (r : HttpRequest) (resp : HttpResponse) (body : Bytes)
    (hsent : r ∈ (Forward t store req).sent) (hdo : t.Do r = .ok resp)
    (hbody : resp.Body = .ok body) :
    (Forward t store req).result
      = .ok { StatusCode := resp.StatusCode, Headers := resp.Header, Body := body } := by
  obtain ⟨hm, config, u, hcfg, hp, rfl⟩ := Forward_sent t store req r hsent
  rcases Forward_cases t store req with ⟨h, _⟩ | ⟨_, e, h, _⟩ | ⟨_, c', _, h, h', _⟩ |
    ⟨_, c', u', _, h, hu, h', _⟩ | ⟨_, c', u', _, _, h, hu, h', h'', _⟩ |
    ⟨_, c', u', resp', b', h, hu, h', h'', heq⟩
  · rw [hm] at h; cases h
  · rw [hcfg] at h; cases h
  · rw [hcfg] at h
    cases h
    rw [hp] at h'
    cases h'
  · rw [hcfg] at h
    cases h
    rw [hp] at hu
    cases hu
    rw [hdo] at h'
    cases h'
  · rw [hcfg] at h
    cases h
    rw [hp] at hu
    cases hu
    rw [hdo] at h'
    cases h'
    rw [hbody] at h''
    cases h''
  · rw [hcfg] at h
    cases h
    rw [hp] at hu
    cases hu
    rw [hdo] at h'
    cases h'
    rw [hbody] at h''
    cases h''
    rw [heq]

/-- C17: when the call of an outbound request returns a response and the body
of the response is read, `Forward` returns the status code of the response,
whatever it is, its header map and the bytes of its body, all unchanged. -/
theorem forward_response (t : Transport) (store : SpecStore) (req : Request)
    (r : HttpRequest) (resp : HttpResponse) (body : Bytes)
    (hsent : r ∈ (Forward t store req).sent) (hdo : t.Do r = .ok resp)
    (hbody : resp.Body = .ok body) :
    (Forward t store req).result
      = .ok { StatusCode := resp.StatusCode, Headers := resp.Header, Body := body } :=
  forward_response_aux t store req r resp body hsent hdo hbody

/-- C17 at a backend that answers 503. -/
theorem forward_response_witness :
    (Forward (echoStatusTransport 503) emptyConfigStore
        (plainRequest "POST" "/items" (ascii "\x7b\"name\":\"test\"\x7d"))).result
      = .ok { StatusCode := 503, Headers := GoMap.empty,
              Body := ascii "\x7b\"name\":\"test\"\x7d" } :=
  forward_response (echoStatusTransport 503) emptyConfigStore
    (plainRequest "POST" "/items" (ascii "\x7b\"name\":\"test\"\x7d"))
    (outboundRequest { BaseURL := "http://backend", AuthHeaders := none }
      (plainRequest "POST" "/items" (ascii "\x7b\"name\":\"test\"\x7d"))
          (parseTarget "http://backend/items"))
    { StatusCode := 503, Header := GoMap.empty,
      Body := .ok (ascii "\x7b\"name\":\"test\"\x7d") }
    (ascii "\x7b\"name\":\"test\"\x7d")
    (by rw [Forward_sent_of_accepted (echoStatusTransport 503) emptyConfigStore
          (plainRequest "POST" "/items" (ascii "\x7b\"name\":\"test\"\x7d"))
          { BaseURL := "http://backend", AuthHeaders := none } _ (by decide) rfl rfl]
        exact List.mem_singleton_self _)
    rfl rfl

/-- C18, as stated, fails: a `POST` with the body `{"name":"test"}` and the
path `/a` followed by a line feed and `b` has a valid method, a registered
service and a body that is not empty, and the backend answers every request
with the status 201 and the body it received; `url.Parse` rejects the target,
so that no request reaches the backend and `Forward` fails. -/
theorem round_trip_counterexample :
    isValidHTTPMethod
      (plainRequest "POST" "/a\nb" (ascii "\x7b\"name\":\"test\"\x7d")).Method = true ∧
    (∃ config, emptyConfigStore.GetConfig
      (plainRequest "POST" "/a\nb" (ascii "\x7b\"name\":\"test\"\x7d")).Service = .ok config) ∧
    (plainRequest "POST" "/a\nb" (ascii "\x7b\"name\":\"test\"\x7d")).Body ≠ [] ∧
    (∀ r, (echoStatusTransport 201).Do r
      = .ok { StatusCode := 201, Header := GoMap.empty, Body := .ok (r.Body.getD []) }) ∧
    (Forward (echoStatusTransport 201) emptyConfigStore
        (plainRequest "POST" "/a\nb" (ascii "\x7b\"name\":\"test\"\x7d"))).result
      = .error (.failedToCreateRequest "net/url: invalid control character in URL") ∧
    (Forward (echoStatusTransport 201) emptyConfigStore
        (plainRequest "POST" "/a\nb" (ascii "\x7b\"name\":\"test\"\x7d"))).sent = [] :=
  ⟨by decide, ⟨_, rfl⟩, by decide, fun _ => rfl, rfl, rfl⟩

/-- C18, amended: for a request with a valid method, a registered service, a
target `config.BaseURL + request.Path` that `url.Parse` accepts and a body that
is not empty, when the backend answers the outbound request with the status
`status` and the body it received, `Forward` succeeds and returns that status
and the body of the request. -/
theorem forward_round_trip (t : Transport) (store : SpecStore) (req : Request)
    (config : ServiceConfig) (u : URL) (resp : HttpResponse) (status : Int)
    (hm : isValidHTTPMethod req.Method = true)
    (hcfg : store.GetConfig req.Service = .ok config) (hne : req.Body ≠ [])
    (hp : t.parseURL (config.BaseURL ++ req.Path) = .ok u)
    (hdo : t.Do (outboundRequest config req u) = .ok resp)
    (hstatus : resp.StatusCode = status)
    (hecho : resp.Body = .ok ((outboundRequest config req u).Body.getD [])) :
    ∃ response, (Forward t store req).result = .ok response ∧
      response.Body = req.Body ∧ response.StatusCode = status := by
  have hsent : outboundRequest config req u ∈ (Forward t store req).sent := by
    rw [Forward_sent_of_accepted t store req config u hm hcfg hp]
    exact List.mem_singleton_self _
  have hres := forward_response_aux t store req _ resp _ hsent hdo hecho
  refine ⟨_, hres, ?_, hstatus⟩
  cases hbody : req.Body with
  | nil => exact absurd hbody hne
  | cons b bs => simp [outboundRequest, hbody]

/-- C18 at the body `{"name":"test"}` and the status 201. -/
theorem forward_round_trip_witness :
    ∃ response, (Forward (echoStatusTransport 201) emptyConfigStore
        (plainRequest "POST" "/items" (ascii "\x7b\"name\":\"test\"\x7d"))).result
          = .ok response ∧
      response.Body = (plainRequest "POST" "/items" (ascii "\x7b\"name\":\"test\"\x7d")).Body ∧
      response.StatusCode = 201 :=
  forward_round_trip (echoStatusTransport 201) emptyConfigStore
    (plainRequest "POST" "/items" (ascii "\x7b\"name\":\"test\"\x7d"))
    { BaseURL := "http://backend", AuthHeaders := none }
    (parseTarget "http://backend/items")
    { StatusCode := 201, Header := GoMap.empty,
      Body := .ok (ascii "\x7b\"name\":\"test\"\x7d") }
    201 (by decide) rfl (by decide) rfl rfl rfl rfl

/-! ## The failures of Forward (C19) -/

/-- C19, as stated, fails: for the path `/a` followed by a line feed and `b`,
`url.Parse` rejects the target `http://backend/a\nb` inside `http.NewRequest`,
and `Forward` returns its create-request error, which is none of the four
kinds; no request is sent. -/
theorem failure_kinds_counterexample :
    (Forward (echoStatusTransport 200) emptyConfigStore
        (plainRequest "GET" "/a\nb" [])).result
      = .error (.failedToCreateRequest "net/url: invalid control character in URL") ∧
    isValidHTTPMethod (plainRequest "GET" "/a\nb" []).Method = true ∧
    (∃ config, emptyConfigStore.GetConfig "svc" = .ok config) ∧
    (Forward (echoStatusTransport 200) emptyConfigStore
        (plainRequest "GET" "/a\nb" [])).sent.length = 0 :=
  ⟨rfl, by decide, ⟨_, rfl⟩, by decide⟩

/-- C19, amended: every failure of `Forward` is one of exactly five kinds:
invalid method, when the method is not valid; service not found, when
`GetConfig` fails; create-request failure, when `url.Parse` rejects the target
`config.BaseURL + request.Path`; upstream unreachable, when the outbound call
fails; upstream read failure, when the body of the response cannot be read. -/
theorem forward_failure_kinds (t : Transport) (store : SpecStore) (req : Request)
    (e : ForwardError) (h : (Forward t store req).result = .error e) :
    (e = .invalidHTTPMethod req.Method ∧ isValidHTTPMethod req.Method = false) ∨
    (e = .serviceNotFound req.Service ∧ isValidHTTPMethod req.Method = true ∧
      ∃ x, store.GetConfig req.Service = .error x) ∨
    (∃ config c, e = .failedToCreateRequest c ∧ isValidHTTPMethod req.Method = true ∧
      store.GetConfig req.Service = .ok config ∧
      t.parseURL (config.BaseURL ++ req.Path) = .error c) ∨
    (∃ config u c, e = .requestFailed c ∧ isValidHTTPMethod req.Method = true ∧
      store.GetConfig req.Service = .ok config ∧
      t.parseURL (config.BaseURL ++ req.Path) = .ok u ∧
      t.Do (outboundRequest config req u) = .error c) ∨
    (∃ config u resp c, e = .failedToReadResponseBody c ∧ isValidHTTPMethod req.Method = true ∧
      store.GetConfig req.Service = .ok config ∧
      t.parseURL (config.BaseURL ++ req.Path) = .ok u ∧
      t.Do (outboundRequest config req u) = .ok resp ∧ resp.Body = .error c) := by
  rcases Forward_cases t store req with ⟨hm, heq⟩ | ⟨hm, x, hx, heq⟩ |
    ⟨hm, config, c, hcfg, hp, heq⟩ | ⟨hm, config, u, c, hcfg, hp, hdo, heq⟩ |
    ⟨hm, config, u, resp, c, hcfg, hp, hdo, hb, heq⟩ |
    ⟨hm, config, u, resp, body, hcfg, hp, hdo, hb, heq⟩
  · rw [heq] at h
    cases h
    exact Or.inl ⟨rfl, hm⟩
  · rw [heq] at h
    cases h
    exact Or.inr (Or.inl ⟨rfl, hm, x, hx⟩)
  · rw [heq] at h
    cases h
    exact Or.inr (Or.inr (Or.inl ⟨config, c, rfl, hm, hcfg, hp⟩))
  · rw [heq] at h
    cases h
    exact Or.inr (Or.inr (Or.inr (Or.inl ⟨config, u, c, rfl, hm, hcfg, hp, hdo⟩)))
  · rw [heq] at h
    cases h
    exact Or.inr (Or.inr (Or.inr (Or.inr ⟨config, u, resp, c, rfl, hm, hcfg, hp, hdo, hb⟩)))
  · rw [heq] at h
    cases h

/-- C19 at a `GET` to a service that is not registered. -/
theorem forward_failure_kinds_witness :
    (ForwardError.serviceNotFound "svc" = .invalidHTTPMethod "GET" ∧
      isValidHTTPMethod "GET" = false) ∨
    (ForwardError.serviceNotFound "svc" = .serviceNotFound "svc" ∧
      isValidHTTPMethod "GET" = true ∧ ∃ x, emptyStore.GetConfig "svc" = .error x) ∨
    (∃ config c, ForwardError.serviceNotFound "svc" = .failedToCreateRequest c ∧
      isValidHTTPMethod "GET" = true ∧ emptyStore.GetConfig "svc" = .ok config ∧
      echoTransport.parseURL (config.BaseURL ++ "/x") = .error c) ∨
    (∃ config u c, ForwardError.serviceNotFound "svc" = .requestFailed c ∧
      isValidHTTPMethod "GET" = true ∧ emptyStore.GetConfig "svc" = .ok config ∧
      echoTransport.parseURL (config.BaseURL ++ "/x") = .ok u ∧
      echoTransport.Do (outboundRequest config (plainRequest "GET" "/x" []) u) = .error c) ∨
    (∃ config u resp c, ForwardError.serviceNotFound "svc" = .failedToReadResponseBody c ∧
      isValidHTTPMethod "GET" = true ∧ emptyStore.GetConfig "svc" = .ok config ∧
      echoTransport.parseURL (config.BaseURL ++ "/x") = .ok u ∧
      echoTransport.Do (outboundRequest config (plainRequest "GET" "/x" []) u) = .ok resp ∧
      resp.Body = .error c) :=
  forward_failure_kinds echoTransport emptyStore (plainRequest "GET" "/x" [])
    (.serviceNotFound "svc") rfl

/-! ## The store after its construction (C20) -/

theorem GoMap.get?_mapValues {V W : Type} (f : V → W) (m : GoMap V) (k : String) :
    (m.mapValues f).get? k = (m.get? k).map f := by
  unfold GoMap.mapValues GoMap.get?
  simp only []
  induction m.entries with
  | nil => rfl
  | cons p rest ih =>
    obtain ⟨a, v⟩ := p
    by_cases h : k = a
    · subst h
      simp [List.lookup]
    · have h' : (k == a) = false := by simpa using h
      simp only [List.map_cons, List.lookup, h']
      exact ih

/-- `Get` leaves the memory as it is, and returns the slice whose bytes are
those that the store holds. -/
theorem Get_run (name : String) (m : StoreMemory) :
    (StoreMemory.Get name m).2 = m ∧
    ((StoreMemory.Get name m).1).map m.arrays = m.view.Get name := by
  have hv : m.view.specs.get? name = (m.specs.get? name).map m.arrays :=
    GoMap.get?_mapValues _ _ _
  unfold FileSpecStore.Get
  rw [hv]
  unfold StoreMemory.Get StoreMemory.indexSpecs
  simp only [bind, StateT.bind, get, getThe, MonadStateOf.get, StateT.get, pure, StateT.pure]
  cases m.specs.get? name <;> exact ⟨rfl, rfl⟩

/-- `GetConfig` leaves the memory as it is, and returns the pointer to the
config that the store holds. -/
theorem GetConfig_run (name : String) (m : StoreMemory) :
    (StoreMemory.GetConfig name m).2 = m ∧
    ((StoreMemory.GetConfig name m).1).map m.structs = m.view.GetConfig name := by
  have hv : m.view.configs.get? name = (m.configs.get? name).map m.structs :=
    GoMap.get?_mapValues _ _ _
  unfold FileSpecStore.GetConfig
  rw [hv]
  unfold StoreMemory.GetConfig StoreMemory.indexConfigs
  simp only [bind, StateT.bind, get, getThe, MonadStateOf.get, StateT.get, pure, StateT.pure]
  cases m.configs.get? name <;> exact ⟨rfl, rfl⟩

theorem foldl_append_map_fst {V : Type} (l : List (String × V)) (acc : List String) :
    (l.map Prod.fst).foldl (fun names name => names ++ [name]) acc
      = l.foldl (fun names kv => names ++ [kv.1]) acc := by
  induction l generalizing acc with
  | nil => rfl
  | cons p rest ih => exact ih _

/-- `List` leaves the memory as it is, and returns the names of the store. -/
theorem List_run (m : StoreMemory) :
    (StoreMemory.List m).2 = m ∧ (StoreMemory.List m).1 = m.view.List := by
  have h : (m.view.specs.entries.foldl (fun names kv => names ++ [kv.1]) ([] : List String))
      = m.specs.keys.foldl (fun names name => names ++ [name]) [] := by
    rw [← foldl_append_map_fst]
    have hk : m.view.specs.entries.map Prod.fst = m.specs.keys := by
      unfold StoreMemory.view GoMap.mapValues GoMap.keys
      simp only [List.map_map]
      rfl
    rw [hk]
  have hrun : StoreMemory.List m
      = (.ok (sortStrings (m.specs.keys.foldl (fun names name => names ++ [name]) [])), m) := rfl
  rw [hrun]
  unfold FileSpecStore.List
  simp only [h]
  exact ⟨trivial, trivial⟩

/-- `Forward` leaves the memory as it is, and returns what `Forward` returns on
the store that the memory holds. -/
theorem Forward_run (t : Transport) (req : Request) (m : StoreMemory) :
    (StoreMemory.Forward t req m).2 = m ∧
    (StoreMemory.Forward t req m).1 = Forward t m.view.toSpecStore req := by
  have hv : m.view.configs.get? req.Service = (m.configs.get? req.Service).map m.structs :=
    GoMap.get?_mapValues _ _ _
  unfold StoreMemory.Forward StoreMemory.GetConfig StoreMemory.indexConfigs StoreMemory.load
  unfold Forward FileSpecStore.toSpecStore FileSpecStore.GetConfig
  cases hm : isValidHTTPMethod req.Method with
  | false => exact ⟨rfl, rfl⟩
  | true =>
    simp only [Bool.not_true, Bool.false_eq_true, if_false, hv]
    simp only [bind, StateT.bind, get, getThe, MonadStateOf.get, StateT.get, pure, StateT.pure]
    cases m.configs.get? req.Service with
    | none => exact ⟨rfl, rfl⟩
    | some config =>
      simp only [Option.map_some', bind, StateT.bind, get, getThe, MonadStateOf.get,
        StateT.get, pure, StateT.pure]
      cases NewRequest t req.Method ((m.structs config).BaseURL ++ req.Path)
          (if req.Body.length > 0 then some req.Body else none) with
      | error e => exact ⟨rfl, rfl⟩
      | ok httpReq =>
        simp only [bind, StateT.bind, get, getThe, MonadStateOf.get, StateT.get, pure,
          StateT.pure]
        cases t.Do _ with
        | error e => exact ⟨rfl, rfl⟩
        | ok httpResp =>
          simp only []
          cases httpResp.Body with
          | error e => exact ⟨rfl, rfl⟩
          | ok respBody => exact ⟨rfl, rfl⟩

theorem Call.run_frame (c : Call) (m : StoreMemory) : (c.run m).2 = m := by
  cases c with
  | List => exact (List_run m).1
  | Get name => exact (Get_run name m).1
  | GetConfig name => exact (GetConfig_run name m).1
  | Forward t req => exact (Forward_run t req m).1

theorem runCalls_frame (calls : List Call) (m : StoreMemory) : (runCalls calls m).2 = m := by
  induction calls generalizing m with
  | nil => rfl
  | cons c cs ih =>
    have h : (runCalls (c :: cs) m).2 = (runCalls cs (c.run m).2).2 := rfl
    rw [h, Call.run_frame, ih]

theorem enumFrom_get? {α : Type} (l : List α) (n : Nat) :
    ∀ p ∈ l.enumFrom n, l.get? (p.1 - n) = some p.2 := by
  induction l generalizing n with
  | nil => intro p hp; cases hp
  | cons a rest ih =>
    intro p hp
    simp only [List.enumFrom, List.mem_cons] at hp
    rcases hp with rfl | hp
    · simp
    · have h1 := ih (n + 1) p hp
      have hle : n + 1 ≤ p.1 := List.le_fst_of_mem_enumFrom hp
      have h2 : p.1 - n = (p.1 - (n + 1)) + 1 := by omega
      rw [h2]
      exact h1

theorem enum_map_get? {V : Type} (l : List (String × V)) (d : V) :
    (l.enum.map (fun p => (p.2.1, p.1))).map
        (fun p => (p.1, ((l.get? p.2).map Prod.snd).getD d)) = l := by
  rw [List.map_map]
  have h : ∀ p ∈ l.enum,
      ((fun p : String × Nat => (p.1, ((l.get? p.2).map Prod.snd).getD d)) ∘
        (fun p : Nat × String × V => (p.2.1, p.1))) p = Prod.snd p := by
    intro p hp
    have hg := enumFrom_get? l 0 p hp
    simp only [Nat.sub_zero] at hg
    show (p.2.1, ((l.get? p.1).map Prod.snd).getD d) = p.2
    rw [hg]
    rfl
  rw [List.map_congr_left h, List.enum_map_snd]

/-- The memory laid out for a store holds that store. -/
theorem view_ofStore (s : FileSpecStore) : (StoreMemory.ofStore s).view = s := by
  obtain ⟨dir, ⟨specs, hs⟩, ⟨configs, hc⟩⟩ := s
  unfold StoreMemory.view StoreMemory.ofStore GoMap.mapValues
  simp only [FileSpecStore.mk.injEq, GoMap.mk.injEq, true_and]
  exact ⟨enum_map_get? specs [], enum_map_get? configs _⟩

/-- A write through the slice that `Get` returned reaches the store: in the
memory of `oneSpecStore`, the caller `writeThroughGet` turns the spec `{}` of
the name `a` into `[}`.  The four methods hold no such write. -/
theorem write_through_alias :
    (StoreMemory.ofStore oneSpecStore).view.specs.get? "a" = some (ascii "\x7b\x7d") ∧
    (writeThroughGet (StoreMemory.ofStore oneSpecStore)).2.view.specs.get? "a"
      = some (ascii "[\x7d") := by
  decide

/-- C20: whatever calls of `List`, `Get`, `GetConfig` and `Forward` are made,
one after the other, on the memory of a store, the memory after them is the
memory before them: the spec map, the config map, and the arrays and structs
that their values refer to.  So every call made after them returns what it
returns before them, and what `Get`, `GetConfig`, `List` and `Forward` yield
after them is what the store held at the start.  Every `FileSpecStore`, a
store built by `NewFileSpecStore` among them, is held by some memory. -/
theorem store_fixed_by_calls (m : StoreMemory) (calls : List Call) :
    (runCalls calls m).2 = m ∧
    (∀ c : Call, (c.run (runCalls calls m).2).1 = (c.run m).1) ∧
    (∀ name, ((StoreMemory.Get name (runCalls calls m).2).1).map (runCalls calls m).2.arrays
      = m.view.Get name) ∧
    (∀ name,
      ((StoreMemory.GetConfig name (runCalls calls m).2).1).map (runCalls calls m).2.structs
        = m.view.GetConfig name) ∧
    (StoreMemory.List (runCalls calls m).2).1 = m.view.List ∧
    (∀ t req, (StoreMemory.Forward t req (runCalls calls m).2).1
      = Forward t m.view.toSpecStore req) ∧
    (∀ s : FileSpecStore, (StoreMemory.ofStore s).view = s) := by
  rw [runCalls_frame]
  exact ⟨rfl, fun _ => rfl, fun name => (Get_run name m).2, fun name => (GetConfig_run name m).2,
    (List_run m).2, fun t req => (Forward_run t req m).2, view_ofStore⟩

/-! ## The invariant of a loaded store (C21) -/

/-- A config is stored only under the service name of a spec file that was
loaded and whose document has an `x-proxy-config` member. -/
theorem config_has_document (fs : FileSystem) (specsDir : String) (store : FileSpecStore)
    (h : NewFileSpecStore fs specsDir = .ok store) (name : String) (config : ServiceConfig)
    (hget : store.configs.get? name = some config) :
    ∃ data doc raw, store.specs.get? name = some data ∧ unmarshalSpecDoc data = .ok doc ∧
      doc.lookup "x-proxy-config" = some raw := by
  obtain ⟨_, entries, hdir, hnd, hload⟩ := NewFileSpecStore_ok fs specsDir store h
  have hmem : name ∈ serviceNames entries := by
    by_contra hnot
    have hframe := (loadEntries_frame fs entries _ store [] hload name (by
      intro e he hspec heq
      apply hnot
      unfold serviceNames
      exact List.mem_map.2 ⟨e, List.mem_filter.2 ⟨he, hspec⟩, heq⟩)).2
    rw [hframe, GoMap.get?_empty] at hget
    cases hget
  unfold serviceNames at hmem
  obtain ⟨e, he, rfl⟩ := List.mem_map.1 hmem
  rw [List.mem_filter] at he
  obtain ⟨data, doc, _, hdoc, hspec, hcfg⟩ :=
    loadEntries_loaded fs entries _ store [] hload hnd e he.1 he.2
  rcases hcfg with ⟨_, hc⟩ | ⟨raw, _, hraw, _, _⟩
  · rw [hc, GoMap.get?_empty] at hget
    cases hget
  · exact ⟨data, doc, raw, hspec, hdoc, hraw⟩

/-- C21: in every store returned by `NewFileSpecStore` a service name has at
most one document and at most one config, and whenever `GetConfig(name)`
succeeds, `Get(name)` succeeds with a document that has a top-level
`x-proxy-config` member and `name` is in the result of `List`. -/
theorem store_invariant (fs : FileSystem) (specsDir : String) (store : FileSpecStore)
    (h : NewFileSpecStore fs specsDir = .ok store) :
    store.specs.keys.Nodup ∧ store.configs.keys.Nodup ∧
    (∀ name d₁ d₂, store.Get name = .ok d₁ → store.Get name = .ok d₂ → d₁ = d₂) ∧
    (∀ name c₁ c₂, store.GetConfig name = .ok c₁ → store.GetConfig name = .ok c₂ → c₁ = c₂) ∧
    ∀ name config, store.GetConfig name = .ok config →
      ∃ data doc raw names, store.Get name = .ok data ∧ unmarshalSpecDoc data = .ok doc ∧
        doc.lookup "x-proxy-config" = some raw ∧ store.List = .ok names ∧ name ∈ names := by
  refine ⟨store.specs.nodup, store.configs.nodup, ?_, ?_, ?_⟩
  · intro name d₁ d₂ h₁ h₂
    rw [h₁] at h₂
    cases h₂
    rfl
  · intro name c₁ c₂ h₁ h₂
    rw [h₁] at h₂
    cases h₂
    rfl
  · intro name config hcfg
    have hget : store.configs.get? name = some config := by
      unfold FileSpecStore.GetConfig at hcfg
      cases hg : store.configs.get? name with
      | none => simp [hg] at hcfg
      | some c =>
        simp only [hg] at hcfg
        cases hcfg
        rfl
    obtain ⟨data, doc, raw, hspec, hdoc, hraw⟩ :=
      config_has_document fs specsDir store h name config hget
    refine ⟨data, doc, raw, _, ?_, hdoc, hraw, store.List_eq, ?_⟩
    · unfold FileSpecStore.Get
      rw [hspec]
    · rw [(sortStrings_perm _).mem_iff, GoMap.mem_keys_iff, hspec]
      rfl

set_option maxRecDepth 100000 in
/-- C21 at the directory whose single file holds the spec of the repository's
test `GetConfig_WithAuth`. -/
theorem store_invariant_witness :
    authStore.specs.keys.Nodup ∧ authStore.configs.keys.Nodup ∧
    (∀ name d₁ d₂, authStore.Get name = .ok d₁ → authStore.Get name = .ok d₂ → d₁ = d₂) ∧
    (∀ name c₁ c₂, authStore.GetConfig name = .ok c₁ → authStore.GetConfig name = .ok c₂ →
      c₁ = c₂) ∧
    ∀ name config, authStore.GetConfig name = .ok config →
      ∃ data doc raw names, authStore.Get name = .ok data ∧ unmarshalSpecDoc data = .ok doc ∧
        doc.lookup "x-proxy-config" = some raw ∧ authStore.List = .ok names ∧ name ∈ names :=
  store_invariant (singleFile authSpec) "specs" authStore rfl

/-! ## The response writer -/

theorem lookup_filter_ne {V : Type} (l : List (String × V)) (k k' : String) (hne : k' ≠ k) :
    (l.filter (fun p => p.1 != k)).lookup k' = l.lookup k' := by
  induction l with
  | nil => rfl
  | cons p rest ih =>
    obtain ⟨a, v⟩ := p
    by_cases ha : a = k
    · subst ha
      have h1 : (k' == a) = false := by simpa using hne
      simp [List.filter, List.lookup, h1, ih]
    · have h2 : (a != k) = true := by simpa using ha
      by_cases hk : k' = a
      · subst hk
        simp [List.filter, h2, List.lookup]
      · have h3 : (k' == a) = false := by simpa using hk
        simp [List.filter, h2, List.lookup, h3, ih]

theorem Header.get?_Del_ne (h : Header) (key k : String)
    (hne : k ≠ CanonicalMIMEHeaderKey key) :
    GoMap.get? (Header.Del h key) k = GoMap.get? h k :=
  lookup_filter_ne h.entries _ k hne

theorem httpError_wroteHeader (w : ResponseWriter) (error : String) (code : Int)
    (hfresh : w.wroteHeader = none) :
    (httpError w error code).wroteHeader
      = some (code, Header.Set (Header.Set (Header.Del w.header "Content-Length")
          "Content-Type" "text/plain; charset=utf-8") "X-Content-Type-Options" "nosniff") ∧
    (httpError w error code).body = w.body ++ [.bytes (ascii (error ++ "\n"))] := by
  simp [httpError, ResponseWriter.Write, ResponseWriter.WriteHeader, ResponseWriter.SetHeader,
    ResponseWriter.DelHeader, hfresh]

theorem httpError_statusCode (w : ResponseWriter) (error : String) (code : Int)
    (hfresh : w.wroteHeader = none) : (httpError w error code).statusCode = code := by
  unfold ResponseWriter.statusCode
  rw [(httpError_wroteHeader w error code hfresh).1]

theorem Header.get?_Set_ne (h : Header) (key value k : String)
    (hne : k ≠ CanonicalMIMEHeaderKey key) :
    GoMap.get? (Header.Set h key value) k = GoMap.get? h k :=
  GoMap.get?_set_ne h _ k _ hne

theorem Header.get?_Set_self (h : Header) (key value : String) :
    GoMap.get? (Header.Set h key value) (CanonicalMIMEHeaderKey key) = some [value] :=
  GoMap.get?_set_self h _ _

/-- `http.Error` sends the header of the writer with `Content-Length` deleted,
`Content-Type` and `X-Content-Type-Options` set, and every other name as it
was. -/
theorem httpError_responseHeader (w : ResponseWriter) (error : String) (code : Int)
    (hfresh : w.wroteHeader = none) (k : String) (h1 : k ≠ "Content-Type")
    (h2 : k ≠ "X-Content-Type-Options") (h3 : k ≠ "Content-Length") :
    GoMap.get? (httpError w error code).responseHeader k = GoMap.get? w.header k := by
  unfold ResponseWriter.responseHeader
  rw [(httpError_wroteHeader w error code hfresh).1]
  simp only []
  rw [Header.get?_Set_ne _ _ _ k (by
      rw [show CanonicalMIMEHeaderKey "X-Content-Type-Options" = "X-Content-Type-Options" by decide]
      exact h2),
    Header.get?_Set_ne _ _ _ k (by rw [canonical_content_type]; exact h1),
    Header.get?_Del_ne _ _ k (by
      rw [show CanonicalMIMEHeaderKey "Content-Length" = "Content-Length" by decide]
      exact h3)]

/-! ## Headers that a handler leaves alone -/

theorem holds_SetHeader (w : ResponseWriter) (key value k : String) (v : Option (List String))
    (hne : k ≠ CanonicalMIMEHeaderKey key) (h : w.holds k v) :
    (w.SetHeader key value).holds k v := by
  unfold ResponseWriter.holds ResponseWriter.responseHeader at *
  unfold ResponseWriter.SetHeader
  cases hw : w.wroteHeader with
  | none =>
    simp only [hw] at h ⊢
    rw [Header.get?_Set_ne _ _ _ k hne]
    exact ⟨h.1, h.1⟩
  | some p =>
    simp only [hw] at h ⊢
    rw [Header.get?_Set_ne _ _ _ k hne]
    exact h

theorem holds_DelHeader (w : ResponseWriter) (key k : String) (v : Option (List String))
    (hne : k ≠ CanonicalMIMEHeaderKey key) (h : w.holds k v) :
    (w.DelHeader key).holds k v := by
  unfold ResponseWriter.holds ResponseWriter.responseHeader at *
  unfold ResponseWriter.DelHeader
  cases hw : w.wroteHeader with
  | none =>
    simp only [hw] at h ⊢
    rw [Header.get?_Del_ne _ _ k hne]
    exact ⟨h.1, h.1⟩
  | some p =>
    simp only [hw] at h ⊢
    rw [Header.get?_Del_ne _ _ k hne]
    exact h

theorem holds_WriteHeader (w : ResponseWriter) (code : Int) (k : String)
    (v : Option (List String)) (h : w.holds k v) : (w.WriteHeader code).holds k v := by
  unfold ResponseWriter.holds ResponseWriter.responseHeader at *
  unfold ResponseWriter.WriteHeader
  cases hw : w.wroteHeader with
  | none =>
    simp only [hw] at h ⊢
    exact ⟨h.1, h.1⟩
  | some p =>
    simp only [hw] at h ⊢
    exact h

theorem holds_Write (w : ResponseWriter) (item : Written) (k : String)
    (v : Option (List String)) (h : w.holds k v) : (w.Write item).holds k v := by
  have h' := holds_WriteHeader w 200 k v h
  unfold ResponseWriter.holds ResponseWriter.responseHeader at *
  unfold ResponseWriter.Write
  exact h'

theorem holds_httpError (w : ResponseWriter) (error : String) (code : Int) (k : String)
    (v : Option (List String)) (h1 : k ≠ "Content-Type") (h2 : k ≠ "X-Content-Type-Options")
    (h3 : k ≠ "Content-Length") (h : w.holds k v) : (httpError w error code).holds k v := by
  unfold httpError
  apply holds_Write
  apply holds_WriteHeader
  apply holds_SetHeader _ _ _ _ _ (by
    rw [show CanonicalMIMEHeaderKey "X-Content-Type-Options" = "X-Content-Type-Options" by decide]
    exact h2)
  apply holds_SetHeader _ _ _ _ _ (by rw [canonical_content_type]; exact h1)
  exact holds_DelHeader _ _ _ _ (by
    rw [show CanonicalMIMEHeaderKey "Content-Length" = "Content-Length" by decide]
    exact h3) h

/-! ## The handlers (C22, C23) -/

/-- C22: on a writer on which no status code was sent yet, `Handle` answers 400
without calling `Forward` when the body does not decode, 502 when `Forward`
fails, which it does for an invalid method and for an unknown service among
others, and 200 when `Forward` succeeds, whatever status code the response of
`Forward` holds; that response is then what is handed to the JSON encoder. -/
theorem proxy_handler_status (decode : Bytes → Except String Request) (t : Transport)
    (store : SpecStore) (w : ResponseWriter) (r : InboundRequest)
    (hfresh : w.wroteHeader = none) :
    (∀ e, decode r.Body = .error e →
      (ProxyHandler.Handle decode t store w r).1.statusCode = 400 ∧
      (ProxyHandler.Handle decode t store w r).2 = []) ∧
    (∀ req e, decode r.Body = .ok req → (Forward t store req).result = .error e →
      (ProxyHandler.Handle decode t store w r).1.statusCode = 502 ∧
      (ProxyHandler.Handle decode t store w r).2 = [req]) ∧
    (∀ req, decode r.Body = .ok req → isValidHTTPMethod req.Method = false →
      (ProxyHandler.Handle decode t store w r).1.statusCode = 502) ∧
    (∀ req e, decode r.Body = .ok req → isValidHTTPMethod req.Method = true →
      store.GetConfig req.Service = .error e →
      (ProxyHandler.Handle decode t store w r).1.statusCode = 502) ∧
    (∀ req resp, decode r.Body = .ok req → (Forward t store req).result = .ok resp →
      (ProxyHandler.Handle decode t store w r).1.statusCode = 200 ∧
      (ProxyHandler.Handle decode t store w r).2 = [req] ∧
      (ProxyHandler.Handle decode t store w r).1.body = w.body ++ [.encoded resp] ∧
      GoMap.get? (ProxyHandler.Handle decode t store w r).1.responseHeader "Content-Type"
        = some ["application/json"]) := by
  have hfail : ∀ req e, decode r.Body = .ok req → (Forward t store req).result = .error e →
      (ProxyHandler.Handle decode t store w r).1.statusCode = 502 ∧
      (ProxyHandler.Handle decode t store w r).2 = [req] := by
    intro req e hd hf
    simp only [ProxyHandler.Handle, hd, hf]
    exact ⟨httpError_statusCode w _ 502 hfresh, trivial⟩
  refine ⟨?_, hfail, ?_, ?_, ?_⟩
  · intro e hd
    simp only [ProxyHandler.Handle, hd]
    exact ⟨httpError_statusCode w _ 400 hfresh, trivial⟩
  · intro req hd hm
    have hf : (Forward t store req).result = .error (.invalidHTTPMethod req.Method) := by
      unfold Forward
      simp [hm]
    exact (hfail req _ hd hf).1
  · intro req e hd hm hcfg
    have hf : (Forward t store req).result = .error (.serviceNotFound req.Service) := by
      unfold Forward
      simp [hm, hcfg]
    exact (hfail req _ hd hf).1
  · intro req resp hd hf
    simp only [ProxyHandler.Handle, hd, hf]
    simp [ResponseWriter.Write, ResponseWriter.WriteHeader, ResponseWriter.SetHeader,
      ResponseWriter.statusCode, ResponseWriter.responseHeader, hfresh]
    rw [← canonical_content_type]
    exact Header.get?_Set_self _ _ _

/-- C22 at a fresh writer, a body that decodes to a `POST` of `{"name":"test"}`
and a backend that answers 503. -/
theorem proxy_handler_status_witness :
    (ProxyHandler.Handle
      (decodeOnly (ascii "request")
        (plainRequest "POST" "/items" (ascii "\x7b\"name\":\"test\"\x7d")))
      (echoStatusTransport 503) emptyConfigStore freshWriter
      { Method := "POST", PathValues := [], Body := ascii "request" }).1.statusCode = 200 ∧
    (ProxyHandler.Handle
      (decodeOnly (ascii "request")
        (plainRequest "POST" "/items" (ascii "\x7b\"name\":\"test\"\x7d")))
      (echoStatusTransport 503) emptyConfigStore freshWriter
      { Method := "POST", PathValues := [], Body := ascii "request" }).1.body
        = freshWriter.body ++
          [.encoded ⟨503, GoMap.empty, ascii "\x7b\"name\":\"test\"\x7d"⟩] :=
  have h := (proxy_handler_status
    (decodeOnly (ascii "request")
      (plainRequest "POST" "/items" (ascii "\x7b\"name\":\"test\"\x7d")))
    (echoStatusTransport 503) emptyConfigStore freshWriter
    { Method := "POST", PathValues := [], Body := ascii "request" } rfl).2.2.2.2
      (plainRequest "POST" "/items" (ascii "\x7b\"name\":\"test\"\x7d"))
      { StatusCode := 503, Headers := GoMap.empty,
        Body := ascii "\x7b\"name\":\"test\"\x7d" } rfl rfl
  ⟨h.1, h.2.2.1⟩

/-- C23: on a writer on which no status code was sent yet, `Get` answers 400
without calling the store when the path value `service` is empty, 404 when
`Get` of the store fails for that name, and otherwise 200 with the
`Content-Type` `application/json` and, as its body, the bytes that the store
returned. -/
theorem specs_handler_get_status (store : SpecStore) (w : ResponseWriter) (r : InboundRequest)
    (hfresh : w.wroteHeader = none) :
    (r.PathValue "service" = "" →
      (SpecsHandler.Get store w r).1.statusCode = 400 ∧ (SpecsHandler.Get store w r).2 = []) ∧
    (∀ e, r.PathValue "service" ≠ "" → store.Get (r.PathValue "service") = .error e →
      (SpecsHandler.Get store w r).1.statusCode = 404 ∧
      (SpecsHandler.Get store w r).2 = [r.PathValue "service"]) ∧
    (∀ spec, r.PathValue "service" ≠ "" → store.Get (r.PathValue "service") = .ok spec →
      (SpecsHandler.Get store w r).1.statusCode = 200 ∧
      GoMap.get? (SpecsHandler.Get store w r).1.responseHeader "Content-Type"
        = some ["application/json"] ∧
      (SpecsHandler.Get store w r).1.body = w.body ++ [.bytes spec] ∧
      (SpecsHandler.Get store w r).2 = [r.PathValue "service"]) := by
  refine ⟨?_, ?_, ?_⟩
  · intro hempty
    simp only [SpecsHandler.Get, hempty, if_true]
    exact ⟨httpError_statusCode w _ 400 hfresh, trivial⟩
  · intro e hne hget
    simp only [SpecsHandler.Get, hne, if_false, hget]
    exact ⟨httpError_statusCode w _ 404 hfresh, trivial⟩
  · intro spec hne hget
    simp only [SpecsHandler.Get, hne, if_false, hget]
    simp [ResponseWriter.Write, ResponseWriter.WriteHeader, ResponseWriter.SetHeader,
      ResponseWriter.statusCode, ResponseWriter.responseHeader, hfresh]
    rw [← canonical_content_type]
    exact Header.get?_Set_self _ _ _

/-- C23 at a fresh writer and the three requests of the repository's tests: no
path value, the name `nonexistent`, and the name `svc` of a stored document. -/
theorem specs_handler_get_status_witness :
    (SpecsHandler.Get emptyConfigStore freshWriter
      { Method := "GET", PathValues := [], Body := [] }).1.statusCode = 400 ∧
    (SpecsHandler.Get emptyConfigStore freshWriter
      { Method := "GET", PathValues := [("service", "nonexistent")], Body := [] }).1.statusCode
        = 404 ∧
    (SpecsHandler.Get emptyConfigStore freshWriter
      { Method := "GET", PathValues := [("service", "svc")], Body := [] }).1.body
        = freshWriter.body ++ [.bytes (ascii "\x7b\x7d")] :=
  ⟨((specs_handler_get_status emptyConfigStore freshWriter
      { Method := "GET", PathValues := [], Body := [] } rfl).1 rfl).1,
   ((specs_handler_get_status emptyConfigStore freshWriter
      { Method := "GET", PathValues := [("service", "nonexistent")], Body := [] } rfl).2.1
        (.specNotFound "nonexistent") (by decide) rfl).1,
   ((specs_handler_get_status emptyConfigStore freshWriter
      { Method := "GET", PathValues := [("service", "svc")], Body := [] } rfl).2.2
        (ascii "\x7b\x7d") (by decide) rfl).2.2.1⟩

/-! ## The CORS middleware (C24) -/

theorem corsWriter_carries (w : ResponseWriter) : carriesCORS (corsWriter w).header := by
  have c1 : CanonicalMIMEHeaderKey "Access-Control-Allow-Origin"
      = "Access-Control-Allow-Origin" := by decide
  have c2 : CanonicalMIMEHeaderKey "Access-Control-Allow-Methods"
      = "Access-Control-Allow-Methods" := by decide
  have c3 : CanonicalMIMEHeaderKey "Access-Control-Allow-Headers"
      = "Access-Control-Allow-Headers" := by decide
  have c4 : CanonicalMIMEHeaderKey "Access-Control-Max-Age"
      = "Access-Control-Max-Age" := by decide
  simp only [carriesCORS, corsWriter, ResponseWriter.SetHeader, Header.Set, c1, c2, c3, c4]
  refine ⟨?_, ?_, ?_, ?_⟩
  · rw [GoMap.get?_set_ne _ _ _ _ (by decide), GoMap.get?_set_ne _ _ _ _ (by decide),
      GoMap.get?_set_ne _ _ _ _ (by decide)]
    exact GoMap.get?_set_self _ _ _
  · rw [GoMap.get?_set_ne _ _ _ _ (by decide), GoMap.get?_set_ne _ _ _ _ (by decide)]
    exact GoMap.get?_set_self _ _ _
  · rw [GoMap.get?_set_ne _ _ _ _ (by decide)]
    exact GoMap.get?_set_self _ _ _
  · exact GoMap.get?_set_self _ _ _

theorem carriesCORS_of_get? (h h' : Header) (hc : carriesCORS h)
    (hsame : ∀ k ∈ corsNames, GoMap.get? h' k = GoMap.get? h k) : carriesCORS h' := by
  unfold carriesCORS at hc ⊢
  rw [hsame _ (by decide), hsame _ (by decide), hsame _ (by decide), hsame _ (by decide)]
  exact hc

theorem cors_name_ne (k : String) (hk : k ∈ corsNames) :
    k ≠ "Content-Type" ∧ k ≠ "X-Content-Type-Options" ∧ k ≠ "Content-Length" ∧
    k ≠ "Allow" ∧ k ≠ "Location" ∧ k ≠ "Connection" := by
  simp only [corsNames, List.mem_cons, List.mem_singleton, List.not_mem_nil, or_false] at hk
  rcases hk with rfl | rfl | rfl | rfl <;> decide

/-- `Handle` leaves every header other than `Content-Type`,
`X-Content-Type-Options` and `Content-Length` as it got it. -/
theorem holds_Handle (decode : Bytes → Except String Request) (t : Transport)
    (store : SpecStore) (w : ResponseWriter) (r : InboundRequest) (k : String)
    (v : Option (List String)) (h1 : k ≠ "Content-Type") (h2 : k ≠ "X-Content-Type-Options")
    (h3 : k ≠ "Content-Length") (h : w.holds k v) :
    (ProxyHandler.Handle decode t store w r).1.holds k v := by
  unfold ProxyHandler.Handle
  cases decode r.Body with
  | error e => exact holds_httpError w _ 400 k v h1 h2 h3 h
  | ok req =>
    simp only []
    cases (Forward t store req).result with
    | error e => exact holds_httpError w _ 502 k v h1 h2 h3 h
    | ok resp =>
      exact holds_Write _ _ k v (holds_WriteHeader _ 200 k v
        (holds_SetHeader w _ _ k v (by rw [canonical_content_type]; exact h1) h))

/-- `Get` leaves every header other than `Content-Type`,
`X-Content-Type-Options` and `Content-Length` as it got it. -/
theorem holds_Get (store : SpecStore) (w : ResponseWriter) (r : InboundRequest) (k : String)
    (v : Option (List String)) (h1 : k ≠ "Content-Type") (h2 : k ≠ "X-Content-Type-Options")
    (h3 : k ≠ "Content-Length") (h : w.holds k v) :
    (SpecsHandler.Get store w r).1.holds k v := by
  unfold SpecsHandler.Get
  simp only []
  split
  · exact holds_httpError w _ 400 k v h1 h2 h3 h
  · cases store.Get (r.PathValue "service") with
    | error e => exact holds_httpError w _ 404 k v h1 h2 h3 h
    | ok spec =>
      exact holds_Write _ _ k v
        (holds_SetHeader w _ _ k v (by rw [canonical_content_type]; exact h1) h)

/-- `List` leaves every header other than `Content-Type`,
`X-Content-Type-Options` and `Content-Length` as it got it. -/
theorem holds_List (store : SpecStore) (w : ResponseWriter) (r : InboundRequest) (k : String)
    (v : Option (List String)) (h1 : k ≠ "Content-Type") (h2 : k ≠ "X-Content-Type-Options")
    (h3 : k ≠ "Content-Length") (h : w.holds k v) :
    (SpecsHandler.List store w r).holds k v := by
  unfold SpecsHandler.List
  cases store.List with
  | error e => exact holds_httpError w _ 500 k v h1 h2 h3 h
  | ok services =>
    exact holds_Write _ _ k v
      (holds_SetHeader w _ _ k v (by rw [canonical_content_type]; exact h1) h)

/-- `Check` leaves every header as it got it. -/
theorem holds_Check (w : ResponseWriter) (r : InboundRequest) (k : String)
    (v : Option (List String)) (h : w.holds k v) : (HealthHandler.Check w r).holds k v :=
  holds_Write _ _ k v (holds_WriteHeader w 200 k v h)

/-- `http.Redirect` leaves every header other than `Location` and
`Content-Type` as it got it. -/
theorem holds_Redirect (w : ResponseWriter) (r : InboundRequest) (location : String)
    (page : Bytes) (k : String) (v : Option (List String)) (h1 : k ≠ "Content-Type")
    (h2 : k ≠ "Location") (h : w.holds k v) : (Redirect w r location page).holds k v := by
  have hloc := holds_SetHeader w "Location" location k v
    (by rw [show CanonicalMIMEHeaderKey "Location" = "Location" by decide]; exact h2) h
  have hct := holds_SetHeader (w.SetHeader "Location" location) "Content-Type"
    "text/html; charset=utf-8" k v (by rw [canonical_content_type]; exact h1) hloc
  unfold Redirect
  simp only []
  split <;> split <;>
    first
    | exact holds_Write _ _ k v (holds_WriteHeader _ 301 k v hct)
    | exact holds_WriteHeader _ 301 k v hct
    | exact holds_Write _ _ k v (holds_WriteHeader _ 301 k v hloc)
    | exact holds_WriteHeader _ 301 k v hloc

/-- The mux with the handlers of `routes`, inside the logging middleware,
leaves the four CORS headers as it got them, whatever it finds for the
request. -/
theorem holds_mux (decode : Bytes → Except String Request) (t : Transport) (store : SpecStore)
    (find : InboundRequest → MuxChoice) (w : ResponseWriter) (r : InboundRequest) (k : String)
    (v : Option (List String)) (hk : k ∈ corsNames) (h : w.holds k v) :
    (Server.logging (ServeMux.ServeHTTP find (Server.handlers decode t store)) w r).holds
      k v := by
  obtain ⟨h1, h2, h3, h4, h5, h6⟩ := cors_name_ne k hk
  unfold Server.logging ServeMux.ServeHTTP
  cases find r with
  | registered route wildcards =>
    cases route with
    | health => exact holds_Check w { r with PathValues := wildcards } k v h
    | specsList => exact holds_List store w { r with PathValues := wildcards } k v h1 h2 h3 h
    | specsGet => exact holds_Get store w { r with PathValues := wildcards } k v h1 h2 h3 h
    | proxy =>
      exact holds_Handle decode t store w { r with PathValues := wildcards } k v h1 h2 h3 h
  | redirect location page => exact holds_Redirect w r location page k v h1 h5 h
  | methodNotAllowed allowedMethods =>
    exact holds_httpError _ _ 405 k v h1 h2 h3 (holds_SetHeader w "Allow" allowedMethods k v
      (by rw [show CanonicalMIMEHeaderKey "Allow" = "Allow" by decide]; exact h4) h)
  | notFound => exact holds_httpError w _ 404 k v h1 h2 h3 h
  | star http11 =>
    cases http11 with
    | false => exact holds_WriteHeader w 400 k v h
    | true =>
      exact holds_WriteHeader _ 400 k v (holds_SetHeader w "Connection" "close" k v
        (by rw [show CanonicalMIMEHeaderKey "Connection" = "Connection" by decide]; exact h6) h)

/-- C24: on a writer on which no status code was sent yet, the middleware sets
the four CORS headers before anything else.  For the method `OPTIONS` it
answers 204 with these headers and does not call the wrapped handler.  For
every other method it calls the wrapped handler exactly once, with the same
request and with the writer that carries the four headers, and its response
is the one of the wrapped handler.  The response of the handler that `routes`
returns carries the four headers for every request, whatever the mux finds
for it: one of the four handlers, a redirect, a method that is not allowed,
nothing, or the target `*`. -/
theorem cors_middleware (next : Handler) (w : ResponseWriter) (r : InboundRequest)
    (hfresh : w.wroteHeader = none) :
    carriesCORS (corsWriter w).header ∧ (corsWriter w).wroteHeader = none ∧
    (corsWriter w).body = w.body ∧
    (r.Method = "OPTIONS" →
      (Server.cors next w r).1.statusCode = 204 ∧
      carriesCORS (Server.cors next w r).1.responseHeader ∧
      (Server.cors next w r).2 = [] ∧ (Server.cors next w r).1.body = w.body) ∧
    (r.Method ≠ "OPTIONS" →
      (Server.cors next w r).2 = [(corsWriter w, r)] ∧
      (Server.cors next w r).1 = next (corsWriter w) r) ∧
    (∀ decode t store find,
      carriesCORS (Server.routes decode t store find w r).responseHeader) := by
  have hc := corsWriter_carries w
  have hfresh' : (corsWriter w).wroteHeader = none := by
    simp [corsWriter, ResponseWriter.SetHeader, hfresh]
  have hcors : ∀ nxt : Handler, r.Method ≠ "OPTIONS" →
      Server.cors nxt w r = (nxt (corsWriter w) r, [(corsWriter w, r)]) := by
    intro nxt hm
    simp [Server.cors, hm, corsWriter]
  have hoptions : ∀ nxt : Handler, r.Method = "OPTIONS" →
      Server.cors nxt w r = ((corsWriter w).WriteHeader 204, []) := by
    intro nxt hm
    simp [Server.cors, hm, corsWriter]
  have h204 : carriesCORS ((corsWriter w).WriteHeader 204).responseHeader := by
    simp only [ResponseWriter.WriteHeader, hfresh', ResponseWriter.responseHeader]
    exact hc
  refine ⟨hc, hfresh', by simp [corsWriter, ResponseWriter.SetHeader], ?_, ?_, ?_⟩
  · intro hm
    rw [hoptions next hm]
    refine ⟨?_, h204, rfl, ?_⟩
    · simp only [ResponseWriter.WriteHeader, hfresh', ResponseWriter.statusCode]
    · simp [ResponseWriter.WriteHeader, hfresh, corsWriter, ResponseWriter.SetHeader]
  · intro hm
    rw [hcors next hm]
    exact ⟨rfl, rfl⟩
  · intro decode t store find
    unfold Server.routes
    by_cases hm : r.Method = "OPTIONS"
    · rw [hoptions _ hm]
      exact h204
    · rw [hcors _ hm]
      refine carriesCORS_of_get? _ _ hc (fun k hk => ?_)
      have hstart : (corsWriter w).holds k (GoMap.get? (corsWriter w).header k) := by
        unfold ResponseWriter.holds ResponseWriter.responseHeader
        rw [hfresh']
        exact ⟨rfl, rfl⟩
      exact (holds_mux decode t store find (corsWriter w) r k _ hk hstart).2

/-- C24 at a fresh writer, for the `GET /health` of the repository's test and
for an `OPTIONS` request. -/
theorem cors_middleware_witness :
    carriesCORS (Server.routes (decodeOnly [] (plainRequest "GET" "/x" [])) echoTransport
      emptyConfigStore (fun _ => .registered .health [])
      freshWriter { Method := "GET", PathValues := [], Body := [] }).responseHeader ∧
    ((Server.cors HealthHandler.Check freshWriter
        { Method := "OPTIONS", PathValues := [], Body := [] }).1.statusCode = 204 ∧
      (Server.cors HealthHandler.Check freshWriter
        { Method := "OPTIONS", PathValues := [], Body := [] }).2 = []) :=
  ⟨(cors_middleware HealthHandler.Check freshWriter
      { Method := "GET", PathValues := [], Body := [] } rfl).2.2.2.2.2 _ _ _ _,
    ((cors_middleware HealthHandler.Check freshWriter
      { Method := "OPTIONS", PathValues := [], Body := [] } rfl).2.2.2.1 rfl).1,
    ((cors_middleware HealthHandler.Check freshWriter
      { Method := "OPTIONS", PathValues := [], Body := [] } rfl).2.2.2.1 rfl).2.2.1⟩

/-! ## The visiting order of the header maps (C26) -/

/-- Visiting the same entries in another order gives the same header, when
entries with one canonical name carry one value. -/
theorem foldl_Set_get?_congr (l l' : List (String × String)) (h h' : Header)
    (hperm : l'.Perm l)
    (hagree : ∀ p ∈ l, ∀ q ∈ l,
      CanonicalMIMEHeaderKey p.1 = CanonicalMIMEHeaderKey q.1 → p.2 = q.2)
    (hh : ∀ k, GoMap.get? h' k = GoMap.get? h k) (k : String) :
    GoMap.get? (l'.foldl (fun acc kv => Header.Set acc kv.1 kv.2) h') k
      = GoMap.get? (l.foldl (fun acc kv => Header.Set acc kv.1 kv.2) h) k := by
  by_cases hex : ∃ p ∈ l, CanonicalMIMEHeaderKey p.1 = k
  · obtain ⟨p, hp, hpk⟩ := hex
    rw [foldl_Set_get?_of_agree k p.2 l h
        (fun q hq hqk => hagree q hq p hp (hqk.trans hpk.symm)) (Or.inl ⟨p, hp, hpk⟩),
      foldl_Set_get?_of_agree k p.2 l' h'
        (fun q hq hqk => hagree q (hperm.mem_iff.1 hq) p hp (hqk.trans hpk.symm))
        (Or.inl ⟨p, hperm.mem_iff.2 hp, hpk⟩)]
  · rw [foldl_Set_get?_of_absent k l h (fun p hp hpk => hex ⟨p, hp, hpk⟩),
      foldl_Set_get?_of_absent k l' h'
        (fun p hp hpk => hex ⟨p, hperm.mem_iff.1 hp, hpk⟩)]
    exact hh k

theorem setHeaders_eq_foldl (h : Header) (m : Option (GoMap String)) :
    setHeaders h m = (entriesOf m).foldl (fun acc kv => Header.Set acc kv.1 kv.2) h := by
  cases m <;> rfl

theorem outboundHeader_get?_congr (config config' : ServiceConfig) (req req' : Request)
    (hbody : req'.Body = req.Body)
    (hpr : (entriesOf req'.Headers).Perm (entriesOf req.Headers))
    (hpc : (entriesOf config'.AuthHeaders).Perm (entriesOf config.AuthHeaders))
    (har : ∀ p ∈ entriesOf req.Headers, ∀ q ∈ entriesOf req.Headers,
      CanonicalMIMEHeaderKey p.1 = CanonicalMIMEHeaderKey q.1 → p.2 = q.2)
    (hac : ∀ p ∈ entriesOf config.AuthHeaders, ∀ q ∈ entriesOf config.AuthHeaders,
      CanonicalMIMEHeaderKey p.1 = CanonicalMIMEHeaderKey q.1 → p.2 = q.2) (k : String) :
    GoMap.get? (outboundHeader config' req') k = GoMap.get? (outboundHeader config req) k := by
  have hmerged : ∀ k, GoMap.get?
      (setHeaders (setHeaders GoMap.empty config'.AuthHeaders) req'.Headers) k
      = GoMap.get? (setHeaders (setHeaders GoMap.empty config.AuthHeaders) req.Headers) k := by
    intro k
    rw [setHeaders_eq_foldl, setHeaders_eq_foldl, setHeaders_eq_foldl, setHeaders_eq_foldl]
    exact foldl_Set_get?_congr _ _ _ _ hpr har
      (fun k => foldl_Set_get?_congr _ _ _ _ hpc hac (fun _ => rfl) k) k
  have hGet : Header.Get
      (setHeaders (setHeaders GoMap.empty config'.AuthHeaders) req'.Headers) "Content-Type"
      = Header.Get
        (setHeaders (setHeaders GoMap.empty config.AuthHeaders) req.Headers) "Content-Type" := by
    unfold Header.Get
    rw [hmerged]
  unfold outboundHeader
  simp only []
  rw [hbody, hGet]
  split
  · unfold Header.Set
    by_cases hk : k = CanonicalMIMEHeaderKey "Content-Type"
    · subst hk
      rw [GoMap.get?_set_self, GoMap.get?_set_self]
    · rw [GoMap.get?_set_ne _ _ _ _ hk, GoMap.get?_set_ne _ _ _ _ hk]
      exact hmerged k
  · exact hmerged k

/-- C26, as stated, fails: the request headers `Authorization: Bearer B` and
`authorization: Bearer C` give the outbound header `Authorization: Bearer C`
when visited in this order and `Authorization: Bearer B` when visited in the
other. -/
theorem header_order_counterexample :
    caseVariantHeadersReversed.entries.Perm caseVariantHeaders.entries ∧
    (Forward echoTransport emptyConfigStore (getRequest caseVariantHeaders [])).sent.map
      (fun r => r.Header.entries) = [[("Authorization", ["Bearer C"])]] ∧
    (Forward echoTransport emptyConfigStore (getRequest caseVariantHeadersReversed [])).sent.map
      (fun r => r.Header.entries) = [[("Authorization", ["Bearer B"])]] :=
  ⟨by decide, by decide, by decide⟩

/-- C26, amended: when in each of the two maps the entries whose names have
one canonical form carry one value, the outbound header is the same map
whatever order the entries of `config.AuthHeaders` and of `request.Headers`
are visited in. -/
theorem forward_header_order_independent (t t' : Transport) (store store' : SpecStore)
    (req req' : Request) (config config' : ServiceConfig) (r r' : HttpRequest)
    (hcfg : store.GetConfig req.Service = .ok config)
    (hcfg' : store'.GetConfig req'.Service = .ok config')
    (hbody : req'.Body = req.Body)
    (hpr : (entriesOf req'.Headers).Perm (entriesOf req.Headers))
    (hpc : (entriesOf config'.AuthHeaders).Perm (entriesOf config.AuthHeaders))
    (har : ∀ p ∈ entriesOf req.Headers, ∀ q ∈ entriesOf req.Headers,
      CanonicalMIMEHeaderKey p.1 = CanonicalMIMEHeaderKey q.1 → p.2 = q.2)
    (hac : ∀ p ∈ entriesOf config.AuthHeaders, ∀ q ∈ entriesOf config.AuthHeaders,
      CanonicalMIMEHeaderKey p.1 = CanonicalMIMEHeaderKey q.1 → p.2 = q.2)
    (hsent : r ∈ (Forward t store req).sent) (hsent' : r' ∈ (Forward t' store' req').sent) :
    ∀ k, GoMap.get? r'.Header k = GoMap.get? r.Header k := by
  obtain ⟨_, c, u, hc, _, rfl⟩ := Forward_sent t store req r hsent
  obtain ⟨_, c', u, hc', _, rfl⟩ := Forward_sent t' store' req' r' hsent'
  rw [hcfg] at hc
  cases hc
  rw [hcfg'] at hc'
  cases hc'
  exact outboundHeader_get?_congr config config' req req' hbody hpr hpc har hac

/-- C26 at two headers with different names, visited in the two orders: the
outbound header holds the same values under `Authorization` and under
`X-Api-Key`. -/
theorem forward_header_order_independent_witness :
    GoMap.get? (outboundRequest { BaseURL := "http://backend", AuthHeaders := none }
        (getRequest twoHeadersReversed [])
          (parseTarget "http://backend/x")).Header "Authorization"
      = GoMap.get? (outboundRequest { BaseURL := "http://backend", AuthHeaders := none }
        (getRequest twoHeaders [])
          (parseTarget "http://backend/x")).Header "Authorization" ∧
    GoMap.get? (outboundRequest { BaseURL := "http://backend", AuthHeaders := none }
        (getRequest twoHeadersReversed [])
          (parseTarget "http://backend/x")).Header "X-Api-Key"
      = GoMap.get? (outboundRequest { BaseURL := "http://backend", AuthHeaders := none }
        (getRequest twoHeaders [])
          (parseTarget "http://backend/x")).Header "X-Api-Key" :=
  have h := forward_header_order_independent echoTransport echoTransport emptyConfigStore
    emptyConfigStore (getRequest twoHeaders []) (getRequest twoHeadersReversed [])
    { BaseURL := "http://backend", AuthHeaders := none }
    { BaseURL := "http://backend", AuthHeaders := none } _ _ rfl rfl rfl
    (by decide) (by decide) (by decide) (by decide)
    (by rw [Forward_sent_of_accepted echoTransport emptyConfigStore (getRequest twoHeaders [])
          { BaseURL := "http://backend", AuthHeaders := none } _ (by decide) rfl rfl]
        exact List.mem_singleton_self _)
    (by rw [Forward_sent_of_accepted echoTransport emptyConfigStore
          (getRequest twoHeadersReversed [])
          { BaseURL := "http://backend", AuthHeaders := none } _ (by decide) rfl rfl]
        exact List.mem_singleton_self _)
  ⟨h "Authorization", h "X-Api-Key"⟩

/-! ## Letter case and canonical header names (C25) -/

theorem toNat_lt_of_valid (c : Char) (h : validHeaderFieldByte c = true) : c.toNat < 128 := by
  unfold validHeaderFieldByte at h
  simp only [Bool.or_eq_true] at h
  rcases h with h | h
  · simp only [Char.isAlphanum, Char.isAlpha, Char.isUpper, Char.isLower, Char.isDigit,
      Bool.or_eq_true, Bool.and_eq_true, decide_eq_true_eq] at h
    have hle : ∀ a b : UInt32, a ≤ b ↔ a.toNat ≤ b.toNat := fun a b => Iff.rfl
    simp only [hle] at h
    have e : c.val.toNat = c.toNat := rfl
    rw [e] at h
    have n1 : (65 : UInt32).toNat = 65 := rfl
    have n2 : (90 : UInt32).toNat = 90 := rfl
    have n3 : (97 : UInt32).toNat = 97 := rfl
    have n4 : (122 : UInt32).toNat = 122 := rfl
    have n5 : (48 : UInt32).toNat = 48 := rfl
    have n6 : (57 : UInt32).toNat = 57 := rfl
    simp only [n1, n2, n3, n4, n5, n6, ge_iff_le] at h
    omega
  · simp at h
    omega

/-- The rewriting of one character changes its letter case only, and depends
on the character only up to letter case; checked on the 128 ASCII characters. -/
theorem caseStep_ascii : ∀ n : Nat, n < 128 → ∀ upper : Bool,
    ((if upper && (Char.ofNat n).isLower then (Char.ofNat n).toUpper
      else if !upper && (Char.ofNat n).isUpper then (Char.ofNat n).toLower
      else Char.ofNat n).toLower = (Char.ofNat n).toLower) ∧
    ((if upper && (Char.ofNat n).isLower then (Char.ofNat n).toUpper
      else if !upper && (Char.ofNat n).isUpper then (Char.ofNat n).toLower
      else Char.ofNat n)
      = (if upper && (Char.ofNat n).toLower.isLower then (Char.ofNat n).toLower.toUpper
        else if !upper && (Char.ofNat n).toLower.isUpper then (Char.ofNat n).toLower.toLower
        else (Char.ofNat n).toLower)) ∧
    (validHeaderFieldByte (Char.ofNat n).toLower = validHeaderFieldByte (Char.ofNat n)) := by
  decide

theorem caseStep_valid (c : Char) (upper : Bool) (h : validHeaderFieldByte c = true) :
    ((if upper && c.isLower then c.toUpper else if !upper && c.isUpper then c.toLower
      else c).toLower = c.toLower) ∧
    ((if upper && c.isLower then c.toUpper else if !upper && c.isUpper then c.toLower else c)
      = (if upper && c.toLower.isLower then c.toLower.toUpper
        else if !upper && c.toLower.isUpper then c.toLower.toLower else c.toLower)) ∧
    (validHeaderFieldByte c.toLower = true) := by
  have hb := caseStep_ascii c.toNat (toNat_lt_of_valid c h) upper
  rw [Char.ofNat_toNat] at hb
  exact ⟨hb.1, hb.2.1, by rw [hb.2.2]; exact h⟩

/-- A character that is a token byte in lower case is a token byte. -/
theorem valid_of_toLower (d : Char) (h : validHeaderFieldByte d.toLower = true) :
    validHeaderFieldByte d = true := by
  by_cases hd : d.toNat < 128
  · have hb := (caseStep_ascii d.toNat hd true).2.2
    rw [Char.ofNat_toNat] at hb
    rw [← hb]
    exact h
  · have hlow : d.toLower = d := by
      unfold Char.toLower
      simp only []
      rw [if_neg (by omega)]
    rw [hlow] at h
    exact h

/-- On token bytes the canonical form depends on the name only up to letter
case, and has the letters of the name. -/
theorem canonicalMIMEHeaderKey_lower (cs ds : List Char) (upper : Bool)
    (hv : cs.all validHeaderFieldByte = true)
    (hcase : ds.map Char.toLower = cs.map Char.toLower) :
    canonicalMIMEHeaderKey upper ds = canonicalMIMEHeaderKey upper cs ∧
    ds.all validHeaderFieldByte = true ∧
    (canonicalMIMEHeaderKey upper cs).map Char.toLower = cs.map Char.toLower := by
  induction cs generalizing ds upper with
  | nil =>
    cases ds with
    | nil => exact ⟨rfl, rfl, rfl⟩
    | cons d ds => simp at hcase
  | cons c cs ih =>
    cases ds with
    | nil => simp at hcase
    | cons d ds =>
      simp only [List.map_cons, List.cons.injEq] at hcase
      simp only [List.all_cons, Bool.and_eq_true] at hv
      obtain ⟨hc1, hc2, hc3⟩ := caseStep_valid c upper hv.1
      have hdv : validHeaderFieldByte d = true :=
        valid_of_toLower d (by rw [hcase.1]; exact hc3)
      obtain ⟨_, hd2, _⟩ := caseStep_valid d upper hdv
      have hstep : (if upper && d.isLower then d.toUpper
          else if !upper && d.isUpper then d.toLower else d)
          = (if upper && c.isLower then c.toUpper
            else if !upper && c.isUpper then c.toLower else c) := by
        rw [hd2, hc2, hcase.1]
      simp only [canonicalMIMEHeaderKey, hstep, List.map_cons, List.all_cons, hdv, hc1,
        Bool.true_and, List.cons.injEq, true_and]
      obtain ⟨h1, h2, h3⟩ := ih ds _ hv.2 hcase.2
      exact ⟨h1, h2, h3⟩

theorem canonical_eq_of_lowerName_eq (k k' : String) (htok : isToken k = true)
    (hcase : lowerName k' = lowerName k) :
    CanonicalMIMEHeaderKey k' = CanonicalMIMEHeaderKey k := by
  obtain ⟨h1, h2, _⟩ := canonicalMIMEHeaderKey_lower k.toList k'.toList true htok hcase
  unfold CanonicalMIMEHeaderKey
  unfold isToken at htok
  rw [if_pos htok, if_pos h2, h1]

theorem lowerName_canonical (x : String) :
    lowerName (CanonicalMIMEHeaderKey x) = lowerName x := by
  unfold CanonicalMIMEHeaderKey
  split
  · rename_i hv
    exact (canonicalMIMEHeaderKey_lower x.toList x.toList true hv rfl).2.2
  · rfl

/-- A name that differs from `k` only in letter case and is not the canonical
form of `k` is the canonical form of no name that differs from `k` only in
letter case. -/
theorem canonical_ne_of_variant (k c x : String) (htok : isToken k = true)
    (hc : lowerName c = lowerName k) (hne : c ≠ CanonicalMIMEHeaderKey k) :
    CanonicalMIMEHeaderKey x ≠ c := by
  intro hx
  apply hne
  have hlow : lowerName x = lowerName k := by
    rw [← lowerName_canonical x, hx]
    exact hc
  rw [← hx]
  exact canonical_eq_of_lowerName_eq k x htok hlow

/-- C25, as stated, fails in three ways.  The names `X Y` and `x y` differ only
in letter case and hold a space: the outbound request carries both, each under
its own spelling.  With the config header `Authorization: Bearer A` and the
request headers `authorization: Bearer C` and `Authorization: Bearer B`,
visited in that order, the outbound request carries `Bearer B`, not the
`Bearer C` of the request header `authorization`.  With the config header
`Content-Type: text/plain`, the request header `content-type` with the empty
value and a body, the outbound request carries `application/json`. -/
theorem case_merge_counterexample :
    (∃ config, (oneServiceStore "X Y" "a").GetConfig "svc" = .ok config ∧
      ("X Y", "a") ∈ entriesOf config.AuthHeaders ∧
      ("x y", "b") ∈ entriesOf (getRequest spacedHeader []).Headers ∧
      lowerName "x y" = lowerName "X Y" ∧
      (Forward echoTransport (oneServiceStore "X Y" "a")
        (getRequest spacedHeader [])).sent.map
          (fun r => r.Header.entries) = [[("X Y", ["a"]), ("x y", ["b"])]]) ∧
    (∃ config, (oneServiceStore "Authorization" "Bearer A").GetConfig "svc" = .ok config ∧
      ("Authorization", "Bearer A") ∈ entriesOf config.AuthHeaders ∧
      ("authorization", "Bearer C")
        ∈ entriesOf (getRequest caseVariantHeadersReversed []).Headers ∧
      lowerName "authorization" = lowerName "Authorization" ∧
      (Forward echoTransport (oneServiceStore "Authorization" "Bearer A")
        (getRequest caseVariantHeadersReversed [])).sent.map
          (fun r => r.Header.entries) = [[("Authorization", ["Bearer B"])]]) ∧
    (∃ config, (oneServiceStore "Content-Type" "text/plain").GetConfig "svc" = .ok config ∧
      ("Content-Type", "text/plain") ∈ entriesOf config.AuthHeaders ∧
      ("content-type", "")
        ∈ entriesOf (getRequest lowerEmptyContentType (ascii "\x7b\x7d")).Headers ∧
      lowerName "content-type" = lowerName "Content-Type" ∧
      (Forward echoTransport (oneServiceStore "Content-Type" "text/plain")
        (getRequest lowerEmptyContentType (ascii "\x7b\x7d"))).sent.map
          (fun r => r.Header.entries) = [[("Content-Type", ["application/json"])]]) :=
  ⟨⟨_, rfl, by decide, by decide, by decide, by decide⟩,
   ⟨_, rfl, by decide, by decide, by decide, by decide⟩,
   ⟨_, rfl, by decide, by decide, by decide, by decide⟩⟩

/-- C25, amended: let `k` be a configured auth header whose name is a token,
and `k2` a request header with the value `vr` whose name differs from `k` only
in letter case.  When every request header whose name differs from `k` only in
letter case carries `vr`, and it is not the case that the canonical form of
`k` is `Content-Type`, `vr` is empty and the request has a body, then every
outbound request of `Forward` carries exactly the one value `vr` under the
canonical form of `k`, and nothing under any other name that differs from `k`
only in letter case. -/
theorem forward_merges_case_variants (t : Transport) (store : SpecStore) (req : Request)
    (config : ServiceConfig) (k k2 vc vr : String) (r : HttpRequest)
    (hcfg : store.GetConfig req.Service = .ok config)
    (_hk : (k, vc) ∈ entriesOf config.AuthHeaders)
    (hr : (k2, vr) ∈ entriesOf req.Headers)
    (htok : isToken k = true)
    (hcase : lowerName k2 = lowerName k)
    (hall : ∀ p ∈ entriesOf req.Headers, lowerName p.1 = lowerName k → p.2 = vr)
    (hct : ¬ (CanonicalMIMEHeaderKey k = "Content-Type" ∧ vr = "" ∧ req.Body ≠ []))
    (hsent : r ∈ (Forward t store req).sent) :
    GoMap.get? r.Header (CanonicalMIMEHeaderKey k) = some [vr] ∧
    ∀ c, lowerName c = lowerName k → c ≠ CanonicalMIMEHeaderKey k →
      GoMap.get? r.Header c = none := by
  obtain ⟨_, config2, u, hcfg2, _, rfl⟩ := Forward_sent t store req r hsent
  rw [hcfg] at hcfg2
  cases hcfg2
  constructor
  · refine outboundHeader_get?_of_merged config req _ vr
      (setHeaders_get?_of_agree _ vr req.Headers _ ?_
        (Or.inl ⟨(k2, vr), hr, canonical_eq_of_lowerName_eq k k2 htok hcase⟩)) hct
    intro p hp hpc
    apply hall p hp
    rw [← lowerName_canonical p.1, hpc]
    exact lowerName_canonical k
  · intro c hc hne
    have hmerged : GoMap.get?
        (setHeaders (setHeaders GoMap.empty config.AuthHeaders) req.Headers) c = none := by
      rw [setHeaders_get?_of_absent c req.Headers _
          (fun p _ => canonical_ne_of_variant k c p.1 htok hc hne),
        setHeaders_get?_of_absent c config.AuthHeaders _
          (fun p _ => canonical_ne_of_variant k c p.1 htok hc hne)]
      rfl
    show GoMap.get? (outboundHeader config req) c = none
    unfold outboundHeader
    simp only []
    split
    · unfold Header.Set
      rw [GoMap.get?_set_ne _ _ _ _
        (fun e => canonical_ne_of_variant k c "Content-Type" htok hc hne e.symm)]
      exact hmerged
    · exact hmerged

/-- C25 at the example of the claim: config `Authorization: Bearer A`, request
`authorization: Bearer B`. The outbound request carries `Bearer B` under
`Authorization` and nothing under `authorization`. -/
theorem forward_merges_case_variants_witness :
    GoMap.get? (outboundRequest
        { BaseURL := "http://backend"
          AuthHeaders := some (GoMap.set GoMap.empty "Authorization" "Bearer A") }
        (getRequest lowerBearerB [])
          (parseTarget "http://backend/x")).Header
      (CanonicalMIMEHeaderKey "Authorization") = some ["Bearer B"] ∧
    GoMap.get? (outboundRequest
        { BaseURL := "http://backend"
          AuthHeaders := some (GoMap.set GoMap.empty "Authorization" "Bearer A") }
        (getRequest lowerBearerB [])
          (parseTarget "http://backend/x")).Header "authorization" = none :=
  have h := forward_merges_case_variants echoTransport
    (oneServiceStore "Authorization" "Bearer A")
    (getRequest lowerBearerB []) _ "Authorization" "authorization" "Bearer A" "Bearer B" _
    rfl (by decide) (by decide) (by decide) (by decide) (by decide) (by decide)
    (by rw [Forward_sent_of_accepted echoTransport _ _ _ _ (by decide) rfl rfl]
        exact List.mem_singleton_self _)
  ⟨h.1, h.2 "authorization" (by decide) (by decide)⟩

end ApiPlayground
